import Mathlib

/-!
A shallow embedding of the post-processing pipeline implemented in
`backend/app/services/ai_analyzer.py` of the Vegard-Quality-System
repository: structural point detection over paginated text, evidence
grounding, score normalization and feedback assembly.

Modelling conventions:
* Python strings are Lean `String` / `List Char`; the ASCII fragments of the
  regex character classes `\s`, `\d`, `\w` are modelled explicitly.
* Python dicts with a fixed key schema are structures; `Option` fields are
  used wherever the code distinguishes an absent key from a present falsy
  value, and plain fields are used where the two are observationally
  conflated by every access in the source.
* `hashlib.sha256(...).hexdigest()` is replaced by a pure stand-in function
  (see `sha256Hex`); no property proved below depends on digest values,
  only on the hash being a pure, never-empty function of its input.
* In-place mutation of the JSON-like objects is modelled by functions
  returning the updated value.
-/

namespace VQS

/-- ASCII part of the Python regex class `\s`, also used by `str.strip`. -/
def isSpaceChar (c : Char) : Bool :=
  c == ' ' || c == '\t' || c == '\n' || c == '\r' || c == '\x0b' || c == '\x0c'

/-- ASCII part of the Python regex class `\d`. -/
def isDigitChar (c : Char) : Bool :=
  '0' ≤ c && c ≤ '9'

/-- ASCII part of the Python regex class `\w`, used by the `\b` boundaries of
`TG_RE`. -/
def isWordChar (c : Char) : Bool :=
  isDigitChar c || ('a' ≤ c && c ≤ 'z') || ('A' ≤ c && c ≤ 'Z') || c == '_'

/-- Python `str.strip()` (ASCII whitespace) on a character list. -/
def pyStripChars (cs : List Char) : List Char :=
  ((cs.dropWhile isSpaceChar).reverse.dropWhile isSpaceChar).reverse

/-- Python `str.strip()`. -/
def pyStrip (s : String) : String :=
  String.mk (pyStripChars s.data)

/-- Split a character list at every occurrence of `sep` (the pieces between
separators, like Python `str.split(sep)`); never returns `[]`. -/
def splitOnCharList (sep : Char) : List Char → List (List Char)
  | [] => [[]]
  | c :: rest =>
    if c == sep then [] :: splitOnCharList sep rest
    else
      match splitOnCharList sep rest with
      | [] => [[c]]
      | l :: ls => (c :: l) :: ls

/-- Python `str.splitlines()` for text whose only line terminator is `\n`
(the page texts produced by the extractor): all `\n`-separated pieces, with
the trailing empty piece dropped when the text ends in `\n`, and no pieces
at all for the empty string. -/
def splitLinesPy (s : String) : List String :=
  if s.data.isEmpty then []
  else
    let ps := splitOnCharList '\n' s.data
    let ps := if s.data.getLast? == some '\n' then ps.dropLast else ps
    ps.map String.mk

/-- Value of a non-empty decimal digit string (`int(...)` on the digits
captured by a regex can never raise). -/
def digitsToNat (cs : List Char) : Nat :=
  cs.foldl (fun n c => n * 10 + (c.toNat - '0'.toNat)) 0

/-- Stand-in for `hashlib.sha256(text.encode("utf-8")).hexdigest()`: a pure
function of the input string whose result is never the empty string (a real
hex digest has 64 characters).  No claim below depends on digest values. -/
def sha256Hex (s : String) : String :=
  "sha256:" ++ toString (s.data.foldl (fun h c => (h * 131 + c.toNat) % (2 ^ 64)) 7)

/-- Python `f"{n:04d}"` for a natural number. -/
def pad4 (n : Nat) : String :=
  let s := toString n
  String.mk (List.replicate (4 - s.length) '0') ++ s

/-! ### Page splitting (`PAGE_MARKER_RE` and `_split_pages`) -/

/-- Tail of the page-marker match: given the four letter characters and the
characters after `"[SIDE "`, read `(\d+)\]\n` and return the digits and the
remaining characters. -/
def matchMarkerTail (c1 c2 c3 c4 : Char) (rest : List Char) :
    Option (List Char × List Char) :=
  if (c1 == 'S' || c1 == 's') && (c2 == 'I' || c2 == 'i') &&
      (c3 == 'D' || c3 == 'd') && (c4 == 'E' || c4 == 'e') then
    match rest.dropWhile isDigitChar with
    | ']' :: '\n' :: r2 =>
      if (rest.takeWhile isDigitChar).isEmpty then none
      else some (rest.takeWhile isDigitChar, r2)
    | _ => none
  else none

/-- Attempt to read the page marker `\[SIDE (\d+)\]\n` (`PAGE_MARKER_RE`,
`re.IGNORECASE` on the letters) at the head of the list; returns the
page-number digits and the characters after the marker. -/
def matchMarker : List Char → Option (List Char × List Char)
  | '[' :: c1 :: c2 :: c3 :: c4 :: ' ' :: rest => matchMarkerTail c1 c2 c3 c4 rest
  | _ => none

theorem length_dropWhile_le_vqs (p : Char → Bool) (l : List Char) :
    (l.dropWhile p).length ≤ l.length := by
  induction l with
  | nil => simp [List.dropWhile]
  | cons c cs ih =>
    simp only [List.dropWhile]
    split
    · exact Nat.le_trans ih (by simp)
    · simp

theorem matchMarkerTail_length_lt {c1 c2 c3 c4 : Char} {rest ds r2 : List Char}
    (h : matchMarkerTail c1 c2 c3 c4 rest = some (ds, r2)) :
    r2.length + 2 ≤ rest.length := by
  unfold matchMarkerTail at h
  split at h
  · split at h
    case _ heq =>
      split at h
      · exact absurd h (by simp)
      · cases h
        have hle : (rest.dropWhile isDigitChar).length ≤ rest.length :=
          length_dropWhile_le_vqs isDigitChar rest
        rw [heq] at hle
        simp only [List.length_cons] at hle
        omega
    · exact absurd h (by simp)
  · exact absurd h (by simp)

theorem matchMarker_length_lt {cs ds r2 : List Char}
    (h : matchMarker cs = some (ds, r2)) : r2.length < cs.length := by
  unfold matchMarker at h
  split at h
  case _ c1 c2 c3 c4 rest =>
    have := matchMarkerTail_length_lt h
    simp only [List.length_cons]
    omega
  · exact absurd h (by simp)

/-- Leftmost occurrence of the page marker, mirroring how `re.split` scans
`report_text`: returns (text before the marker, page digits, text after). -/
def findMarker : List Char → Option (List Char × List Char × List Char)
  | [] => none
  | c :: cs =>
    match matchMarker (c :: cs) with
    | some (ds, r) => some ([], ds, r)
    | none =>
      match findMarker cs with
      | some (pre, ds, r) => some (c :: pre, ds, r)
      | none => none

theorem findMarker_length_lt {cs pre ds r : List Char}
    (h : findMarker cs = some (pre, ds, r)) : r.length < cs.length := by
  induction cs generalizing pre with
  | nil => exact absurd h (by simp [findMarker])
  | cons c cs ih =>
    simp only [findMarker] at h
    split at h
    case _ ds0 r0 heq =>
      cases h
      exact matchMarker_length_lt heq
    case _ heq =>
      split at h
      case _ pre1 ds1 r1 heq1 =>
        cases h
        exact Nat.lt_trans (ih heq1) (by simp)
      · exact absurd h (by simp)

/-- Fueled helper for `splitPagesFrom`; structural recursion on the fuel so
that concrete inputs evaluate inside the kernel.  Each recursive step
strictly shrinks `rest` (`findMarker_length_lt`), so any fuel of at least
`rest.length + 1` is sufficient and the fuel-exhausted branch is dead. -/
def splitPagesFromF : Nat → List Char → List Char → List (List Char × List Char)
  | 0, ds, rest => [(ds, rest)]
  | fuel + 1, ds, rest =>
    match findMarker rest with
    | none => [(ds, rest)]
    | some (pre, ds2, r2) => (ds, pre) :: splitPagesFromF fuel ds2 r2

/-- The (page digits, page body) pairs extracted by the odd/even walk over
`PAGE_MARKER_RE.split(report_text)` in `_split_pages`, starting from the
first marker already found. -/
def splitPagesFrom (ds rest : List Char) : List (List Char × List Char) :=
  splitPagesFromF (rest.length + 1) ds rest

/-- One page of the report, and also one (page, line) entry of the flattened
line index (`_extract_detected_points` uses the same dict shape for both). -/
structure Page where
  page : Nat
  text : String
deriving DecidableEq, Repr

/-! ### Noise stripping (`PDF_NOISE_PATTERNS` and `_strip_pdf_noise`) -/

/-- Case-insensitive (ASCII) literal-prefix test, for the `re.IGNORECASE`
noise patterns; first argument is the pattern literal. -/
def ciHasPrefix : List Char → List Char → Bool
  | [], _ => true
  | _ :: _, [] => false
  | p :: ps, c :: cs => (p.toLower == c.toLower) && ciHasPrefix ps cs

/-- First noise pattern `^\s*\d+\s*/\s*\d+\s+.*` as a prefix match. -/
def noiseSlash (cs : List Char) : Bool :=
  let r1 := cs.dropWhile isSpaceChar
  let d1 := r1.takeWhile isDigitChar
  let r2 := (r1.dropWhile isDigitChar).dropWhile isSpaceChar
  match r2 with
  | '/' :: r3 =>
    let r4 := r3.dropWhile isSpaceChar
    let d2 := r4.takeWhile isDigitChar
    let r5 := r4.dropWhile isDigitChar
    !d1.isEmpty && !d2.isEmpty &&
      (match r5 with
        | c :: _ => isSpaceChar c
        | [] => false)
  | _ => false

/-- Literals of the second noise pattern
`^\s*(BMTF|Byggmestrenes Takseringsforbund|EIERSKIFTERAPPORT|Tilstandsrapport|Norsk Takst).*`. -/
def noiseOrgNames : List String :=
  ["BMTF", "Byggmestrenes Takseringsforbund", "EIERSKIFTERAPPORT",
    "Tilstandsrapport", "Norsk Takst"]

/-- Second noise pattern as a prefix match (IGNORECASE). -/
def noiseOrg (cs : List Char) : Bool :=
  let r := cs.dropWhile isSpaceChar
  noiseOrgNames.any (fun n => ciHasPrefix n.data r)

/-- Expect one or more whitespace characters, returning the rest. -/
def expectWs1 (cs : List Char) : Option (List Char) :=
  match cs with
  | c :: _ => if isSpaceChar c then some (cs.dropWhile isSpaceChar) else none
  | [] => none

/-- Expect one or more digits, returning the rest. -/
def expectDigits1 (cs : List Char) : Option (List Char) :=
  match cs with
  | c :: _ => if isDigitChar c then some (cs.dropWhile isDigitChar) else none
  | [] => none

/-- Third noise pattern `^\s*Side\s+\d+\s+av\s+\d+\s*$` (IGNORECASE). -/
def noiseSide (cs : List Char) : Bool :=
  let r := cs.dropWhile isSpaceChar
  if ciHasPrefix "Side".data r then
    match expectWs1 (r.drop 4) with
    | none => false
    | some r1 =>
      match expectDigits1 r1 with
      | none => false
      | some r2 =>
        match expectWs1 r2 with
        | none => false
        | some r3 =>
          if ciHasPrefix "av".data r3 then
            match expectWs1 (r3.drop 2) with
            | none => false
            | some r4 =>
              match expectDigits1 r4 with
              | none => false
              | some r5 => (r5.dropWhile isSpaceChar).isEmpty
          else false
  else false

/-- Whether a line matches any entry of `PDF_NOISE_PATTERNS`. -/
def isNoiseLine (line : String) : Bool :=
  noiseSlash line.data || noiseOrg line.data || noiseSide line.data

/-- `_strip_pdf_noise`. -/
def stripPdfNoise (text : String) : String :=
  if text = "" then ""
  else
    pyStrip (String.intercalate "\n"
      ((splitLinesPy text).filter (fun l => !isNoiseLine l)))

/-- `_split_pages`: split on the page markers, parse each page number
(`int` on captured digits cannot raise) and clean each page body. -/
def splitPages (reportText : String) : List Page :=
  if reportText = "" then []
  else
    match findMarker reportText.data with
    | none => []
    | some (_pre, ds, r) =>
      (splitPagesFrom ds r).map (fun p =>
        { page := digitsToNat p.1,
          text := stripPdfNoise (pyStrip (String.mk p.2)) })

/-! ### Heading detection (`POINT_HEADER_RE`) -/

/-- Fueled greedy parse of `(?:\.\d+)*` groups from the front of `cs`,
returning the parsed digit groups and the unparsed remainder.  Each step
consumes at least two characters but only one unit of fuel, so any fuel of
at least `cs.length` makes the fuel-exhausted branch dead; `parseDotGroups`
supplies `cs.length + 1`. -/
def parseDotGroupsF : Nat → List Char → List (List Char) × List Char
  | 0, cs => ([], cs)
  | fuel + 1, cs =>
    match cs with
    | '.' :: rest =>
      let ds := rest.takeWhile isDigitChar
      if ds.isEmpty then ([], cs)
      else
        let gr := parseDotGroupsF fuel (rest.dropWhile isDigitChar)
        (ds :: gr.1, gr.2)
    | _ => ([], cs)

/-- Greedy parse of all `.digits` groups.  `POINT_HEADER_RE` allows between
1 and 4 such groups; the caller checks the count of the maximal run, which
is faithful because stopping the quantifier early always leaves a `.` where
the regex next requires whitespace, so no backtracking alternative can
succeed. -/
def parseDotGroups (cs : List Char) : List (List Char) × List Char :=
  parseDotGroupsF (cs.length + 1) cs

/-- The label string `d0.g1.g2...` captured as group 1. -/
def dotLabel (d0 : List Char) (gs : List (List Char)) : String :=
  String.mk (d0 ++ (gs.map (fun g => '.' :: g)).flatten)

/-- `POINT_HEADER_RE.match(line)` with the pattern
`^\s*(\d+(?:\.\d+){1,4})\s+(.*\S)?$`: returns group 1 (the label) and
group 2 (`none` when the optional title group did not participate).
After the mandatory whitespace, the rest of the line must either be all
whitespace (group 2 absent) or end in a non-whitespace character. -/
def matchPointHeader (line : String) : Option (String × Option String) :=
  let body := line.data.dropWhile isSpaceChar
  let d0 := body.takeWhile isDigitChar
  if d0.isEmpty then none
  else
    let gr := parseDotGroups (body.dropWhile isDigitChar)
    if gr.1.length < 1 || 4 < gr.1.length then none
    else
      match gr.2 with
      | [] => none
      | c :: r0 =>
        if !isSpaceChar c then none
        else
          match (c :: r0).dropWhile isSpaceChar with
          | [] => some (dotLabel d0 gr.1, none)
          | t0 :: t =>
            if isSpaceChar ((t0 :: t).getLast (List.cons_ne_nil t0 t)) then none
            else some (dotLabel d0 gr.1, some (String.mk (t0 :: t)))

/-! ### Condition-grade search (`TG_RE`) -/

/-- Word-boundary test for the character following a token. -/
def boundaryAfter (cs : List Char) : Bool :=
  match cs with
  | [] => true
  | c :: _ => !isWordChar c

/-- Word-boundary state before the current position (`\b` against the
preceding character; `none` means start of string). -/
def prevOkB (prev : Option Char) : Bool :=
  match prev with
  | none => true
  | some c => !isWordChar c

/-- Attempt to match `TG_RE` = `\bTG(?:0|1|2|3|IU)\b` at the current
position; `prev` is the character immediately before it (`none` at the
start of the string).  Note that the source pattern has no `re.IGNORECASE`
flag: the letters are matched case-sensitively. -/
def tgMatchHere (prev : Option Char) (cs : List Char) : Option String :=
  if !(prevOkB prev) then none
  else
    match cs with
    | 'T' :: 'G' :: rest =>
      match rest with
      | 'I' :: 'U' :: r => if boundaryAfter r then some "TGIU" else none
      | c :: r =>
        if (c == '0' || c == '1' || c == '2' || c == '3') && boundaryAfter r then
          some (String.mk ['T', 'G', c])
        else none
      | [] => none
    | _ => none

/-- Scan for the leftmost `TG_RE` match (`TG_RE.search`). -/
def tgSearchAux (prev : Option Char) : List Char → Option String
  | [] => none
  | c :: cs =>
    match tgMatchHere prev (c :: cs) with
    | some tok => some tok
    | none => tgSearchAux (some c) cs

/-- `TG_RE.search(span_text)`, returning the matched token text. -/
def tgSearch (cs : List Char) : Option String :=
  tgSearchAux none cs

/-! ### Detected points (`_extract_detected_points` and helpers) -/

/-- `_is_numeric_point_id`: full match of `^\d+(?:\.\d+)*$`, i.e. every
dot-separated part is a non-empty digit run. -/
def isNumericPointId (s : String) : Bool :=
  if s = "" then false
  else (splitOnCharList '.' s.data).all (fun p => !p.isEmpty && p.all isDigitChar)

/-- `_parse_numeric_id`: `[int(part) for part in value.split(".") if part.isdigit()]`
(`str.isdigit` holds exactly for non-empty all-digit parts). -/
def parseNumericId (s : String) : List Int :=
  (splitOnCharList '.' s.data).filterMap (fun p =>
    if !p.isEmpty && p.all isDigitChar then some ((digitsToNat p : Nat) : Int)
    else none)

/-- The index loop of `_compare_numeric_ids` over `range(max_len)` with
`None` padding, rendered as structural recursion: the first position where
one side is missing or the values differ decides (missing compares below
present), and full agreement gives 0. -/
def cmpNumLists : List Int → List Int → Int
  | [], [] => 0
  | [], _ :: _ => -1
  | _ :: _, [] => 1
  | x :: xs, y :: ys =>
    if x < y then -1 else if y < x then 1 else cmpNumLists xs ys

/-- `_compare_numeric_ids`. -/
def compareNumericIds (a b : String) : Int :=
  cmpNumLists (parseNumericId a) (parseNumericId b)

/-- One structural unit of the report: the dict built by
`_extract_detected_points`.  `Option` fields record where downstream code
(`_sort_points`, `_build_feedback_v11`) distinguishes absent/`None` from
falsy present values; the detector itself always fills every field. -/
structure DetectedPoint where
  point_key : String
  native_label : String
  numeric_id : Option String
  native_path : List String
  kind : Option String
  point_id : String
  title : String
  page_start : Option Int
  page_end : Option Int
  order_in_doc : Option Int
  anchor_text : String
  span_hash : String
  excerpt : String
  tg : String
deriving DecidableEq, Repr

/-- The flattened (page, line) index built at the top of
`_extract_detected_points`. -/
def lineIndexOf (reportText : String) : List Page :=
  ((splitPages reportText).map (fun p =>
    (splitLinesPy p.text).map (fun l => Page.mk p.page l))).flatten

/-- The heading list: indices into the line index together with regex
groups 1 and 2. -/
def headingsOf (lines : List Page) : List (Nat × String × Option String) :=
  lines.enum.filterMap (fun iz =>
    match matchPointHeader iz.2.text with
    | some (lab, t) => some (iz.1, lab, t)
    | none => none)

/-- The `span_lines` slice `line_index[start_idx:end_idx]` for heading `i`. -/
def spanLinesAt (lineIndex : List Page)
    (headings : List (Nat × String × Option String))
    (i : Nat) (hd : Nat × String × Option String) : List Page :=
  let startIdx := hd.1
  let endIdx := match headings.get? (i + 1) with
    | some nh => nh.1
    | none => lineIndex.length
  (lineIndex.drop startIdx).take (endIdx - startIdx)

/-- The `span_text` of heading `i`. -/
def spanTextAt (lineIndex : List Page)
    (headings : List (Nat × String × Option String))
    (i : Nat) (hd : Nat × String × Option String) : String :=
  pyStrip (String.intercalate "\n"
    ((spanLinesAt lineIndex headings i hd).map (fun l => l.text)))

/-- The body of the `for i, heading in enumerate(headings)` loop of
`_extract_detected_points`, producing one `DetectedPoint`. -/
def mkDetectedPoint (lineIndex : List Page)
    (headings : List (Nat × String × Option String))
    (i : Nat) (hd : Nat × String × Option String) : DetectedPoint :=
  let startIdx := hd.1
  let spanLines := spanLinesAt lineIndex headings i hd
  let spanText := spanTextAt lineIndex headings i hd
  let pageStart : Int := match spanLines with
    | l :: _ => (l.page : Int)
    | [] => match lineIndex.get? startIdx with
      | some l => (l.page : Int)
      | none => 0
  let pageEnd : Int := match spanLines.getLast? with
    | some l => (l.page : Int)
    | none => pageStart
  let sectionTitle := pyStrip (hd.2.2.getD "")
  let excerpt0 :=
    if sectionTitle ≠ "" then sectionTitle
    else if spanText ≠ "" then pyStrip (String.mk (spanText.data.take 200))
    else ""
  let excerpt := if excerpt0 ≠ "" then excerpt0 else "Punkt " ++ hd.2.1
  { point_key := "P" ++ pad4 (i + 1),
    native_label := hd.2.1,
    numeric_id := if isNumericPointId hd.2.1 then some hd.2.1 else none,
    native_path := [],
    kind := some "point",
    point_id := hd.2.1,
    title := if sectionTitle ≠ "" then sectionTitle else "Ukjent",
    page_start := some pageStart,
    page_end := some pageEnd,
    order_in_doc := some ((i : Int) + 1),
    anchor_text := match spanLines with
      | l :: _ => l.text
      | [] => "",
    span_hash := if spanText ≠ "" then sha256Hex spanText else "",
    excerpt := excerpt,
    tg := (tgSearch spanText.data).getD "" }

/-- `_extract_detected_points`. -/
def extractDetectedPoints (reportText : String) : List DetectedPoint :=
  let lineIndex := lineIndexOf reportText
  let headings := headingsOf lineIndex
  headings.enum.map (fun ih => mkDetectedPoint lineIndex headings ih.1 ih.2)

/-! ### Ordering and dedup of points (`_sort_points` and helpers) -/

/-- Python truthiness of an optional integer field (`None` and `0` are
falsy). -/
def optIntTruthy (o : Option Int) : Bool :=
  match o with
  | some n => n ≠ 0
  | none => false

/-- `_numeric_id_for_point`: `point.get("numeric_id") or point.get("point_id") or ""`,
validated with `_is_numeric_point_id` (the value is a string by typing). -/
def numericIdForPoint (p : DetectedPoint) : String :=
  let cand := match p.numeric_id with
    | some s => if s ≠ "" then s else p.point_id
    | none => p.point_id
  if isNumericPointId cand then cand else ""

/-- `_point_key_for_point`. -/
def pointKeyForPoint (p : DetectedPoint) : String :=
  if p.point_key ≠ "" then p.point_key
  else if p.point_id ≠ "" then p.point_id
  else p.native_label

/-- `_detect_sort_mode`.  The float test `numeric_count / len(points) >= 0.7`
is modelled as the exact rational inequality `10 * count ≥ 7 * length`; for
every list length that can occur in memory the double rounding of the
quotient cannot cross the threshold, so the two agree. -/
def detectSortMode (points : List DetectedPoint) : String :=
  if points.isEmpty then "DOCUMENT_ORDER"
  else
    let numericCount := (points.filter (fun p => numericIdForPoint p ≠ "")).length
    if 7 * points.length ≤ 10 * numericCount then "NUMERIC" else "DOCUMENT_ORDER"

/-- Association-list lookup mirroring `dict` key presence (first — and for
dict semantics only — entry with the key). -/
def alFind {α : Type} : List (String × α) → String → Option α
  | [], _ => none
  | kv :: l, k => if kv.1 = k then some kv.2 else alFind l k

/-- Replace the value stored under an existing key. -/
def alUpdate {α : Type} (l : List (String × α)) (k : String) (v : α) :
    List (String × α) :=
  l.map (fun kv => if kv.1 = k then (k, v) else kv)

/-- The merge performed on a duplicate point inside `_dedupe_points`:
fill each empty/falsy field of the first-seen point from the newcomer. -/
def mergePointInto (e p : DetectedPoint) : DetectedPoint :=
  { e with
    tg := if e.tg = "" ∧ p.tg ≠ "" then p.tg else e.tg,
    anchor_text :=
      if e.anchor_text = "" ∧ p.anchor_text ≠ "" then p.anchor_text
      else e.anchor_text,
    excerpt := if e.excerpt = "" ∧ p.excerpt ≠ "" then p.excerpt else e.excerpt,
    page_start :=
      if !optIntTruthy e.page_start ∧ optIntTruthy p.page_start then p.page_start
      else e.page_start,
    page_end :=
      if !optIntTruthy e.page_end ∧ optIntTruthy p.page_end then p.page_end
      else e.page_end }

/-- The dedup key chosen for one point inside `_dedupe_points`. -/
def dedupeKeyOf (keyName : String) (idx : Nat) (p : DetectedPoint) : String :=
  let k1 := if keyName = "numeric_id" then numericIdForPoint p else ""
  let k2 := if k1 ≠ "" then k1 else pointKeyForPoint p
  if k2 ≠ "" then k2 else "idx-" ++ toString idx

/-- `_dedupe_points`: insertion-ordered dict from dedup key to (merged)
point; `list(unique.values())` preserves first-insertion order. -/
def dedupePoints (points : List DetectedPoint) (keyName : String) :
    List DetectedPoint :=
  (points.enum.foldl
    (fun (acc : List (String × DetectedPoint)) ip =>
      let key := dedupeKeyOf keyName ip.1 ip.2
      match alFind acc key with
      | none => acc ++ [(key, ip.2)]
      | some e => alUpdate acc key (mergePointInto e ip.2))
    []).map (fun kv => kv.2)

/-- The comparator `_cmp` defined inside `_sort_points` for NUMERIC mode. -/
def cmpPointsNumeric (a b : DetectedPoint) : Int :=
  let aId := numericIdForPoint a
  let bId := numericIdForPoint b
  if aId = "" ∧ bId = "" then 0
  else if aId = "" then 1
  else if bId = "" then -1
  else compareNumericIds aId bId

/-- Stable insertion used to model Python `sorted`: `before y x` holds when
`y` must stay strictly before `x`, so `x` is inserted after every strictly
smaller element and before the first equal one inserted earlier from the
right (`foldr`), which reproduces the stable order of `sorted` for any
total preorder comparator. -/
def insertStable {α : Type} (before : α → α → Bool) (x : α) :
    List α → List α
  | [] => [x]
  | y :: ys => if before y x then y :: insertStable before x ys else x :: y :: ys

/-- Stable sort (Python `sorted`) for a comparator-induced strict order. -/
def stableSortBy {α : Type} (before : α → α → Bool) (l : List α) : List α :=
  l.foldr (insertStable before) []

/-- `int(p.get("order_in_doc") or 0)`. -/
def orderKey (p : DetectedPoint) : Int :=
  p.order_in_doc.getD 0

/-- `int(p.get("page_start") or 0)`. -/
def pageStartKey (p : DetectedPoint) : Int :=
  p.page_start.getD 0

/-- `_sort_points`: returns (mode, dedupe key name, ordered points). -/
def sortPoints (points : List DetectedPoint) :
    String × String × List DetectedPoint :=
  let mode := detectSortMode points
  if mode = "NUMERIC" then
    let uniq := dedupePoints points "numeric_id"
    (mode, "numeric_id",
      stableSortBy (fun a b => cmpPointsNumeric a b < 0) uniq)
  else
    let uniq := dedupePoints points "point_key"
    if uniq.all (fun p => p.order_in_doc.isSome) then
      (mode, "point_key", stableSortBy (fun a b => orderKey a < orderKey b) uniq)
    else
      (mode, "point_key",
        stableSortBy (fun a b => pageStartKey a < pageStartKey b) uniq)

/-! ### JSON-like scalar values for deduction points -/

/-- The value stored under a deduction's `points` key: the code applies
`int(...)` to it (non-string, non-number JSON values all raise `TypeError`
and are represented by `vnone`). -/
inductive PVal where
  | vint (n : Int)
  | vstr (s : String)
  | vnone
deriving DecidableEq, Repr

/-- Python `int(str)`: strip whitespace, optional sign, decimal digits. -/
def pyIntOfString (s : String) : Option Int :=
  match pyStripChars s.data with
  | [] => none
  | '+' :: r =>
    if !r.isEmpty && r.all isDigitChar then some ((digitsToNat r : Nat) : Int)
    else none
  | '-' :: r =>
    if !r.isEmpty && r.all isDigitChar then some (-((digitsToNat r : Nat) : Int))
    else none
  | cs =>
    if cs.all isDigitChar then some ((digitsToNat cs : Nat) : Int) else none

/-- `int(points)` under the `try/except (TypeError, ValueError)` of
`_normalize_scoring_output`: failures coerce to 0. -/
def pvalToIntLoose : PVal → Int
  | .vint n => n
  | .vstr s => (pyIntOfString s).getD 0
  | .vnone => 0

/-- `int(points)` without a surrounding handler (as in
`_build_feedback_v11`): failures raise. -/
def pvalToIntStrict : PVal → Except String Int
  | .vint n => .ok n
  | .vstr s =>
    match pyIntOfString s with
    | some n => .ok n
    | none => .error "ValueError: invalid literal for int() with base 10"
  | .vnone => .error "TypeError: int() argument must not be None"

/-! ### Model-output data structures

The dict shapes consumed by the post-processing stages.  The defaulting of
`_ensure_required_arrays` (absent top-level arrays become empty, absent
`score_total` becomes 0, absent `score_band` becomes `""`) is folded into
the field types, since that function runs before every other stage. -/

/-- Python truthiness of an optional string field. -/
def optStrTruthy (o : Option String) : Bool :=
  match o with
  | some s => s ≠ ""
  | none => false

/-- One evidence record (the seven canonical keys plus the `text` and
`span_excerpt` alias keys that the code consults). -/
structure EvidenceItem where
  point_id : Option String
  tg : Option String
  page : Option Int
  heading : Option String
  source : Option String
  snippet : Option String
  text : Option String
  span_excerpt : Option String
  match_explain : Option String
deriving DecidableEq, Repr

/-- One issue inside a component. -/
structure Issue where
  issue_id : Option String
  severity : Option String
  summary : Option String
  details : Option String
  rule_refs : List String
  evidence : List EvidenceItem
deriving DecidableEq, Repr

/-- One deduction record.  `category_id` uses `""` for absent: every access
in the source goes through `or`-style truthiness. -/
structure Deduction where
  rule_id : String
  category_id : String
  points : PVal
  evidence : List EvidenceItem
deriving DecidableEq, Repr

/-- One component of `findings`. -/
structure Component where
  component_id : String
  component_title : String
  tg : Option String
  issues : List Issue
  deductions : List Deduction
deriving DecidableEq, Repr

/-- One entry of `top_score_drivers`. -/
structure Driver where
  rule_refs : List String
  deduction_points : Int
  reason : Option String
  title : Option String
  evidence : List EvidenceItem
deriving DecidableEq, Repr

/-- One row of `score_by_category`. -/
structure CategoryScore where
  category_id : String
  category_name : String
  deduction : Int
  max_deduction : Int
deriving DecidableEq, Repr

/-- One improvement suggestion. -/
structure Improvement where
  title : Option String
  what_to_change : Option String
deriving DecidableEq, Repr

/-- The `meta` object (all keys are set via `setdefault`). -/
structure Meta where
  schema_version : Option String
  analysis_timestamp_utc : Option String
  document_title : Option String
  document_id : Option String
  scoring_model_id : Option String
  scoring_model_version : Option String
  scoring_model_updated_at : Option String
  model_notes : Option String
deriving DecidableEq, Repr

/-- The model's analysis output after `_ensure_required_arrays`. -/
structure AnalysisOutput where
  meta : Meta
  score_total : Int
  score_band : String
  score_by_category : List CategoryScore
  top_score_drivers : List Driver
  findings : List Component
  improvements : List Improvement
  disclaimers : List String
deriving DecidableEq, Repr

/-! ### Evidence grounding (`_build_evidence_for_component`,
`_normalize_evidence_items`, `_merge_evidence_defaults`,
`_ensure_issue_evidence`, `_ensure_driver_evidence`) -/

/-- `SUMMARY_MARKERS`. -/
def SUMMARY_MARKERS : List String :=
  ["oppsummering", "takstmannens vurdering", "summary"]

/-- Prefix test for the substring scan. -/
def hasPrefixList : List Char → List Char → Bool
  | [], _ => true
  | _ :: _, [] => false
  | n :: ns, c :: cs => n == c && hasPrefixList ns cs

/-- Leftmost index of `needle` in `hay` (Python `str.find`, non-negative
result only). -/
def strFindAux (needle : List Char) : List Char → Nat → Option Nat
  | [], i => if needle.isEmpty then some i else none
  | c :: cs, i =>
    if hasPrefixList needle (c :: cs) then some i
    else strFindAux needle cs (i + 1)

/-- Python `hay.find(needle)` (with `none` for `-1`). -/
def strFind (hay needle : List Char) : Option Nat :=
  strFindAux needle hay 0

/-- Python `str.lower()` (ASCII). -/
def toLowerList (cs : List Char) : List Char :=
  cs.map Char.toLower

/-- `_extract_snippet` with the default window of 220 characters. -/
def extractSnippet (text : String) (index : Nat) : String :=
  if text = "" then ""
  else
    let start := index - 110
    let stop := min (index + 110) text.data.length
    pyStrip (String.mk ((text.data.drop start).take (stop - start)))

/-- `search_terms = [t for t in [component_id, component_title] if t]`. -/
def searchTermsOf (componentId componentTitle : String) : List String :=
  [componentId, componentTitle].filter (fun t => t ≠ "")

/-- The inner `for term in search_terms` loop over one page. -/
def findTermIn (pageText : String) : List String → Option (String × Nat)
  | [] => none
  | t :: ts =>
    match strFind (toLowerList pageText.data) (toLowerList t.data) with
    | some idx => some (t, idx)
    | none => findTermIn pageText ts

/-- The `for page in pages` search loop: first page (in order) where some
term matches, together with the matched term and index. -/
def findEvidenceInPages (terms : List String) :
    List Page → Option (Page × String × Nat)
  | [] => none
  | pg :: rest =>
    match findTermIn pg.text terms with
    | some (t, idx) => some (pg, t, idx)
    | none => findEvidenceInPages terms rest

/-- `source` tag for a matching page: SUMMARY when the lowered page text
contains a summary marker. -/
def pageSourceOf (pg : Page) : String :=
  if SUMMARY_MARKERS.any
      (fun m => (strFind (toLowerList pg.text.data) m.data).isSome) then
    "SUMMARY"
  else "LOCAL"

/-- `_build_evidence_for_component`. -/
def buildEvidenceForComponent (componentId componentTitle : String)
    (tg : Option String) (pages : List Page) : EvidenceItem :=
  match findEvidenceInPages (searchTermsOf componentId componentTitle) pages with
  | some (pg, term, idx) =>
    { point_id := some componentId, tg := some (tg.getD ""),
      page := some (pg.page : Int), heading := some componentTitle,
      source := some (pageSourceOf pg),
      snippet := some (extractSnippet pg.text idx),
      text := none, span_excerpt := none,
      match_explain :=
        some ("Matched \x27" ++ term ++ "\x27 on page " ++ toString pg.page ++ ".") }
  | none =>
    let fallbackPage : Int := match pages with
      | pg :: _ => (pg.page : Int)
      | [] => 1
    let fallbackText := match pages with
      | pg :: _ => pg.text
      | [] => ""
    { point_id := some componentId, tg := some (tg.getD ""),
      page := some fallbackPage, heading := some componentTitle,
      source := some "LOCAL",
      snippet := some (extractSnippet fallbackText 0),
      text := none, span_excerpt := none,
      match_explain :=
        some "Fallback: no direct match for component_id/title in page text." }

/-- The per-item body of `_normalize_evidence_items`: derive `snippet` from
the `text` alias when empty, then apply the `setdefault` calls. -/
def normalizeEvidenceItem (it : EvidenceItem) : EvidenceItem :=
  let it :=
    if !optStrTruthy it.snippet && optStrTruthy it.text then
      { it with snippet := it.text }
    else it
  { it with
    point_id := if it.point_id = none then some "" else it.point_id,
    tg := if it.tg = none then some "" else it.tg,
    heading := if it.heading = none then some "" else it.heading,
    source := if it.source = none then some "LOCAL" else it.source,
    match_explain :=
      if it.match_explain = none then some "Derived from evidence text."
      else it.match_explain,
    page := if it.page = none then some 1 else it.page }

/-- The keep condition at the end of `_normalize_evidence_items`: all seven
required keys present (always true after the defaults, except that `snippet`
is only present when non-empty) and `snippet` and `page` truthy. -/
def evidenceItemOk (it : EvidenceItem) : Bool :=
  optStrTruthy it.snippet && optIntTruthy it.page

/-- `_normalize_evidence_items`. -/
def normalizeEvidenceItems (items : List EvidenceItem) : List EvidenceItem :=
  (items.map normalizeEvidenceItem).filter evidenceItemOk

/-- `_merge_evidence_defaults`: fill each falsy field from the defaults
record (the seed always carries every key, so `defaults.get(key, "")`
always finds a value). -/
def mergeEvidenceDefaults (item defaults : EvidenceItem) : EvidenceItem :=
  { item with
    point_id :=
      if optStrTruthy item.point_id then item.point_id
      else some (defaults.point_id.getD ""),
    tg := if optStrTruthy item.tg then item.tg else some (defaults.tg.getD ""),
    heading :=
      if optStrTruthy item.heading then item.heading
      else some (defaults.heading.getD ""),
    source :=
      if optStrTruthy item.source then item.source
      else some (defaults.source.getD ""),
    page := if optIntTruthy item.page then item.page else defaults.page,
    match_explain :=
      if optStrTruthy item.match_explain then item.match_explain
      else some (defaults.match_explain.getD ""),
    snippet :=
      if optStrTruthy item.snippet then item.snippet
      else some (defaults.snippet.getD "") }

/-- The per-issue body of `_ensure_issue_evidence`. -/
def groundIssue (seed : EvidenceItem) (iss : Issue) : Issue :=
  if iss.evidence.isEmpty then { iss with evidence := [seed] }
  else
    let normalized := normalizeEvidenceItems iss.evidence
    if normalized.isEmpty then { iss with evidence := [seed] }
    else
      { iss with
        evidence := normalized.map (fun it => mergeEvidenceDefaults it seed) }

/-- The per-component body of `_ensure_issue_evidence`. -/
def groundComponent (pages : List Page) (c : Component) : Component :=
  let seed := buildEvidenceForComponent c.component_id c.component_title c.tg pages
  { c with issues := c.issues.map (groundIssue seed) }

/-- `_ensure_issue_evidence`. -/
def ensureIssueEvidence (out : AnalysisOutput) (reportText : String) :
    AnalysisOutput :=
  { out with
    findings := out.findings.map (groundComponent (splitPages reportText)) }

/-- Append to the entry stored under `k`, or add a new entry at the end
(`dict.setdefault(rule_id, []).extend(...)`). -/
def alExtend (l : List (String × List EvidenceItem)) (k : String)
    (v : List EvidenceItem) : List (String × List EvidenceItem) :=
  match alFind l k with
  | some _ => l.map (fun kv => if kv.1 = k then (kv.1, kv.2 ++ v) else kv)
  | none => l ++ [(k, v)]

/-- `issue_evidence_by_rule` as built at the top of
`_ensure_driver_evidence`. -/
def issueEvidenceByRule (findings : List Component) :
    List (String × List EvidenceItem) :=
  findings.foldl
    (fun acc c =>
      c.issues.foldl
        (fun acc iss =>
          iss.rule_refs.foldl (fun acc r => alExtend acc r iss.evidence) acc)
        acc)
    []

/-- The `for rule_id in driver.get("rule_refs", [])` loop: first rule whose
stored evidence list is truthy. -/
def firstRuleCandidate (byRule : List (String × List EvidenceItem)) :
    List String → Option (List EvidenceItem)
  | [] => none
  | r :: rs =>
    match alFind byRule r with
    | some c =>
      if c.isEmpty then firstRuleCandidate byRule rs else some c
    | none => firstRuleCandidate byRule rs

/-- The `for candidates in issue_evidence_by_rule.values()` fallback loop:
first truthy value in insertion order. -/
def firstValuesCandidate (byRule : List (String × List EvidenceItem)) :
    Option (List EvidenceItem) :=
  (byRule.find? (fun kv => !kv.2.isEmpty)).map (fun kv => kv.2)

/-- The placeholder record emitted when no issue evidence exists at all. -/
def placeholderEvidence : EvidenceItem :=
  { point_id := some "", tg := some "", page := some 1, heading := some "",
    source := some "LOCAL", snippet := some "", text := none,
    span_excerpt := none,
    match_explain := some "Fallback: no evidence available from issues." }

/-- The per-driver body of `_ensure_driver_evidence`, with the `continue`
and `break` control flow rendered as nested conditionals. -/
def groundDriver (byRule : List (String × List EvidenceItem)) (d : Driver) :
    Driver :=
  if !d.evidence.isEmpty && !(normalizeEvidenceItems d.evidence).isEmpty then
    { d with evidence := normalizeEvidenceItems d.evidence }
  else
    let d1 := match firstRuleCandidate byRule d.rule_refs with
      | some cand =>
        let n := normalizeEvidenceItems cand
        { d with evidence := if n.isEmpty then cand.take 1 else n }
      | none => d
    let d2 :=
      if d1.evidence.isEmpty then
        match firstValuesCandidate byRule with
        | some cand =>
          let n := normalizeEvidenceItems cand
          { d1 with evidence := if n.isEmpty then cand.take 1 else n }
        | none => d1
      else d1
    if d2.evidence.isEmpty then { d2 with evidence := [placeholderEvidence] }
    else d2

/-- `_ensure_driver_evidence`. -/
def ensureDriverEvidence (out : AnalysisOutput) : AnalysisOutput :=
  let byRule := issueEvidenceByRule out.findings
  { out with top_score_drivers := out.top_score_drivers.map (groundDriver byRule) }

/-- `ensure_analysis_evidence`: issue grounding then driver grounding. -/
def ensureAnalysisEvidence (out : AnalysisOutput) (reportText : String) :
    AnalysisOutput :=
  ensureDriverEvidence (ensureIssueEvidence out reportText)

/-- `_hash_evidence_span`. -/
def hashEvidenceSpan (evidence : List EvidenceItem) : String :=
  match evidence with
  | [] => ""
  | c :: _ =>
    if optStrTruthy c.snippet then sha256Hex (c.snippet.getD "")
    else if optStrTruthy c.text then sha256Hex (c.text.getD "")
    else if optStrTruthy c.span_excerpt then sha256Hex (c.span_excerpt.getD "")
    else ""

/-! ### Score normalization (`_load_scoring_model`,
`_infer_category_from_rule_id`, `_normalize_scoring_output`) -/

/-- Python `str.upper()` (ASCII). -/
def toUpperList (cs : List Char) : List Char :=
  cs.map Char.toUpper

/-- The registry configuration as returned by `_load_scoring_model` (the
registry JSON itself lives outside this pipeline; every claim quantifies
over its loaded shape).  In `category_caps`, a key mapped to `none` models
a present but non-numeric cap value; a missing key and a `none` value are
observationally identical in the source (`.get` + `isinstance` checks). -/
structure ScoringModelCfg where
  category_order : List String
  category_names : List (String × String)
  category_caps : List (String × Option Int)
  deduct_per_occurrence : Bool
  aggregate_level : String
  score_start : Int
  score_floor : Int
  score_ceiling : Int
deriving DecidableEq, Repr

/-- Numeric cap configured for a category, if any. -/
def capOf (cfg : ScoringModelCfg) (cid : String) : Option Int :=
  match alFind cfg.category_caps cid with
  | some (some n) => some n
  | _ => none

/-- `_infer_category_from_rule_id`: empty result unless the rule id
contains an underscore; the prefix before the first `_` is uppercased and
checked against the fixed set `{"A","B","C","D","E"}`. -/
def inferCategoryFromRuleId (ruleId : String) : String :=
  if ruleId = "" ∨ ¬ ruleId.data.contains '_' then ""
  else
    let pfx := String.mk (toUpperList (ruleId.data.takeWhile (fun c => c ≠ '_')))
    if pfx = "A" ∨ pfx = "B" ∨ pfx = "C" ∨ pfx = "D" ∨ pfx = "E" then pfx
    else ""

/-- The dedup key built for a deduction with a non-empty rule id. -/
def dedupUniqueKey (aggLevel : String) (dpo : Bool) (componentId : String)
    (d : Deduction) : String :=
  if !dpo then "report::" ++ d.rule_id
  else if aggLevel = "report" ∨ aggLevel = "global" ∨ aggLevel = "document" ∨
      aggLevel = "rule" then
    "report::" ++ d.rule_id
  else if aggLevel = "issue" ∨ aggLevel = "evidence" then
    let h := hashEvidenceSpan d.evidence
    "issue::" ++ d.rule_id ++ "::" ++ (if h ≠ "" then h else componentId)
  else
    "component::" ++ (if componentId ≠ "" then componentId else "unknown") ++
      "::" ++ d.rule_id

/-- `category_id = deduction.get("category_id") or _infer...; if category_id:
deduction["category_id"] = category_id`. -/
def assignCategory (d : Deduction) : Deduction :=
  let c :=
    if d.category_id ≠ "" then d.category_id
    else inferCategoryFromRuleId d.rule_id
  if c ≠ "" then { d with category_id := c } else d

/-- The category a deduction resolves to in the summation loop
(line 764 of the source). -/
def resolvedCategory (d : Deduction) : String :=
  if d.category_id ≠ "" then d.category_id
  else inferCategoryFromRuleId d.rule_id

/-- `category_totals.get(cid, 0) + v` followed by item assignment. -/
def alAddAt (l : List (String × Int)) (k : String) (v : Int) :
    List (String × Int) :=
  match alFind l k with
  | some old => alUpdate l k (old + v)
  | none => l ++ [(k, v)]

/-- `{cat: 0 for cat in category_order}` (duplicates collapse, first
occurrence fixes the position). -/
def initTotals (order : List String) : List (String × Int) :=
  order.foldl
    (fun acc cid =>
      match alFind acc cid with
      | some _ => acc
      | none => acc ++ [(cid, 0)])
    []

/-- Mutable state threaded through the two loops of
`_normalize_scoring_output`. -/
structure NormState where
  seen : List String
  totals : List (String × Int)
  hasDed : Bool
deriving DecidableEq, Repr

/-- The dedup pass over one component's deduction list. -/
def dedupeDeductions (aggLevel : String) (dpo : Bool) (componentId : String)
    (seen : List String) (ds : List Deduction) : List String × List Deduction :=
  ds.foldl
    (fun (acc : List String × List Deduction) d =>
      if d.rule_id ≠ "" then
        let key := dedupUniqueKey aggLevel dpo componentId d
        if key ∈ acc.1 then acc
        else (acc.1 ++ [key], acc.2 ++ [assignCategory d])
      else (acc.1, acc.2 ++ [assignCategory d]))
    (seen, [])

/-- The summation pass over the surviving deductions of one component. -/
def sumDeductions (st : List (String × Int) × Bool) (ds : List Deduction) :
    List (String × Int) × Bool :=
  ds.foldl
    (fun acc d =>
      let cid := resolvedCategory d
      if cid = "" then acc
      else (alAddAt acc.1 cid (pvalToIntLoose d.points), true))
    st

/-- One iteration of the `for component in analysis_output.get("findings")`
loop. -/
def normalizeComponent (aggLevel : String) (dpo : Bool) (st : NormState)
    (c : Component) : NormState × Component :=
  let sd := dedupeDeductions aggLevel dpo c.component_id st.seen c.deductions
  let th := sumDeductions (st.totals, st.hasDed) sd.2
  (⟨sd.1, th.1, th.2⟩, { c with deductions := sd.2 })

/-- The whole findings loop, threading the mutable state. -/
def normalizeFindings (aggLevel : String) (dpo : Bool) :
    NormState → List Component → NormState × List Component
  | st, [] => (st, [])
  | st, c :: cs =>
    let r1 := normalizeComponent aggLevel dpo st c
    let r2 := normalizeFindings aggLevel dpo r1.1 cs
    (r2.1, r1.2 :: r2.2)

/-- `_normalize_scoring_output` (the registry load is passed in as `cfg`). -/
def normalizeScoringOutput (cfg : ScoringModelCfg) (out : AnalysisOutput) :
    AnalysisOutput :=
  let aggLevel := String.mk (toLowerList cfg.aggregate_level.data)
  let st0 : NormState :=
    ⟨[], initTotals cfg.category_order, false⟩
  let r := normalizeFindings aggLevel cfg.deduct_per_occurrence st0 out.findings
  let out1 := { out with findings := r.2 }
  if !r.1.hasDed then out1
  else
    let capped := r.1.totals.map (fun kv =>
      (kv.1,
        match capOf cfg kv.1 with
        | some cap => min kv.2 cap
        | none => kv.2))
    let sbc := cfg.category_order.map (fun cid =>
      ({ category_id := cid,
         category_name := (alFind cfg.category_names cid).getD "",
         deduction := (alFind capped cid).getD 0,
         max_deduction := (capOf cfg cid).getD 0 } : CategoryScore))
    let totalDeduction := (capped.map (fun kv => kv.2)).sum
    let scoreTotal :=
      max cfg.score_floor (min cfg.score_ceiling (cfg.score_start - totalDeduction))
    { out1 with score_by_category := sbc, score_total := scoreTotal }

/-! ### Detected-points payload (`_build_detected_points_payload`) -/

/-- The two keys of `pdf_metadata` that the payload builder reads. -/
structure PdfMeta where
  total_pages : Option Int
  pages_with_text : Option Int
deriving DecidableEq, Repr

/-- `_build_detected_points_payload`, with the nested `document` and
`extraction` dicts flattened into one record. -/
structure DetectedPointsPayload where
  version : String
  document_hash : String
  source_filename : String
  page_count : Int
  engine : String
  engine_version : String
  notes : String
  points : List DetectedPoint
deriving DecidableEq, Repr

/-- `_build_detected_points_payload`. -/
def buildDetectedPointsPayload (detectedPoints : List DetectedPoint)
    (documentHash : String) (documentTitle documentId : Option String)
    (pdfMetadata : Option PdfMeta) : DetectedPointsPayload :=
  let pageCount : Int := match pdfMetadata with
    | some m =>
      if optIntTruthy m.total_pages then m.total_pages.getD 0
      else if optIntTruthy m.pages_with_text then m.pages_with_text.getD 0
      else 1
    | none => 1
  let fallbackName := match documentId with
    | some i => if i ≠ "" then "report_" ++ i ++ ".pdf" else "report.pdf"
    | none => "report.pdf"
  let sourceFilename := match documentTitle with
    | some t => if t ≠ "" then t else fallbackName
    | none => fallbackName
  { version := "v1.2",
    document_hash := documentHash,
    source_filename := sourceFilename,
    page_count := max pageCount 1,
    engine := "validert-point-detector",
    engine_version := "1.0.0",
    notes := "Point headers detected via regex on extracted PDF text.",
    points := detectedPoints }

/-! ### Feedback assembly (`_build_feedback_v11`) -/

/-- `_derive_rule_family`. -/
def deriveRuleFamily (ruleId : String) : String :=
  if ruleId = "" then ""
  else if ruleId.data.contains '.' then
    String.mk (ruleId.data.takeWhile (fun c => c ≠ '.'))
  else if ruleId.data.contains '_' then
    String.mk (ruleId.data.takeWhile (fun c => c ≠ '_'))
  else ruleId

/-- Python `f"{n:03d}"`. -/
def pad3 (n : Nat) : String :=
  let s := toString n
  String.mk (List.replicate (3 - s.length) '0') ++ s

/-- The `evidence` dict embedded in one feedback finding. -/
structure FeedbackEvidence where
  page : Int
  snippet : String
  match_text : String
deriving DecidableEq, Repr

/-- One entry of the feedback `findings` array.  `example_fix_good` is the
`good_example` key of the nested `example_fix` dict. -/
structure FeedbackFinding where
  finding_id : String
  rule_id : String
  rule_family : String
  severity : String
  affects_96_gate : Bool
  point_id : String
  point_key : String
  arkat_section : String
  message : String
  what_to_change : String
  example_fix_good : String
  evidence : FeedbackEvidence
  deduction : PVal
deriving DecidableEq, Repr

/-- The `where` dict of a points-overview entry (`where` is reserved in
Lean, hence the record name). -/
structure WhereInfo where
  page : Int
  anchor_text : Option String
deriving DecidableEq, Repr

/-- One entry of `points_overview`. -/
structure PointOverview where
  display_index : Int
  point_id : String
  point_key : String
  native_label : String
  numeric_id : Option String
  native_path : List String
  title : String
  tg : String
  status : String
  summary : String
  deduction_total : Int
  finding_ids : List String
  whereInfo : WhereInfo
deriving DecidableEq, Repr

/-- One entry of `score.category_deductions`. -/
structure CategoryDeduction where
  category : String
  deduction : Int
  max_deduction : Int
deriving DecidableEq, Repr

/-- One entry of `score.top_drivers`. -/
structure TopDriver where
  rule_id : String
  deduction : Int
  message : String
deriving DecidableEq, Repr

/-- The `score` object of the feedback payload. -/
structure FeedbackScore where
  total : Int
  category_deductions : List CategoryDeduction
  top_drivers : List TopDriver
deriving DecidableEq, Repr

/-- The `ordering` object of the feedback payload. -/
structure FeedbackOrdering where
  mode : String
  dedupe_key : String
  source : String
  note : String
deriving DecidableEq, Repr

/-- The `gate` object of the feedback payload. -/
structure FeedbackGate where
  active : Bool
  blocked_96 : Bool
  blocked_by : List String
deriving DecidableEq, Repr

/-- The feedback v1.1 payload. -/
structure FeedbackPayload where
  version : String
  report_id : String
  document_hash : String
  ordering : FeedbackOrdering
  score : FeedbackScore
  gate : FeedbackGate
  points_overview : List PointOverview
  findings : List FeedbackFinding
deriving DecidableEq, Repr

/-- The key tuple scanned per point when building `allowed_point_ids` and
`point_lookup` (in source order: point_id, numeric_id, point_key,
native_label; only truthy strings count). -/
def pointKeysOf (p : DetectedPoint) : List String :=
  (([some p.point_id, p.numeric_id, some p.point_key,
      some p.native_label].filterMap id).filter (fun k => k ≠ ""))

/-- `allowed_point_ids` (a set; membership only, built in scan order). -/
def allowedPointIds (points : List DetectedPoint) : List String :=
  points.foldl
    (fun acc p =>
      (pointKeysOf p).foldl
        (fun acc k => if k ∈ acc then acc else acc ++ [k]) acc)
    []

/-- `point_lookup` (`dict.setdefault`: first write wins). -/
def pointLookup (points : List DetectedPoint) :
    List (String × DetectedPoint) :=
  points.foldl
    (fun acc p =>
      (pointKeysOf p).foldl
        (fun acc k =>
          match alFind acc k with
          | some _ => acc
          | none => acc ++ [(k, p)])
        acc)
    []

/-- Dict assignment: overwrite the entry or append it. -/
def alSet {α : Type} (l : List (String × α)) (k : String) (v : α) :
    List (String × α) :=
  match alFind l k with
  | some _ => alUpdate l k v
  | none => l ++ [(k, v)]

/-- Append several values under a key
(`dict.setdefault(k, []).append(...)` repeated). -/
def alExtendIds (l : List (String × List String)) (k : String)
    (vs : List String) : List (String × List String) :=
  match alFind l k with
  | some old => alSet l k (old ++ vs)
  | none => l ++ [(k, vs)]

/-- `sum(int(d.get("points", 0)) for d in deductions ...)`: `int` raises
here (no handler), left to right. -/
def sumPointsStrict : List Deduction → Except String Int
  | [] => .ok 0
  | d :: ds => do
    let n ← pvalToIntStrict d.points
    let r ← sumPointsStrict ds
    pure (n + r)

/-- The evidence dict built for one feedback finding: first evidence item
of the issue if it has a snippet, else a fallback from the point header,
with a final non-empty-snippet guarantee. -/
def feedbackEvidenceFor (pm : Option DetectedPoint) (iss : Issue) :
    FeedbackEvidence :=
  let fromItem : Option FeedbackEvidence := match iss.evidence with
    | item :: _ =>
      some
        { page := match item.page with
            | some n => if n ≠ 0 then n else 1
            | none => 1,
          snippet :=
            if optStrTruthy item.snippet then item.snippet.getD ""
            else if optStrTruthy item.text then item.text.getD ""
            else "",
          match_text :=
            if optStrTruthy item.match_explain then item.match_explain.getD ""
            else "Derived from evidence." }
    | [] => none
  let fallback : FeedbackEvidence :=
    { page := match pm with
        | some p =>
          match p.page_start with
          | some n => if n ≠ 0 then n else 1
          | none => 1
        | none => 1,
      snippet :=
        (let exc := match pm with
          | some p => p.excerpt
          | none => ""
        if exc ≠ "" then exc
        else if optStrTruthy iss.details then iss.details.getD ""
        else if optStrTruthy iss.summary then iss.summary.getD ""
        else ""),
      match_text := "Derived from point header excerpt." }
  let ev := match fromItem with
    | some e => if e.snippet ≠ "" then e else fallback
    | none => fallback
  if ev.snippet = "" then { ev with snippet := "Ikke tilgjengelig." } else ev

/-- The `for issue_idx, issue in enumerate(issues)` loop for one allowed
component: the feedback findings and their ids. -/
def feedbackFindingsForComponent (pl : List (String × DetectedPoint))
    (c : Component) (pointId : String) :
    List FeedbackFinding × List String :=
  let pm := alFind pl pointId
  let entries := c.issues.enum.map (fun iz =>
    let iss := iz.2
    let ruleId := match iss.rule_refs with
      | r :: _ => r
      | [] => "unknown"
    let fid := "f-" ++ pointId ++ "-" ++ pad3 (iz.1 + 1)
    let pk0 := match pm with
      | some p => p.point_key
      | none => ""
    let wtc :=
      if optStrTruthy iss.details then iss.details.getD ""
      else if optStrTruthy iss.summary then iss.summary.getD ""
      else "Se forbedringsforslag."
    ({ finding_id := fid,
       rule_id := ruleId,
       rule_family := deriveRuleFamily ruleId,
       severity := match iss.severity with
         | some s => s
         | none => "medium",
       affects_96_gate := false,
       point_id := pointId,
       point_key := if pk0 ≠ "" then pk0 else pointId,
       arkat_section := "annet",
       message := if optStrTruthy iss.summary then iss.summary.getD "" else "Avvik",
       what_to_change := wtc,
       example_fix_good := wtc,
       evidence := feedbackEvidenceFor pm iss,
       deduction := match c.deductions.find? (fun d => d.rule_id = ruleId) with
         | some d => d.points
         | none => .vint 0 } : FeedbackFinding))
  (entries, entries.map (fun e => e.finding_id))

/-- State of the findings loop of `_build_feedback_v11`. -/
structure FindingsAcc where
  feedback_findings : List FeedbackFinding
  finding_ids_by_point : List (String × List String)
  deduction_totals : List (String × Int)
deriving DecidableEq, Repr

/-- The `for component in analysis_output.get("findings", [])` loop of
`_build_feedback_v11`. -/
def buildFindingsLoop (allowed : List String)
    (pl : List (String × DetectedPoint)) :
    FindingsAcc → List Component → Except String FindingsAcc
  | acc, [] => .ok acc
  | acc, c :: cs =>
    let pointId := c.component_id
    if pointId = "" ∨ pointId ∉ allowed then buildFindingsLoop allowed pl acc cs
    else do
      let tot ← sumPointsStrict c.deductions
      let fs := feedbackFindingsForComponent pl c pointId
      buildFindingsLoop allowed pl
        { feedback_findings := acc.feedback_findings ++ fs.1,
          finding_ids_by_point := alExtendIds acc.finding_ids_by_point pointId fs.2,
          deduction_totals := alSet acc.deduction_totals pointId tot }
        cs

/-- One entry of `points_overview` (the loop body after the `kind` filter),
given the current display index. -/
def overviewEntry (findings : List Component) (totals : List (String × Int))
    (fibp : List (String × List String)) (di : Nat) (p : DetectedPoint) :
    PointOverview :=
  let pointId :=
    if p.point_id ≠ "" then p.point_id
    else if optStrTruthy p.numeric_id then p.numeric_id.getD ""
    else p.native_label
  let pointKey := if p.point_key ≠ "" then p.point_key else pointId
  let comp := findings.find? (fun c => c.component_id = pointId)
  let issues := match comp with
    | some c => c.issues
    | none => []
  let dedTotal := (alFind totals pointId).getD 0
  let status :=
    if dedTotal > 0 then "deduction"
    else if !issues.isEmpty then "improve"
    else "ok"
  let firstSummary := match issues with
    | i :: _ => i.summary.getD ""
    | [] => ""
  let summary :=
    if status = "improve" then
      (if firstSummary ≠ "" then firstSummary else "Mindre forbedringer anbefales.")
    else if status = "deduction" then
      (if firstSummary ≠ "" then firstSummary else "Trekk er registrert for punktet.")
    else "OK – ingen endringer nødvendig."
  let compTg := match comp with
    | some c => c.tg.getD ""
    | none => ""
  let tgValue :=
    if p.tg ≠ "" then p.tg
    else if compTg ≠ "" then compTg
    else "UNKNOWN"
  { display_index := (di : Int),
    point_id := pointId,
    point_key := pointKey,
    native_label :=
      if p.native_label ≠ "" then p.native_label
      else if pointId ≠ "" then pointId
      else if pointKey ≠ "" then pointKey
      else "Ukjent",
    numeric_id :=
      if optStrTruthy p.numeric_id then p.numeric_id
      else
        (let n := numericIdForPoint p
        if n ≠ "" then some n else none),
    native_path := p.native_path,
    title := if p.title ≠ "" then p.title else "Ukjent",
    tg := tgValue,
    status := status,
    summary := summary,
    deduction_total := max dedTotal 0,
    finding_ids := (alFind fibp pointId).getD [],
    whereInfo :=
      { page := match p.page_start with
          | some n => if n ≠ 0 then n else 1
          | none => 1,
        anchor_text := if p.anchor_text ≠ "" then some p.anchor_text else none } }

/-- The `points_overview` loop with its `display_index` counter and the
`kind` filter. -/
def overviewLoop (findings : List Component) (totals : List (String × Int))
    (fibp : List (String × List String)) :
    Nat → List DetectedPoint → List PointOverview
  | _, [] => []
  | di, p :: ps =>
    let skip : Bool := match p.kind with
      | some k => decide (k ≠ "point" ∧ k ≠ "subpoint")
      | none => false
    if skip then overviewLoop findings totals fibp di ps
    else
      overviewEntry findings totals fibp di p ::
        overviewLoop findings totals fibp (di + 1) ps

/-- `_build_feedback_v11` (and its public wrapper `build_feedback_v11`). -/
def buildFeedbackV11 (out : AnalysisOutput)
    (detectedPointsPayload : DetectedPointsPayload)
    (reportId documentHash : Option String) : Except String FeedbackPayload := do
  let points := detectedPointsPayload.points
  let allowed := allowedPointIds points
  let pl := pointLookup points
  let acc ← buildFindingsLoop allowed pl ⟨[], [], []⟩ out.findings
  let sp := sortPoints points
  let orderingNote :=
    if sp.1 = "NUMERIC" then "Sortert numerisk (parent før child)."
    else "Sortert etter dokumentrekkefølge."
  let overview := overviewLoop out.findings acc.deduction_totals
    acc.finding_ids_by_point 1 sp.2.2
  pure
    { version := "v1.1",
      report_id := match reportId with
        | some r => if r ≠ "" then r else "unknown_report"
        | none => "unknown_report",
      document_hash := match documentHash with
        | some h => if h ≠ "" then h else "unknown_hash"
        | none => "unknown_hash",
      ordering :=
        { mode := sp.1, dedupe_key := sp.2.1, source := "detected_points",
          note := orderingNote },
      score :=
        { total := out.score_total,
          category_deductions := out.score_by_category.map (fun it =>
            { category := it.category_id, deduction := it.deduction,
              max_deduction := it.max_deduction }),
          top_drivers := out.top_score_drivers.map (fun dr =>
            { rule_id :=
                (let r0 := match dr.rule_refs with
                  | r :: _ => r
                  | [] => "unknown_rule"
                if r0 ≠ "" then r0 else "unknown_rule"),
              deduction := dr.deduction_points,
              message :=
                if optStrTruthy dr.reason then dr.reason.getD ""
                else if optStrTruthy dr.title then dr.title.getD ""
                else "Trekkgrunnlag" }) },
      gate := { active := true, blocked_96 := false, blocked_by := [] },
      points_overview := overview,
      findings := acc.feedback_findings }

/-! ### The post-model pipeline of `AIAnalyzer.analyze_report`
(lines 1057–1196 of the source): everything that runs between parsing the
model response and returning the payload tuple.  The model invocation, the
token-budget truncation and the `pdf_metadata is None` defaulting that
precede it are deterministic functions of the same inputs and are covered
by quantifying over the corresponding parameters. -/

/-- `get_scoring_model_info()` (loaded once per run from the registry
file). -/
structure ScoringInfo where
  model_id : String
  version : String
  updated_at : String
  sha256 : String
deriving DecidableEq, Repr

/-- The `run_meta` dict.  The constant literal fields `temperature = 0.0`
and `top_p = 1.0` are omitted: they are independent of every input. -/
structure RunMeta where
  run_id : String
  analysis_timestamp_utc : String
  model_name : String
  seed : Option Int
  text_sha256 : String
  scoring_model : ScoringInfo
  pipeline_git_sha : String
deriving DecidableEq, Repr

/-- The `scoring_result_payload` dict returned by `analyze_report`. -/
structure ScoringResultPayload where
  runMeta : RunMeta
  analysis_output : AnalysisOutput
  feedback_v11 : FeedbackPayload
deriving DecidableEq, Repr

/-- Process-level configuration fixed across runs: model identity, seed,
pipeline hashes and the loaded scoring registry. -/
structure RunConfig where
  model_name : String
  openai_seed : Option Int
  pipeline_git_sha : String
  prompt_context_sha : String
  scoring_model_info : ScoringInfo
  scoring_cfg : ScoringModelCfg
deriving DecidableEq, Repr

/-- `_ensure_meta_fields`; `timestampUtc` stands for the
`datetime.now(timezone.utc)` formatting. -/
def ensureMetaFields (out : AnalysisOutput)
    (documentTitle documentId : Option String) (timestampUtc : String) :
    AnalysisOutput :=
  let m := out.meta
  let m :=
    { m with
      schema_version :=
        if m.schema_version = none then some "1.4" else m.schema_version,
      analysis_timestamp_utc :=
        if m.analysis_timestamp_utc = none then some timestampUtc
        else m.analysis_timestamp_utc,
      document_title :=
        if m.document_title = none then some (documentTitle.getD "")
        else m.document_title,
      document_id := match documentId with
        | some i =>
          if i ≠ "" ∧ m.document_id = none then some i else m.document_id
        | none => m.document_id }
  { out with meta := m }

/-- The `meta.setdefault("scoring_model_*", ...)` block after
normalization. -/
def applyScoringMetaDefaults (out : AnalysisOutput) (info : ScoringInfo) :
    AnalysisOutput :=
  { out with
    meta :=
      { out.meta with
        scoring_model_id :=
          if out.meta.scoring_model_id = none then some info.model_id
          else out.meta.scoring_model_id,
        scoring_model_version :=
          if out.meta.scoring_model_version = none then some info.version
          else out.meta.scoring_model_version,
        scoring_model_updated_at :=
          if out.meta.scoring_model_updated_at = none then some info.updated_at
          else out.meta.scoring_model_updated_at } }

/-- The post-model pipeline of `analyze_report`: point detection, payload
building, meta/evidence/scoring normalization, feedback assembly and run
metadata.  `runId` models the fresh `uuid.uuid4()` and `timestampUtc` the
`datetime.now(timezone.utc)` calls of one run; both are new on every run
of the source. -/
def analyzePostProcess (cfg : RunConfig) (text : String)
    (analysisOutput : AnalysisOutput) (documentTitle documentId : Option String)
    (documentHash0 : Option String) (pdfMetadata : Option PdfMeta)
    (textWasTruncated : Bool) (runId timestampUtc : String) :
    Except String (DetectedPointsPayload × ScoringResultPayload) := do
  let documentHash := match documentHash0 with
    | some h => if h ≠ "" then h else sha256Hex text
    | none => sha256Hex text
  let detectedPoints := extractDetectedPoints text
  let detectedPayload := buildDetectedPointsPayload detectedPoints documentHash
    documentTitle documentId pdfMetadata
  let out1 := ensureMetaFields analysisOutput documentTitle documentId timestampUtc
  let out2 := ensureIssueEvidence out1 text
  let out3 := ensureDriverEvidence out2
  let out4 := normalizeScoringOutput cfg.scoring_cfg out3
  let out5 := applyScoringMetaDefaults out4 cfg.scoring_model_info
  let out6 :=
    if textWasTruncated then
      { out5 with
        meta :=
          { out5.meta with
            model_notes :=
              some "Rapporttekst ble trunkert - full dokumentanalyse ikke mulig" } }
    else out5
  let runMeta0 : RunMeta :=
    { run_id := runId,
      analysis_timestamp_utc := timestampUtc,
      model_name := cfg.model_name,
      seed := cfg.openai_seed,
      text_sha256 := documentHash,
      scoring_model := cfg.scoring_model_info,
      pipeline_git_sha :=
        if cfg.pipeline_git_sha ≠ "" then
          cfg.pipeline_git_sha ++ ":" ++ cfg.prompt_context_sha
        else cfg.prompt_context_sha }
  let feedback ← buildFeedbackV11 out6 detectedPayload documentId documentHash
  pure (detectedPayload,
    { runMeta := runMeta0, analysis_output := out6, feedback_v11 := feedback })

/-! ## Helper lemmas -/

theorem splitOnCharList_ne_nil (sep : Char) (cs : List Char) :
    splitOnCharList sep cs ≠ [] := by
  cases cs with
  | nil => simp [splitOnCharList]
  | cons c rest =>
    simp only [splitOnCharList]
    split
    · simp
    · split
      · simp
      · simp

theorem splitOnCharList_cons_eq (sep c : Char) (cs : List Char) :
    splitOnCharList sep (c :: cs) =
      if c == sep then [] :: splitOnCharList sep cs
      else
        match splitOnCharList sep cs with
        | [] => [[c]]
        | l :: ls => (c :: l) :: ls := rfl

theorem splitOnCharList_append (sep : Char) (xs ys : List Char) :
    splitOnCharList sep (xs ++ sep :: ys) =
      splitOnCharList sep xs ++ splitOnCharList sep ys := by
  induction xs with
  | nil => simp [splitOnCharList]
  | cons c cs ih =>
    rw [List.cons_append, splitOnCharList_cons_eq, splitOnCharList_cons_eq, ih]
    by_cases hc : (c == sep) = true
    · simp [hc]
    · simp only [hc, Bool.false_eq_true, if_false]
      cases h : splitOnCharList sep cs with
      | nil => exact absurd h (splitOnCharList_ne_nil sep cs)
      | cons l ls => simp [h]

theorem parseNumericId_append (a b : String) :
    parseNumericId (a ++ "." ++ b) = parseNumericId a ++ parseNumericId b := by
  unfold parseNumericId
  have hdata : (a ++ "." ++ b).data = a.data ++ '.' :: b.data := by
    simp [String.data_append]
  rw [hdata, splitOnCharList_append, List.filterMap_append]

theorem cmpNumLists_self_append {ys : List Int} (xs : List Int) (h : ys ≠ []) :
    cmpNumLists xs (xs ++ ys) = -1 := by
  induction xs with
  | nil =>
    cases ys with
    | nil => exact absurd rfl h
    | cons y ys => simp [cmpNumLists]
  | cons x xs ih =>
    simp only [List.cons_append, cmpNumLists, lt_irrefl, if_false]
    simpa using ih

theorem parseNumericId_ne_nil {s : String} (h : isNumericPointId s = true) :
    parseNumericId s ≠ [] := by
  unfold isNumericPointId at h
  unfold parseNumericId
  split at h
  · exact absurd h (by simp)
  · cases hs : splitOnCharList '.' s.data with
    | nil => exact absurd hs (splitOnCharList_ne_nil '.' s.data)
    | cons p ps =>
      rw [hs] at h
      have hp := (List.all_eq_true.mp h) p (by simp)
      simp only [hs, List.filterMap]
      rw [if_pos hp]
      simp

/-! ## Claim C7: sort-mode decision and numeric ordering -/

/-- C7 (amended).  The Feedback Assembler selects NUMERIC sort mode iff the
point list is non-empty and at least 70% of the points have a valid
*effective* numeric id — the `numeric_id` field, or the `point_id` field
when `numeric_id` is absent or empty (`_numeric_id_for_point`); the float
threshold test is the exact rational comparison `7·len ≤ 10·count`.  In
NUMERIC mode points are ordered by `_compare_numeric_ids`, which compares
dotted ids by component-wise integer comparison: "2.10" sorts strictly
after "2.9", and a parent id sorts strictly before every descendant
`parent ++ "." ++ rest`. -/
theorem c7_ordering_decision :
    (∀ points : List DetectedPoint,
      detectSortMode points = "NUMERIC" ↔
        (points ≠ [] ∧ 7 * points.length ≤
          10 * (points.filter (fun p => numericIdForPoint p ≠ "")).length)) ∧
    compareNumericIds "2.10" "2.9" = 1 ∧
    compareNumericIds "2.9" "2.10" = -1 ∧
    (∀ a b : String, isNumericPointId a = true → isNumericPointId b = true →
      compareNumericIds a (a ++ "." ++ b) = -1) := by
  refine ⟨?_, by decide, by decide, ?_⟩
  · intro points
    constructor
    · intro hm
      unfold detectSortMode at hm
      by_cases h : points.isEmpty
      · rw [if_pos h] at hm
        exact absurd hm (by decide)
      · rw [if_neg h] at hm
        refine ⟨by simpa using h, ?_⟩
        by_cases h2 : 7 * points.length ≤
            10 * (points.filter (fun p => numericIdForPoint p ≠ "")).length
        · exact h2
        · rw [if_neg h2] at hm
          exact absurd hm (by decide)
    · rintro ⟨hne, hle⟩
      unfold detectSortMode
      rw [if_neg (by simpa using hne), if_pos hle]
  · intro a b ha hb
    unfold compareNumericIds
    rw [parseNumericId_append]
    exact cmpNumLists_self_append _ (parseNumericId_ne_nil hb)

/-- Witness for C7: concrete instantiations of the universally quantified
parts, with the hypotheses discharged by computation. -/
theorem c7_ordering_decision_witness :
    detectSortMode [] ≠ "NUMERIC" ∧ compareNumericIds "2" "2.1" = -1 := by
  constructor
  · intro hmode
    exact ((c7_ordering_decision.1 []).mp hmode).1 rfl
  · exact c7_ordering_decision.2.2.2 "2" "1" (by decide) (by decide)

/-- A detected point whose `numeric_id` field is absent while its
`point_id` is the numeric string "2.3". -/
def c7Point : DetectedPoint :=
  { point_key := "P0001", native_label := "2.3", numeric_id := none,
    native_path := [], kind := some "point", point_id := "2.3", title := "T",
    page_start := some 1, page_end := some 1, order_in_doc := some 1,
    anchor_text := "", span_hash := "", excerpt := "", tg := "" }

/-- Counterexample to C7 as stated: for the one-point list `[c7Point]` the
code selects NUMERIC mode although the number of points *carrying a valid
`numeric_id`* is 0 (so the claimed fraction is 0 < 0.7): the fallback to
`point_id` inside `_numeric_id_for_point` decides the mode. -/
theorem c7_counterexample :
    detectSortMode [c7Point] = "NUMERIC" ∧
    ([c7Point].filter (fun p =>
      match p.numeric_id with
      | some s => isNumericPointId s
      | none => false)).length = 0 ∧
    ¬ (7 * 1 ≤ 10 * 0) := by
  exact ⟨by decide, by decide, by decide⟩

/-! ## Claim C10: condition-grade token search -/

/-- The token texts matchable by `TG_RE`. -/
def tgTokens : List String := ["TG0", "TG1", "TG2", "TG3", "TGIU"]

/-- `tok` occurs at position `i` of `cs` with `\b` boundaries on both
sides; `prev` is the character immediately before `cs` (`none` at string
start). -/
def tokenOccursRel (prev : Option Char) (cs : List Char) (i : Nat)
    (tok : String) : Prop :=
  ∃ pre post, cs = pre ++ tok.data ++ post ∧ pre.length = i ∧
    prevOkB (if pre.isEmpty then prev else pre.getLast?) = true ∧
    boundaryAfter post = true

/-- `tok` occurs at position `i` of the whole string `cs` with `\b`
boundaries on both sides. -/
def tokenOccursAt (cs : List Char) (i : Nat) (tok : String) : Prop :=
  tokenOccursRel none cs i tok

theorem tgMatchHere_some_iff {prev : Option Char} {cs : List Char}
    {tok : String} :
    tgMatchHere prev cs = some tok ↔
      (tok ∈ tgTokens ∧ prevOkB prev = true ∧
        ∃ rest, cs = tok.data ++ rest ∧ boundaryAfter rest = true) := by
  constructor
  · intro h
    unfold tgMatchHere at h
    split at h
    · exact absurd h (by simp)
    case _ hp =>
      have hprev : prevOkB prev = true := by
        simpa using hp
      split at h
      case _ rest1 =>
        split at h
        case _ r =>
          split at h
          · cases h
            exact ⟨by decide, hprev, r, rfl, by assumption⟩
          · exact absurd h (by simp)
        case _ c r hne =>
          split at h
          case _ hcond =>
            cases h
            have hb : boundaryAfter r = true := (Bool.and_eq_true_iff.mp hcond).2
            have hc := (Bool.and_eq_true_iff.mp hcond).1
            rcases Bool.or_eq_true_iff.mp hc with hc | hc3
            rcases Bool.or_eq_true_iff.mp hc with hc | hc2
            rcases Bool.or_eq_true_iff.mp hc with hc0 | hc1
            · cases (beq_iff_eq.mp hc0)
              exact ⟨by decide, hprev, r, rfl, hb⟩
            · cases (beq_iff_eq.mp hc1)
              exact ⟨by decide, hprev, r, rfl, hb⟩
            · cases (beq_iff_eq.mp hc2)
              exact ⟨by decide, hprev, r, rfl, hb⟩
            · cases (beq_iff_eq.mp hc3)
              exact ⟨by decide, hprev, r, rfl, hb⟩
          · exact absurd h (by simp)
        case _ => exact absurd h (by simp)
      case _ => exact absurd h (by simp)
  · rintro ⟨hmem, hprev, rest, heq, hb⟩
    subst heq
    simp only [tgTokens, List.mem_cons, List.not_mem_nil, or_false] at hmem
    rcases hmem with h | h | h | h | h <;> subst h <;>
      simp [tgMatchHere, hprev, hb]

theorem tokData_ne_nil : ∀ t ∈ tgTokens, t.data ≠ [] := by decide

theorem tokenOccursRel_zero {prev : Option Char} {cs : List Char}
    {tok : String} :
    tokenOccursRel prev cs 0 tok ↔
      (prevOkB prev = true ∧
        ∃ rest, cs = tok.data ++ rest ∧ boundaryAfter rest = true) := by
  constructor
  · rintro ⟨pre, post, heq, hlen, hpre, hpost⟩
    have : pre = [] := List.length_eq_zero.mp hlen
    subst this
    simp only [List.isEmpty_nil, if_true] at hpre
    exact ⟨hpre, post, by simpa using heq, hpost⟩
  · rintro ⟨hprev, rest, heq, hb⟩
    exact ⟨[], rest, by simpa using heq, rfl, by simpa using hprev, hb⟩

theorem tokenOccursRel_succ {prev : Option Char} {c : Char} {cs : List Char}
    {i : Nat} {tok : String} :
    tokenOccursRel prev (c :: cs) (i + 1) tok ↔
      tokenOccursRel (some c) cs i tok := by
  constructor
  · rintro ⟨pre, post, heq, hlen, hpre, hpost⟩
    cases pre with
    | nil => simp at hlen
    | cons c0 pre1 =>
      have hc0 : c0 = c := by
        have := congrArg (fun l => l.headI) heq
        simpa using this.symm
      subst hc0
      have hcs : cs = pre1 ++ tok.data ++ post := by
        have := congrArg List.tail heq
        simpa using this
      refine ⟨pre1, post, hcs, by simpa using hlen, ?_, hpost⟩
      cases pre1 with
      | nil => simpa using hpre
      | cons c1 pre2 =>
        simpa [List.getLast?_cons_cons] using hpre
  · rintro ⟨pre, post, heq, hlen, hpre, hpost⟩
    refine ⟨c :: pre, post, by simp [heq], by simp [hlen], ?_, hpost⟩
    cases pre with
    | nil => simpa using hpre
    | cons c1 pre2 =>
      simpa [List.getLast?_cons_cons] using hpre

theorem tgSearchAux_some_iff {tok : String} : ∀ (cs : List Char)
    (prev : Option Char),
    tgSearchAux prev cs = some tok ↔
      (tok ∈ tgTokens ∧ ∃ i, tokenOccursRel prev cs i tok ∧
        ∀ j, j < i → ∀ t ∈ tgTokens, ¬ tokenOccursRel prev cs j t) := by
  intro cs
  induction cs with
  | nil =>
    intro prev
    constructor
    · intro h
      simp [tgSearchAux] at h
    · rintro ⟨hmem, i, ⟨pre, post, heq, -, -, -⟩, -⟩
      have : tok.data = [] := by
        rcases List.append_eq_nil.mp (List.append_eq_nil.mp heq.symm).1 with ⟨-, h2⟩
        exact h2
      exact absurd this (tokData_ne_nil tok hmem)
  | cons c cs ih =>
    intro prev
    unfold tgSearchAux
    cases hm : tgMatchHere prev (c :: cs) with
    | some t =>
      have ht := tgMatchHere_some_iff.mp hm
      constructor
      · intro h
        cases h
        refine ⟨ht.1, 0, ?_, by omega⟩
        exact tokenOccursRel_zero.mpr ⟨ht.2.1, ht.2.2⟩
      · rintro ⟨hmem, i, hocc, hmin⟩
        cases i with
        | zero =>
          have h0 := tokenOccursRel_zero.mp hocc
          have := tgMatchHere_some_iff.mpr ⟨hmem, h0.1, h0.2⟩
          rw [hm] at this
          cases this
          rfl
        | succ k =>
          exact absurd (tokenOccursRel_zero.mpr ⟨ht.2.1, ht.2.2⟩)
            (hmin 0 (Nat.succ_pos k) t ht.1)
    | none =>
      have hno : ∀ t ∈ tgTokens, ¬ tokenOccursRel prev (c :: cs) 0 t := by
        intro t htmem hocc
        have h0 := tokenOccursRel_zero.mp hocc
        have := tgMatchHere_some_iff.mpr ⟨htmem, h0.1, h0.2⟩
        rw [hm] at this
        cases this
      rw [ih (some c)]
      constructor
      · rintro ⟨hmem, i, hocc, hmin⟩
        refine ⟨hmem, i + 1, tokenOccursRel_succ.mpr hocc, ?_⟩
        intro j hj t htmem
        cases j with
        | zero => exact hno t htmem
        | succ k =>
          intro hocck
          exact hmin k (by omega) t htmem (tokenOccursRel_succ.mp hocck)
      · rintro ⟨hmem, i, hocc, hmin⟩
        cases i with
        | zero => exact absurd hocc (hno tok hmem)
        | succ k =>
          refine ⟨hmem, k, tokenOccursRel_succ.mp hocc, ?_⟩
          intro j hj t htmem hocck
          exact hmin (j + 1) (by omega) t htmem (tokenOccursRel_succ.mpr hocck)

/-- C10 (amended).  `TG_RE.search` returns `some tok` exactly when `tok` is
one of the five enumerated grade tokens and occurs (with `\b` word
boundaries) at some position of the text before which no grade token occurs
at all — i.e. the *first* occurrence in span-text order decides.  Every
detected point's `tg` field is `TG_RE.search` applied to that point's span
text (tied to the point through its `span_hash`).  The scan is
case-SENSITIVE (`TG_RE` carries no `re.IGNORECASE` flag): a span containing
only lowercase "tg3" yields no condition code. -/
theorem c10_condition_code :
    (∀ (cs : List Char) (tok : String),
      tgSearch cs = some tok ↔
        (tok ∈ tgTokens ∧ ∃ i, tokenOccursAt cs i tok ∧
          ∀ j, j < i → ∀ t ∈ tgTokens, ¬ tokenOccursAt cs j t)) ∧
    (∀ (text : String) (p : DetectedPoint), p ∈ extractDetectedPoints text →
      ∃ spanText : String,
        p.span_hash = (if spanText ≠ "" then sha256Hex spanText else "") ∧
        p.tg = (tgSearch spanText.data).getD "") ∧
    tgSearch "Rom med fukt tg3 i gulv".data = none := by
  refine ⟨?_, ?_, by decide⟩
  · intro cs tok
    exact tgSearchAux_some_iff cs none
  · intro text p hp
    simp only [extractDetectedPoints] at hp
    rcases List.mem_map.mp hp with ⟨ih, _hmem, heq⟩
    refine ⟨spanTextAt (lineIndexOf text) (headingsOf (lineIndexOf text))
      ih.1 ih.2, ?_, ?_⟩
    · rw [← heq]
      rfl
    · rw [← heq]
      rfl

/-- A one-point document whose span contains "TG2". -/
def c10Doc : String := "[SIDE 1]\n2.1 Bad\nMerk TG2 her\n"

/-- The point detected in `c10Doc`. -/
def c10Pt : DetectedPoint :=
  mkDetectedPoint (lineIndexOf c10Doc) (headingsOf (lineIndexOf c10Doc)) 0
    ⟨0, "2.1", some "Bad"⟩

/-- Witness for C10: the characterization applied to a concrete scan, and
the span tie-in applied to the concrete point of `c10Doc`. -/
theorem c10_condition_code_witness :
    (("TG2" ∈ tgTokens ∧ ∃ i, tokenOccursAt "se TG2 her".data i "TG2" ∧
      ∀ j, j < i → ∀ t ∈ tgTokens, ¬ tokenOccursAt "se TG2 her".data j t)) ∧
    (∃ spanText : String,
      c10Pt.span_hash = (if spanText ≠ "" then sha256Hex spanText else "") ∧
      c10Pt.tg = (tgSearch spanText.data).getD "") :=
  ⟨(c10_condition_code.1 "se TG2 her".data "TG2").mp (by decide),
    c10_condition_code.2.1 c10Doc c10Pt (by decide)⟩

/-- A one-point document whose span contains the grade token only in
lowercase. -/
def c10LowerDoc : String := "[SIDE 1]\n2.1 Bad\nfukt tg3 i gulv\n"

/-- Counterexample to C10 as stated: the span of the single detected point
of `c10LowerDoc` contains "tg3", yet the point's condition code is empty —
the scan is not case-insensitive. -/
theorem c10_counterexample :
    (extractDetectedPoints c10LowerDoc).map (fun p => p.tg) = [""] ∧
    (strFind c10LowerDoc.data "tg3".data).isSome = true := by
  exact ⟨by decide, by decide⟩

/-! ## Claim C1: heading classification and the two-page scenario -/

/-- A non-empty all-digit segment. -/
def digitSeg (s : List Char) : Prop :=
  s ≠ [] ∧ ∀ c ∈ s, isDigitChar c = true

/-- The dotted label text of a non-empty segment list. -/
def dotJoin (segs : List (List Char)) : List Char :=
  match segs with
  | [] => []
  | s :: rest => s ++ (rest.map (fun g => '.' :: g)).flatten

/-- The tail part of a dotted label (every segment preceded by a dot). -/
def dotTail (segs : List (List Char)) : List Char :=
  (segs.map (fun g => '.' :: g)).flatten

/-- The heading shape that `POINT_HEADER_RE` actually accepts (amended from
the claim): optional leading whitespace, a label of 2 to 5 dot-separated
digit runs, at least one whitespace character, and then either only
whitespace (no title) or a title ending in a non-whitespace character. -/
def headingSpec (line : String) : Prop :=
  ∃ lead segs gap title, line.data = lead ++ dotJoin segs ++ gap ++ title ∧
    (∀ c ∈ lead, isSpaceChar c = true) ∧
    2 ≤ segs.length ∧ segs.length ≤ 5 ∧ (∀ s ∈ segs, digitSeg s) ∧
    gap ≠ [] ∧ (∀ c ∈ gap, isSpaceChar c = true) ∧
    (title = [] ∨ ∃ c, title.getLast? = some c ∧ isSpaceChar c = false)

theorem ws_not_digit {c : Char} (h : isSpaceChar c = true) :
    isDigitChar c = false ∧ c ≠ '.' := by
  simp only [isSpaceChar, Bool.or_eq_true, beq_iff_eq] at h
  rcases h with ((((h | h) | h) | h) | h) | h <;> subst h <;> decide

theorem digit_not_ws {c : Char} (h : isDigitChar c = true) :
    isSpaceChar c = false := by
  cases hs : isSpaceChar c with
  | false => rfl
  | true =>
    have hd := (ws_not_digit hs).1
    rw [h] at hd
    cases hd

theorem takeWhile_append_exact {p : Char → Bool} (g l : List Char)
    (hg : ∀ c ∈ g, p c = true) (hl : ∀ c, l.head? = some c → p c = false) :
    (g ++ l).takeWhile p = g ∧ (g ++ l).dropWhile p = l := by
  induction g with
  | nil =>
    simp only [List.nil_append]
    cases l with
    | nil => simp [List.takeWhile, List.dropWhile]
    | cons c cs =>
      have := hl c rfl
      simp [List.takeWhile, List.dropWhile, this]
  | cons c g ih =>
    have hc := hg c (by simp)
    have ihr := ih (fun x hx => hg x (by simp [hx]))
    simp only [List.cons_append, List.takeWhile, List.dropWhile, hc]
    refine ⟨?_, ?_⟩
    · rw [show g.append l = g ++ l from rfl, ihr.1]
    · rw [show g.append l = g ++ l from rfl, ihr.2]

theorem dropWhile_all_append {p : Char → Bool} (g l : List Char)
    (hg : ∀ c ∈ g, p c = true) : (g ++ l).dropWhile p = l.dropWhile p := by
  induction g with
  | nil => simp
  | cons c g ih =>
    have hc := hg c (by simp)
    simp only [List.cons_append, List.dropWhile, hc]
    exact ih (fun x hx => hg x (by simp [hx]))

theorem dropWhile_getLast {p : Char → Bool} {l : List Char} {c : Char}
    (h : l.getLast? = some c) (hc : p c = false) :
    l.dropWhile p ≠ [] ∧ (l.dropWhile p).getLast? = some c := by
  induction l with
  | nil => simp at h
  | cons x xs ih =>
    cases hx : p x with
    | true =>
      cases xs with
      | nil =>
        simp only [List.getLast?_singleton, Option.some_inj] at h
        subst h
        rw [hx] at hc
        cases hc
      | cons y ys =>
        rw [List.getLast?_cons_cons] at h
        have := ih h
        simpa [List.dropWhile, hx] using this
    | false =>
      refine ⟨by simp [List.dropWhile, hx], ?_⟩
      simpa [List.dropWhile, hx] using h

theorem parseDotGroupsF_decomp : ∀ (fuel : Nat) (cs : List Char),
    cs = dotTail (parseDotGroupsF fuel cs).1 ++ (parseDotGroupsF fuel cs).2 ∧
      ∀ g ∈ (parseDotGroupsF fuel cs).1, digitSeg g := by
  intro fuel
  induction fuel with
  | zero => intro cs; simp [parseDotGroupsF, dotTail]
  | succ fuel ih =>
    intro cs
    cases cs with
    | nil => simp [parseDotGroupsF, dotTail]
    | cons c rest =>
      by_cases hc : c = '.'
      · subst hc
        simp only [parseDotGroupsF]
        by_cases hds : (rest.takeWhile isDigitChar).isEmpty
        · simp [hds, dotTail]
        · simp only [hds, Bool.false_eq_true, if_false]
          have ihr := ih (rest.dropWhile isDigitChar)
          constructor
          · simp only [dotTail, List.map_cons, List.flatten_cons,
              List.cons_append]
            rw [List.append_assoc, ← dotTail, ← ihr.1,
              List.takeWhile_append_dropWhile]
          · intro g hg
            simp only [List.mem_cons] at hg
            rcases hg with hg | hg
            · subst hg
              refine ⟨by simpa using hds, ?_⟩
              intro x hx
              exact List.mem_takeWhile_imp hx
            · exact ihr.2 g hg
      · have heq : parseDotGroupsF (fuel + 1) (c :: rest) = ([], c :: rest) := by
          unfold parseDotGroupsF
          split
          · rename_i heq2
            injection heq2 with h1 h2
            exact absurd h1 hc
          · rfl
        simp [heq, dotTail]

theorem dotTail_length_ge : ∀ segs : List (List Char),
    segs.length ≤ (dotTail segs).length := by
  intro segs
  induction segs with
  | nil => simp [dotTail]
  | cons g gs ih =>
    simp only [dotTail, List.map_cons, List.flatten_cons, List.length_append,
      List.length_cons]
    simp only [dotTail] at ih
    omega

theorem parseDotGroupsF_exact : ∀ (fuel : Nat) (segs : List (List Char))
    (rest : List Char), segs.length ≤ fuel → (∀ g ∈ segs, digitSeg g) →
    (∀ c, rest.head? = some c → isDigitChar c = false ∧ c ≠ '.') →
    parseDotGroupsF fuel (dotTail segs ++ rest) = (segs, rest) := by
  intro fuel
  induction fuel with
  | zero =>
    intro segs rest hlen _ _
    have : segs = [] := List.length_eq_zero.mp (Nat.le_zero.mp hlen)
    subst this
    simp [dotTail, parseDotGroupsF]
  | succ fuel ih =>
    intro segs rest hlen hsegs hrest
    cases segs with
    | nil =>
      simp only [dotTail, List.map_nil, List.flatten_nil, List.nil_append]
      unfold parseDotGroupsF
      split
      · rename_i rest2
        exact absurd rfl (hrest '.' rfl).2
      · rfl
    | cons g segs2 =>
      have hg := hsegs g (by simp)
      have hshape : dotTail (g :: segs2) ++ rest =
          '.' :: (g ++ (dotTail segs2 ++ rest)) := by
        simp [dotTail]
      rw [hshape]
      have hnext : ∀ c, (dotTail segs2 ++ rest).head? = some c →
          isDigitChar c = false := by
        intro c hc
        cases segs2 with
        | nil =>
          simp only [dotTail, List.map_nil, List.flatten_nil,
            List.nil_append] at hc
          exact (hrest c hc).1
        | cons g2 segs3 =>
          have hh : (dotTail (g2 :: segs3) ++ rest).head? = some '.' := by
            simp [dotTail]
          rw [hh] at hc
          cases hc
          decide
      have htw := takeWhile_append_exact g (dotTail segs2 ++ rest) hg.2 hnext
      have hlen2 : segs2.length ≤ fuel := by
        simp only [List.length_cons] at hlen
        omega
      have hrec := ih segs2 rest hlen2 (fun x hx => hsegs x (by simp [hx])) hrest
      unfold parseDotGroupsF
      simp only [htw.1, htw.2, hrec]
      rw [if_neg (by simpa using hg.1)]

theorem matchPointHeader_isSome_iff (line : String) :
    (matchPointHeader line).isSome = true ↔ headingSpec line := by
  constructor
  · intro h
    simp only [matchPointHeader] at h
    split at h
    · simp at h
    case _ hd0 =>
      split at h
      · simp at h
      case _ hlen =>
        split at h
        · simp at h
        case _ c r0 hgr2 =>
          split at h
          · simp at h
          case _ hws =>
            have hwsc : isSpaceChar c = true := by simpa using hws
            set B := List.dropWhile isSpaceChar line.data with hBdef
            set X := List.dropWhile isDigitChar B with hXdef
            set P := parseDotGroups X with hPdef
            have hXdecomp := parseDotGroupsF_decomp (X.length + 1) X
            rw [show parseDotGroupsF (X.length + 1) X = P from
              (by rw [hPdef]; rfl)] at hXdecomp
            have hlens : 1 ≤ P.1.length ∧ P.1.length ≤ 4 := by
              simp only [Bool.or_eq_true, decide_eq_true_eq, not_or,
                Nat.not_lt] at hlen
              omega
            have hd0ne : B.takeWhile isDigitChar ≠ [] := by
              simpa using hd0
            have hmain : line.data =
                (line.data.takeWhile isSpaceChar) ++
                  dotJoin (B.takeWhile isDigitChar :: P.1) ++
                  (c :: r0).takeWhile isSpaceChar ++
                  (c :: r0).dropWhile isSpaceChar := by
              rw [show dotJoin (B.takeWhile isDigitChar :: P.1) =
                B.takeWhile isDigitChar ++ dotTail P.1 from rfl]
              rw [List.append_assoc, List.append_assoc, List.append_assoc,
                List.takeWhile_append_dropWhile, ← hgr2, ← List.append_assoc,
                ← hXdecomp.1, hXdef, List.append_assoc,
                List.takeWhile_append_dropWhile, ← hBdef.symm,
                List.takeWhile_append_dropWhile]
            refine ⟨line.data.takeWhile isSpaceChar,
              B.takeWhile isDigitChar :: P.1,
              (c :: r0).takeWhile isSpaceChar,
              (c :: r0).dropWhile isSpaceChar, hmain,
              fun x hx => List.mem_takeWhile_imp hx,
              by simp; omega,
              by simp; omega,
              ?_, ?_,
              fun x hx => List.mem_takeWhile_imp hx, ?_⟩
            · intro s hs
              simp only [List.mem_cons] at hs
              rcases hs with hs | hs
              · subst hs
                exact ⟨hd0ne, fun x hx => List.mem_takeWhile_imp hx⟩
              · exact hXdecomp.2 s hs
            · simp [List.takeWhile, hwsc]
            · -- title side condition
              split at h
              case _ ht0 =>
                left
                exact ht0
              case _ t0 t hlast =>
                split at h
                · simp at h
                case _ hlastws =>
                  right
                  refine ⟨(t0 :: t).getLast (List.cons_ne_nil t0 t), ?_, ?_⟩
                  · rw [hlast]
                    exact (List.getLast?_eq_getLast _ _).symm ▸ rfl
                  · simpa using hlastws
  · rintro ⟨lead, segs, gap, title, heq, hlead, hlen2, hlen5, hsegs, hgapne,
      hgap, htitle⟩
    obtain ⟨seg0, segs2, rfl⟩ : ∃ s ss, segs = s :: ss := by
      cases segs with
      | nil => simp at hlen2
      | cons s ss => exact ⟨s, ss, rfl⟩
    obtain ⟨gc, gap2, rfl⟩ : ∃ g gs2, gap = g :: gs2 := by
      cases gap with
      | nil => exact absurd rfl hgapne
      | cons g gs2 => exact ⟨g, gs2, rfl⟩
    have hseg0 := hsegs seg0 (by simp)
    obtain ⟨a, as, rfl⟩ : ∃ a as, seg0 = a :: as := by
      cases seg0 with
      | nil => exact absurd rfl hseg0.1
      | cons a as => exact ⟨a, as, rfl⟩
    have hgc : isSpaceChar gc = true := hgap gc (by simp)
    have ha : isDigitChar a = true := hseg0.2 a (by simp)
    have hstep1 : line.data.dropWhile isSpaceChar =
        (a :: as) ++ (dotTail segs2 ++ ((gc :: gap2) ++ title)) := by
      rw [heq]
      simp only [List.append_assoc]
      rw [dropWhile_all_append lead _ hlead,
        show dotJoin ((a :: as) :: segs2) = (a :: as) ++ dotTail segs2 from rfl]
      simp only [List.append_assoc, List.cons_append]
      rw [List.dropWhile_cons, if_neg (by simp [digit_not_ws ha])]
    have hheadl : ∀ c, (dotTail segs2 ++ ((gc :: gap2) ++ title)).head? =
        some c → isDigitChar c = false := by
      intro c hc
      cases segs2 with
      | nil =>
        simp only [dotTail, List.map_nil, List.flatten_nil, List.nil_append,
          List.cons_append, List.head?_cons, Option.some_inj] at hc
        subst hc
        exact (ws_not_digit hgc).1
      | cons g2 segs3 =>
        have hh : (dotTail (g2 :: segs3) ++ ((gc :: gap2) ++ title)).head? =
            some '.' := by simp [dotTail]
        rw [hh] at hc
        cases hc
        decide
    have htake := takeWhile_append_exact (a :: as)
      (dotTail segs2 ++ ((gc :: gap2) ++ title)) hseg0.2 hheadl
    have hparse : parseDotGroups (dotTail segs2 ++ ((gc :: gap2) ++ title)) =
        (segs2, (gc :: gap2) ++ title) := by
      unfold parseDotGroups
      apply parseDotGroupsF_exact
      · have h1 := dotTail_length_ge segs2
        have h2 : (dotTail segs2).length ≤
            (dotTail segs2 ++ ((gc :: gap2) ++ title)).length := by
          simp
        omega
      · exact fun g hg => hsegs g (by simp [hg])
      · intro c hc
        simp only [List.cons_append, List.head?_cons, Option.some_inj] at hc
        subst hc
        exact ⟨(ws_not_digit hgc).1, (ws_not_digit hgc).2⟩
    simp only [matchPointHeader]
    rw [hstep1, htake.1, htake.2, hparse]
    rw [if_neg (by simp)]
    have hlencond : ¬ ((decide ((segs2, (gc :: gap2) ++ title).1.length < 1) ||
        decide (4 < (segs2, (gc :: gap2) ++ title).1.length)) = true) := by
      simp only [List.length_cons] at hlen2 hlen5
      simp only [Bool.or_eq_true, decide_eq_true_eq, not_or, Nat.not_lt]
      omega
    rw [if_neg hlencond]
    simp only [List.cons_append]
    rw [if_neg (by simp [hgc])]
    have hdrop : List.dropWhile isSpaceChar (gc :: (gap2 ++ title)) =
        title.dropWhile isSpaceChar := by
      rw [show gc :: (gap2 ++ title) = (gc :: gap2) ++ title from rfl]
      exact dropWhile_all_append _ _ hgap
    rw [hdrop]
    rcases htitle with rfl | ⟨cl, hlast, hcws⟩
    · simp [List.dropWhile]
    · have hd := dropWhile_getLast hlast hcws
      obtain ⟨t0, t, ht⟩ : ∃ t0 t, title.dropWhile isSpaceChar = t0 :: t := by
        cases hcase : title.dropWhile isSpaceChar with
        | nil => exact absurd hcase hd.1
        | cons t0 t => exact ⟨t0, t, rfl⟩
      rw [ht]
      have hgl : (t0 :: t).getLast (List.cons_ne_nil t0 t) = cl := by
        have h2 := hd.2
        rw [ht, List.getLast?_eq_getLast (t0 :: t) (List.cons_ne_nil t0 t)] at h2
        exact Option.some_inj.mp h2
      simp [hgl, hcws]

/-- The two-page scenario document of the claim: "1 Tak" on page 1 and
"2.1 Våtrom" on page 2 with the token "TG3" inside the latter's span. -/
def c1Doc : String :=
  "[SIDE 1]\n1 Tak\nTett tak uten avvik\n[SIDE 2]\n2.1 V\u00e5trom\nVurdering TG3 registrert\n"

/-- C1 (amended).  A line is classified as a heading by `POINT_HEADER_RE`
exactly when it carries a label of TWO to five dot-separated digit runs
followed by at least one whitespace character, with the rest of the line
either all whitespace (pure numbering, empty title) or ending in a
non-whitespace character (the title).  Consequently the two-page scenario
document detects exactly ONE point — "1 Tak" has a single-level label and
is not a heading — namely "2.1 Våtrom" with condition code "TG3" and
page_start = page_end = 2. -/
theorem c1_point_detector :
    (∀ line : String, (matchPointHeader line).isSome = true ↔ headingSpec line) ∧
    (extractDetectedPoints c1Doc).map
        (fun p => (p.point_id, p.tg, p.page_start, p.page_end)) =
      [("2.1", "TG3", some 2, some 2)] :=
  ⟨matchPointHeader_isSome_iff, by decide⟩

/-- Witness for C1: the characterization applied to the concrete line
"2.1 Bad", with every hypothesis of the decomposition discharged by
computation. -/
theorem c1_point_detector_witness :
    (matchPointHeader "2.1 Bad").isSome = true :=
  (c1_point_detector.1 "2.1 Bad").mpr
    ⟨[], [['2'], ['1']], [' '], ['B', 'a', 'd'], by decide, by decide,
      by decide, by decide,
      by
        intro s hs
        simp only [List.mem_cons, List.not_mem_nil, or_false] at hs
        rcases hs with rfl | rfl <;> exact ⟨by decide, by decide⟩,
      by decide, by decide,
      Or.inr ⟨'d', by decide, by decide⟩⟩

/-- Counterexample to C1 as stated: a label of ONE integer with a title
("1 Tak") is not classified as a heading, pure two-level numbering without
trailing whitespace ("2.1") is not either, and the scenario document
yields one detected point, not two. -/
theorem c1_counterexample :
    matchPointHeader "1 Tak" = none ∧ matchPointHeader "2.1" = none ∧
    (extractDetectedPoints c1Doc).length = 1 :=
  ⟨by decide, by decide, by decide⟩

/-! ## Score-normalizer bookkeeping lemmas (shared by C2, C3, C8, C9) -/

/-- All deduction records of an output, in encounter order. -/
def flatDeductions (out : AnalysisOutput) : List Deduction :=
  (out.findings.map (fun c => c.deductions)).flatten

/-- The raw (uncapped) sum, over a deduction list, of the coerced points of
the deductions resolving to category `cid`. -/
def catSum (ds : List Deduction) (cid : String) : Int :=
  ((ds.filter (fun d => resolvedCategory d = cid)).map
    (fun d => pvalToIntLoose d.points)).sum

/-- The state after the findings loop of `_normalize_scoring_output`. -/
def normStateOf (cfg : ScoringModelCfg) (out : AnalysisOutput) : NormState :=
  (normalizeFindings (String.mk (toLowerList cfg.aggregate_level.data))
    cfg.deduct_per_occurrence ⟨[], initTotals cfg.category_order, false⟩
    out.findings).1

theorem alFind_update_self {α : Type} (l : List (String × α)) (k : String)
    (v : α) : alFind (alUpdate l k v) k = (alFind l k).map (fun _ => v) := by
  induction l with
  | nil => simp [alFind, alUpdate]
  | cons kv l ih =>
    by_cases hk : kv.1 = k
    · simp [alFind, alUpdate, hk]
    · simp only [alUpdate, List.map_cons, if_neg hk, alFind]
      simpa [alUpdate] using ih

theorem alFind_update_ne {α : Type} (l : List (String × α)) (k k2 : String)
    (v : α) (h : k2 ≠ k) : alFind (alUpdate l k v) k2 = alFind l k2 := by
  induction l with
  | nil => simp [alFind, alUpdate]
  | cons kv l ih =>
    by_cases hk : kv.1 = k
    · have hne : ¬ (k = k2) := fun he => h he.symm
      simp only [alUpdate, List.map_cons, if_pos hk, alFind]
      rw [if_neg hne, if_neg (hk ▸ hne)]
      simpa [alUpdate] using ih
    · simp only [alUpdate, List.map_cons, if_neg hk, alFind]
      by_cases hk2 : kv.1 = k2
      · rw [if_pos hk2, if_pos hk2]
      · rw [if_neg hk2, if_neg hk2]
        simpa [alUpdate] using ih

theorem alFind_append_right {α : Type} (l : List (String × α)) (k k2 : String)
    (v : α) (h : alFind l k2 = none) :
    alFind (l ++ [(k, v)]) k2 = if k = k2 then some v else none := by
  induction l with
  | nil => simp [alFind]
  | cons kv l ih =>
    simp only [alFind] at h
    by_cases hk2 : kv.1 = k2
    · rw [if_pos hk2] at h
      cases h
    · rw [if_neg hk2] at h
      simp only [List.cons_append, alFind, if_neg hk2]
      exact ih h

theorem alFind_addAt_self (l : List (String × Int)) (k : String) (v : Int) :
    alFind (alAddAt l k v) k = some ((alFind l k).getD 0 + v) := by
  unfold alAddAt
  cases h : alFind l k with
  | some old =>
    rw [alFind_update_self, h]
    simp
  | none =>
    rw [alFind_append_right l k k v h, if_pos rfl]
    simp

theorem alFind_addAt_ne (l : List (String × Int)) (k k2 : String) (v : Int)
    (h : k2 ≠ k) : alFind (alAddAt l k v) k2 = alFind l k2 := by
  unfold alAddAt
  cases hf : alFind l k with
  | some old => exact alFind_update_ne l k k2 (old + v) h
  | none =>
    cases hf2 : alFind l k2 with
    | some w =>
      rw [← hf2]
      clear hf2
      induction l with
      | nil =>
        simp only [List.nil_append, alFind]
        rw [if_neg (fun he => h he.symm)]
      | cons kv l ih =>
        simp only [alFind] at hf ⊢
        by_cases hk : kv.1 = k
        · rw [if_pos hk] at hf
          cases hf
        · rw [if_neg hk] at hf
          by_cases hk2 : kv.1 = k2
          · simp only [List.cons_append, alFind, if_pos hk2]
          · simp only [List.cons_append, alFind, if_neg hk2]
            exact ih hf
    | none =>
      rw [alFind_append_right l k k2 v hf2, if_neg (fun he => h he.symm)]

theorem sumDeductions_append (st : List (String × Int) × Bool)
    (xs ys : List Deduction) :
    sumDeductions (sumDeductions st xs) ys = sumDeductions st (xs ++ ys) := by
  unfold sumDeductions
  rw [List.foldl_append]

theorem sumDeductions_find (cid : String) (hcid : cid ≠ "") :
    ∀ (ds : List Deduction) (st : List (String × Int) × Bool),
    alFind (sumDeductions st ds).1 cid =
      match alFind st.1 cid with
      | some v => some (v + catSum ds cid)
      | none =>
        if ds.any (fun d => resolvedCategory d = cid) then some (catSum ds cid)
        else none := by
  intro ds
  induction ds with
  | nil =>
    intro st
    cases h : alFind st.1 cid <;> simp [sumDeductions, catSum, h]
  | cons d ds ih =>
    intro st
    unfold sumDeductions at ih ⊢
    simp only [List.foldl_cons]
    by_cases h0 : resolvedCategory d = ""
    · rw [if_pos h0, ih st]
      have hne : ¬ (resolvedCategory d = cid) := by
        rw [h0]
        exact fun he => hcid he.symm
      have hcs : catSum (d :: ds) cid = catSum ds cid := by
        simp [catSum, List.filter, hne]
      have hany : (d :: ds).any (fun d => resolvedCategory d = cid) =
          ds.any (fun d => resolvedCategory d = cid) := by
        simp [List.any_cons, hne]
      rw [hcs, hany]
    · rw [if_neg h0]
      have ih2 := ih (alAddAt st.1 (resolvedCategory d)
        (pvalToIntLoose d.points), true)
      dsimp only at ih2
      rw [ih2]
      by_cases heq : resolvedCategory d = cid
      · rw [heq]
        rw [alFind_addAt_self st.1 cid (pvalToIntLoose d.points)]
        have hcs : catSum (d :: ds) cid =
            pvalToIntLoose d.points + catSum ds cid := by
          simp [catSum, List.filter, heq, List.map_cons, List.sum_cons]
        rw [hcs]
        cases hf : alFind st.1 cid with
        | some v => simp [Int.add_assoc]
        | none => simp [heq]
      · have hfind := alFind_addAt_ne st.1 (resolvedCategory d) cid
          (pvalToIntLoose d.points) (fun he => heq he.symm)
        rw [hfind]
        have hcs : catSum (d :: ds) cid = catSum ds cid := by
          simp [catSum, List.filter, heq]
        have hany : (d :: ds).any (fun d => resolvedCategory d = cid) =
            ds.any (fun d => resolvedCategory d = cid) := by
          simp [List.any_cons, heq]
        rw [hcs, hany]

theorem sumDeductions_hasDed : ∀ (ds : List Deduction)
    (st : List (String × Int) × Bool),
    (sumDeductions st ds).2 =
      (st.2 || ds.any (fun d => !(resolvedCategory d = ""))) := by
  intro ds
  induction ds with
  | nil => intro st; simp [sumDeductions]
  | cons d ds ih =>
    intro st
    unfold sumDeductions at ih ⊢
    simp only [List.foldl_cons]
    by_cases h0 : resolvedCategory d = ""
    · rw [if_pos h0, ih st]
      simp [List.any_cons, h0]
    · rw [if_neg h0]
      have ih2 := ih (alAddAt st.1 (resolvedCategory d)
        (pvalToIntLoose d.points), true)
      dsimp only at ih2
      rw [ih2]
      simp [h0]

theorem normalizeFindings_totals (lvl : String) (dpo : Bool) :
    ∀ (cs : List Component) (st : NormState),
    ((normalizeFindings lvl dpo st cs).1.totals,
      (normalizeFindings lvl dpo st cs).1.hasDed) =
      sumDeductions (st.totals, st.hasDed)
        (((normalizeFindings lvl dpo st cs).2.map
          (fun c => c.deductions)).flatten) := by
  intro cs
  induction cs with
  | nil => intro st; simp [normalizeFindings, sumDeductions]
  | cons c cs ih =>
    intro st
    simp only [normalizeFindings, normalizeComponent]
    have ih2 := ih ⟨(dedupeDeductions lvl dpo c.component_id st.seen
        c.deductions).1,
      (sumDeductions (st.totals, st.hasDed)
        (dedupeDeductions lvl dpo c.component_id st.seen c.deductions).2).1,
      (sumDeductions (st.totals, st.hasDed)
        (dedupeDeductions lvl dpo c.component_id st.seen c.deductions).2).2⟩
    dsimp only at ih2 ⊢
    rw [ih2]
    rw [show ((sumDeductions (st.totals, st.hasDed)
      (dedupeDeductions lvl dpo c.component_id st.seen c.deductions).2).1,
      (sumDeductions (st.totals, st.hasDed)
      (dedupeDeductions lvl dpo c.component_id st.seen c.deductions).2).2) =
      sumDeductions (st.totals, st.hasDed)
      (dedupeDeductions lvl dpo c.component_id st.seen c.deductions).2 from rfl]
    rw [sumDeductions_append]
    rw [List.map_cons, List.flatten_cons]

theorem alFind_map_entry {α β : Type} (l : List (String × α))
    (g : String → α → β) (k : String) :
    alFind (l.map (fun kv => (kv.1, g kv.1 kv.2))) k =
      (alFind l k).map (g k) := by
  induction l with
  | nil => simp [alFind]
  | cons kv l ih =>
    by_cases hk : kv.1 = k
    · subst hk
      simp [alFind]
    · simp only [List.map_cons, alFind, if_neg hk]
      exact ih

theorem alFind_none_iff {α : Type} (l : List (String × α)) (k : String) :
    alFind l k = none ↔ k ∉ l.map (fun kv => kv.1) := by
  induction l with
  | nil => simp [alFind]
  | cons kv l ih =>
    by_cases hk : kv.1 = k
    · simp [alFind, hk]
    · simp only [alFind, if_neg hk, List.map_cons, List.mem_cons, ih]
      constructor
      · rintro h (h2 | h2)
        · exact hk h2.symm
        · exact h h2
      · intro h
        exact fun h2 => h (Or.inr h2)

theorem initTotals_find (order : List String) (cid : String) :
    alFind (initTotals order) cid =
      if cid ∈ order then some (0 : Int) else none := by
  have main : ∀ (os : List String) (acc : List (String × Int)),
      alFind (os.foldl (fun acc cid2 =>
        match alFind acc cid2 with
        | some _ => acc
        | none => acc ++ [(cid2, (0 : Int))]) acc) cid =
      match alFind acc cid with
      | some v => some v
      | none => if cid ∈ os then some (0 : Int) else none := by
    intro os
    induction os with
    | nil =>
      intro acc
      cases h : alFind acc cid <;> simp [h]
    | cons o os ih =>
      intro acc
      simp only [List.foldl_cons]
      by_cases ho : (alFind acc o).isSome
      · obtain ⟨v, hv⟩ := Option.isSome_iff_exists.mp ho
        rw [show (match alFind acc o with
          | some _ => acc
          | none => acc ++ [(o, 0)]) = acc from by rw [hv]]
        rw [ih acc]
        cases h : alFind acc cid with
        | some w => rfl
        | none =>
          by_cases hco : cid = o
          · subst hco
            rw [h] at hv
            cases hv
          · simp [List.mem_cons, hco]
      · have hnone : alFind acc o = none := Option.not_isSome_iff_eq_none.mp ho
        rw [show (match alFind acc o with
          | some _ => acc
          | none => acc ++ [(o, 0)]) = acc ++ [(o, 0)] from by rw [hnone]]
        rw [ih (acc ++ [(o, 0)])]
        cases h : alFind acc cid with
        | some w =>
          have : alFind (acc ++ [(o, 0)]) cid = some w := by
            clear ih ho hnone
            induction acc with
            | nil => simp [alFind] at h
            | cons kv l ihl =>
              simp only [alFind] at h ⊢
              by_cases hk : kv.1 = cid
              · rw [if_pos hk] at h ⊢
                exact h
              · rw [if_neg hk] at h ⊢
                exact ihl h
          rw [this]
        | none =>
          rw [alFind_append_right acc o cid 0 h]
          by_cases hco : cid = o
          · subst hco
            simp
          · rw [if_neg (fun he => hco he.symm)]
            simp [List.mem_cons, hco]
  unfold initTotals
  rw [main order [], show alFind ([] : List (String × Int)) cid = none from rfl]

theorem alUpdate_keys {α : Type} (l : List (String × α)) (k : String) (v : α) :
    (alUpdate l k v).map (fun kv => kv.1) = l.map (fun kv => kv.1) := by
  unfold alUpdate
  rw [List.map_map]
  apply List.map_congr_left
  intro kv _
  by_cases hk : kv.1 = k
  · simp [hk]
  · simp [hk]

theorem alAddAt_keys {l : List (String × Int)} {k : String} {v : Int} :
    (alAddAt l k v).map (fun kv => kv.1) = l.map (fun kv => kv.1) ∨
      ((alAddAt l k v).map (fun kv => kv.1) =
        l.map (fun kv => kv.1) ++ [k] ∧ alFind l k = none) := by
  unfold alAddAt
  cases h : alFind l k with
  | some old => exact Or.inl (alUpdate_keys l k (old + v))
  | none =>
    refine Or.inr ⟨?_, rfl⟩
    simp

theorem alAddAt_nodup {l : List (String × Int)} {k : String} {v : Int}
    (h : (l.map (fun kv => kv.1)).Nodup) :
    ((alAddAt l k v).map (fun kv => kv.1)).Nodup := by
  rcases alAddAt_keys (l := l) (k := k) (v := v) with hk | ⟨hk, hf⟩
  · rw [hk]; exact h
  · rw [hk]
    have hmem := (alFind_none_iff l k).mp hf
    simp [List.nodup_append, h, hmem]

theorem sumDeductions_nodup (ds : List Deduction) :
    ∀ (st : List (String × Int) × Bool),
    ((st.1.map (fun kv => kv.1)).Nodup) →
    (((sumDeductions st ds).1.map (fun kv => kv.1)).Nodup) := by
  induction ds with
  | nil => intro st h; simpa [sumDeductions] using h
  | cons d ds ih =>
    intro st h
    unfold sumDeductions at ih ⊢
    simp only [List.foldl_cons]
    by_cases h0 : resolvedCategory d = ""
    · rw [if_pos h0]
      exact ih st h
    · rw [if_neg h0]
      exact ih _ (alAddAt_nodup h)

theorem sumDeductions_keys_ne (ds : List Deduction) :
    ∀ (st : List (String × Int) × Bool) (k : String),
    k ∈ (sumDeductions st ds).1.map (fun kv => kv.1) →
    k ∈ st.1.map (fun kv => kv.1) ∨ k ≠ "" := by
  induction ds with
  | nil => intro st k h; exact Or.inl (by simpa [sumDeductions] using h)
  | cons d ds ih =>
    intro st k h
    unfold sumDeductions at ih h
    simp only [List.foldl_cons] at h
    by_cases h0 : resolvedCategory d = ""
    · rw [if_pos h0] at h
      exact ih st k h
    · rw [if_neg h0] at h
      rcases ih _ k h with hmem | hne
      · dsimp only at hmem
        rcases alAddAt_keys (l := st.1) (k := resolvedCategory d)
          (v := pvalToIntLoose d.points) with hk | ⟨hk, -⟩
        · rw [hk] at hmem
          exact Or.inl hmem
        · rw [hk] at hmem
          rcases List.mem_append.mp hmem with hmem | hmem
          · exact Or.inl hmem
          · simp only [List.mem_singleton] at hmem
            subst hmem
            exact Or.inr h0
      · exact Or.inr hne

theorem initTotals_nodup (order : List String) :
    ((initTotals order).map (fun kv => kv.1)).Nodup := by
  have main : ∀ (os : List String) (acc : List (String × Int)),
      ((acc.map (fun kv => kv.1)).Nodup) →
      (((os.foldl (fun acc cid2 =>
        match alFind acc cid2 with
        | some _ => acc
        | none => acc ++ [(cid2, (0 : Int))]) acc).map
          (fun kv => kv.1)).Nodup) := by
    intro os
    induction os with
    | nil => intro acc h; simpa using h
    | cons o os ih =>
      intro acc h
      simp only [List.foldl_cons]
      cases hf : alFind acc o with
      | some v => exact ih acc h
      | none =>
        refine ih (acc ++ [(o, (0 : Int))]) ?_
        have hmem := (alFind_none_iff acc o).mp hf
        simp [List.nodup_append, h, hmem]
  exact main order [] (by simp)

theorem initTotals_keys_mem (order : List String) (k : String) :
    k ∈ (initTotals order).map (fun kv => kv.1) → k ∈ order := by
  intro h
  have hfind : alFind (initTotals order) k ≠ none := by
    intro hn
    exact ((alFind_none_iff (initTotals order) k).mp hn) h
  rw [initTotals_find] at hfind
  by_cases hmem : k ∈ order
  · exact hmem
  · rw [if_neg hmem] at hfind
    exact absurd rfl hfind

theorem alFind_mem_nodup {α : Type} {l : List (String × α)}
    (h : (l.map (fun kv => kv.1)).Nodup) {kv : String × α} (hm : kv ∈ l) :
    alFind l kv.1 = some kv.2 := by
  induction l with
  | nil => simp at hm
  | cons hd l ih =>
    rcases List.mem_cons.mp hm with rfl | hm2
    · simp [alFind]
    · have hne : hd.1 ≠ kv.1 := by
        intro he
        have : kv.1 ∈ l.map (fun kv => kv.1) := List.mem_map_of_mem _ hm2
        rw [← he] at this
        simp only [List.map_cons, List.nodup_cons] at h
        exact h.1 this
      simp only [alFind, if_neg hne]
      have h2 : (l.map (fun kv => kv.1)).Nodup := by
        simp only [List.map_cons, List.nodup_cons] at h
        exact h.2
      exact ih h2 hm2

/-- Cap application: the per-category capped total. -/
def cappedCatVal (cfg : ScoringModelCfg) (raw : Int) (cid : String) : Int :=
  match capOf cfg cid with
  | some cap => min raw cap
  | none => raw

theorem norm_spec (cfg : ScoringModelCfg) (out : AnalysisOutput)
    (hcat : "" ∉ cfg.category_order)
    (hD : (normStateOf cfg out).hasDed = true) :
    (normalizeScoringOutput cfg out).score_by_category =
      cfg.category_order.map (fun cid =>
        { category_id := cid,
          category_name := (alFind cfg.category_names cid).getD "",
          deduction := cappedCatVal cfg
            (catSum (flatDeductions (normalizeScoringOutput cfg out)) cid) cid,
          max_deduction := (capOf cfg cid).getD 0 }) ∧
    (normalizeScoringOutput cfg out).score_total =
      max cfg.score_floor (min cfg.score_ceiling
        (cfg.score_start - ((normStateOf cfg out).totals.map (fun kv =>
          cappedCatVal cfg
            (catSum (flatDeductions (normalizeScoringOutput cfg out)) kv.1)
            kv.1)).sum)) ∧
    (∀ cid, cid ∈ (normStateOf cfg out).totals.map (fun kv => kv.1) ↔
      (cid ∈ cfg.category_order ∨
        (cid ≠ "" ∧ ∃ d ∈ flatDeductions (normalizeScoringOutput cfg out),
          resolvedCategory d = cid))) := by
  have hres : normalizeScoringOutput cfg out =
      (let lvl := String.mk (toLowerList cfg.aggregate_level.data)
      let r := normalizeFindings lvl cfg.deduct_per_occurrence
        ⟨[], initTotals cfg.category_order, false⟩ out.findings
      let capped := r.1.totals.map (fun kv =>
        (kv.1,
          match capOf cfg kv.1 with
          | some cap => min kv.2 cap
          | none => kv.2))
      { out with
        findings := r.2,
        score_by_category := cfg.category_order.map (fun cid =>
          ({ category_id := cid,
             category_name := (alFind cfg.category_names cid).getD "",
             deduction := (alFind capped cid).getD 0,
             max_deduction := (capOf cfg cid).getD 0 } : CategoryScore)),
        score_total := max cfg.score_floor (min cfg.score_ceiling
          (cfg.score_start - ((capped.map (fun kv => kv.2)).sum))) }) := by
    unfold normalizeScoringOutput
    simp only []
    rw [show (normalizeFindings (String.mk (toLowerList cfg.aggregate_level.data))
      cfg.deduct_per_occurrence ⟨[], initTotals cfg.category_order, false⟩
      out.findings).1.hasDed = true from hD]
    simp
  rw [hres]
  simp only [flatDeductions]
  set r := normalizeFindings (String.mk (toLowerList cfg.aggregate_level.data))
    cfg.deduct_per_occurrence ⟨[], initTotals cfg.category_order, false⟩
    out.findings with hrdef
  have hns : normStateOf cfg out = r.1 := rfl
  rw [hns]
  set flat := (r.2.map (fun c => c.deductions)).flatten with hflatdef
  have hTot := normalizeFindings_totals
    (String.mk (toLowerList cfg.aggregate_level.data))
    cfg.deduct_per_occurrence out.findings
    ⟨[], initTotals cfg.category_order, false⟩
  rw [← hrdef] at hTot
  dsimp only at hTot
  have hTot1 : r.1.totals =
      (sumDeductions (initTotals cfg.category_order, false) flat).1 := by
    rw [hflatdef]
    exact congrArg Prod.fst hTot
  have hfindc : ∀ cid, cid ≠ "" → alFind r.1.totals cid =
      (if cid ∈ cfg.category_order then some (catSum flat cid)
       else if flat.any (fun d => resolvedCategory d = cid) then
         some (catSum flat cid)
       else none) := by
    intro cid hne
    rw [hTot1, sumDeductions_find cid hne flat _]
    dsimp only
    rw [initTotals_find]
    by_cases hmem : cid ∈ cfg.category_order
    · simp [hmem]
    · simp [hmem]
  have hnd : (r.1.totals.map (fun kv => kv.1)).Nodup := by
    rw [hTot1]
    exact sumDeductions_nodup flat _ (initTotals_nodup cfg.category_order)
  have hkeyne : ∀ kv : String × Int, kv ∈ r.1.totals → kv.1 ≠ "" := by
    intro kv hkv
    have hmem : kv.1 ∈ r.1.totals.map (fun kv => kv.1) :=
      List.mem_map_of_mem _ hkv
    rw [hTot1] at hmem
    rcases sumDeductions_keys_ne flat _ kv.1 hmem with hin | hne
    · dsimp only at hin
      intro he
      exact hcat (he ▸ initTotals_keys_mem cfg.category_order kv.1 hin)
    · exact hne
  have hval : ∀ kv : String × Int, kv ∈ r.1.totals →
      kv.2 = catSum flat kv.1 := by
    intro kv hkv
    have hf := alFind_mem_nodup hnd hkv
    rw [hfindc kv.1 (hkeyne kv hkv)] at hf
    by_cases hmem : kv.1 ∈ cfg.category_order
    · rw [if_pos hmem] at hf
      exact (Option.some_inj.mp hf).symm
    · rw [if_neg hmem] at hf
      by_cases hany : flat.any (fun d => resolvedCategory d = kv.1)
      · rw [if_pos hany] at hf
        exact (Option.some_inj.mp hf).symm
      · rw [if_neg hany] at hf
        cases hf
  refine ⟨?_, ?_, ?_⟩
  · apply List.map_congr_left
    intro cid hmem
    have hne : cid ≠ "" := fun he => hcat (he ▸ hmem)
    have hmap := alFind_map_entry r.1.totals
      (fun k v => match capOf cfg k with
        | some cap => min v cap
        | none => v) cid
    simp only [CategoryScore.mk.injEq, true_and, and_true]
    rw [hmap, hfindc cid hne, if_pos hmem]
    simp [cappedCatVal]
  · have hs : (List.map (fun kv => kv.2) (List.map (fun kv =>
        ((kv.1 : String),
          match capOf cfg kv.1 with
          | some cap => min kv.2 cap
          | none => kv.2)) r.1.totals)) =
        r.1.totals.map (fun kv => cappedCatVal cfg (catSum flat kv.1) kv.1) := by
      rw [List.map_map]
      apply List.map_congr_left
      intro kv hkv
      simp only [Function.comp]
      rw [← hval kv hkv]
      rfl
    rw [hs]
  · intro cid
    constructor
    · intro hmem
      rcases List.mem_map.mp hmem with ⟨kv, hkv, rfl⟩
      have hne := hkeyne kv hkv
      have hf := alFind_mem_nodup hnd hkv
      rw [hfindc kv.1 hne] at hf
      by_cases hord : kv.1 ∈ cfg.category_order
      · exact Or.inl hord
      · rw [if_neg hord] at hf
        by_cases hany : flat.any (fun d => resolvedCategory d = kv.1)
        · refine Or.inr ⟨hne, ?_⟩
          rcases List.any_eq_true.mp hany with ⟨d, hd, hdc⟩
          exact ⟨d, hd, by simpa using hdc⟩
        · rw [if_neg hany] at hf
          cases hf
    · intro hmem
      have hne : cid ≠ "" := by
        rcases hmem with hord | ⟨hne, -⟩
        · exact fun he => hcat (he ▸ hord)
        · exact hne
      have hfc := hfindc cid hne
      have : alFind r.1.totals cid ≠ none := by
        rw [hfc]
        rcases hmem with hord | ⟨-, d, hd, hdc⟩
        · rw [if_pos hord]
          simp
        · by_cases hord : cid ∈ cfg.category_order
          · rw [if_pos hord]
            simp
          · rw [if_neg hord]
            have hany : flat.any (fun d => resolvedCategory d = cid) := by
              exact List.any_eq_true.mpr ⟨d, hd, by simpa using hdc⟩
            rw [if_pos hany]
            simp
      by_cases hk : cid ∈ r.1.totals.map (fun kv => kv.1)
      · exact hk
      · exact absurd ((alFind_none_iff r.1.totals cid).mpr hk) this

def c3Cfg : ScoringModelCfg :=
  { category_order := ["B"],
    category_names := [("B", "Bygning")],
    category_caps := [("B", some 20)],
    deduct_per_occurrence := true,
    aggregate_level := "component",
    score_start := 100,
    score_floor := 0,
    score_ceiling := 100 }

def c3Out : AnalysisOutput :=
  { meta := ⟨none, none, none, none, none, none, none, none⟩,
    score_total := 0,
    score_band := "",
    score_by_category := [],
    top_score_drivers := [],
    findings := [
      { component_id := "c1", component_title := "Tittel", tg := none,
        issues := [],
        deductions := [
          ⟨"B_101", "", PVal.vint 20, []⟩,
          ⟨"B_102", "", PVal.vint 15, []⟩] }],
    improvements := [],
    disclaimers := [] }

/-- C3: when at least one deduction resolves to a category, the Score
Normalizer caps each category at its configured max_deduction and sets
score_total = clamp(score_start - sum of capped totals, floor, ceiling);
concretely, cap 20 with raw sum 35 yields deduction 20 and
score_total = clamp(100 - 20, 0, 100) = 80. -/
theorem c3_cap_and_clamp :
    (∀ (cfg : ScoringModelCfg) (out : AnalysisOutput),
      "" ∉ cfg.category_order →
      (normStateOf cfg out).hasDed = true →
      (normalizeScoringOutput cfg out).score_by_category =
        cfg.category_order.map (fun cid =>
          { category_id := cid,
            category_name := (alFind cfg.category_names cid).getD "",
            deduction := cappedCatVal cfg
              (catSum (flatDeductions (normalizeScoringOutput cfg out)) cid) cid,
            max_deduction := (capOf cfg cid).getD 0 }) ∧
      (∀ cid cap, capOf cfg cid = some cap →
        cappedCatVal cfg
          (catSum (flatDeductions (normalizeScoringOutput cfg out)) cid) cid ≤
          cap) ∧
      (normalizeScoringOutput cfg out).score_total =
        max cfg.score_floor (min cfg.score_ceiling
          (cfg.score_start - ((normStateOf cfg out).totals.map (fun kv =>
            cappedCatVal cfg
              (catSum (flatDeductions (normalizeScoringOutput cfg out)) kv.1)
              kv.1)).sum))) ∧
    ((normalizeScoringOutput c3Cfg c3Out).score_by_category =
        [{ category_id := "B", category_name := "Bygning",
           deduction := 20, max_deduction := 20 }] ∧
      catSum (flatDeductions (normalizeScoringOutput c3Cfg c3Out)) "B" = 35 ∧
      (normalizeScoringOutput c3Cfg c3Out).score_total = 80 ∧
      (80 : Int) =
        max c3Cfg.score_floor (min c3Cfg.score_ceiling
          (c3Cfg.score_start - 20))) := by
  constructor
  · intro cfg out hcat hD
    obtain ⟨h1, h2, -⟩ := norm_spec cfg out hcat hD
    refine ⟨h1, ?_, h2⟩
    intro cid cap hcap
    simp only [cappedCatVal, hcap]
    exact min_le_right _ _
  · exact ⟨by decide, by decide, by decide, by decide⟩

theorem c3_cap_and_clamp_witness :
    "" ∉ c3Cfg.category_order ∧
    (normStateOf c3Cfg c3Out).hasDed = true ∧
    (normalizeScoringOutput c3Cfg c3Out).score_total =
      max c3Cfg.score_floor (min c3Cfg.score_ceiling
        (c3Cfg.score_start - ((normStateOf c3Cfg c3Out).totals.map (fun kv =>
          cappedCatVal c3Cfg
            (catSum (flatDeductions (normalizeScoringOutput c3Cfg c3Out)) kv.1)
            kv.1)).sum)) :=
  ⟨by decide, by decide,
    (c3_cap_and_clamp.1 c3Cfg c3Out (by decide) (by decide)).2.2⟩

theorem strAppend_left_cancel {p a b : String} (h : p ++ a = p ++ b) :
    a = b := by
  have hd : p.data ++ a.data = p.data ++ b.data := congrArg String.data h
  have h2 := List.append_cancel_left hd
  cases a; cases b; exact congrArg String.mk h2

theorem assignCategory_rule_id (d : Deduction) :
    (assignCategory d).rule_id = d.rule_id := by
  simp only [assignCategory]
  split
  · rfl
  · split <;> rfl

theorem c2_foldl_spec (lvl : String) (dpo : Bool) (cid : String)
    (hkey : ∀ d : Deduction, dedupUniqueKey lvl dpo cid d = "report::" ++ d.rule_id)
    (r : String) (hr : r ≠ "") :
    ∀ (ds : List Deduction) (s : List String) (a : List Deduction),
      ((ds.foldl
        (fun (acc : List String × List Deduction) d =>
          if d.rule_id ≠ "" then
            let key := dedupUniqueKey lvl dpo cid d
            if key ∈ acc.1 then acc
            else (acc.1 ++ [key], acc.2 ++ [assignCategory d])
          else (acc.1, acc.2 ++ [assignCategory d]))
        (s, a)).2.filter (fun d => d.rule_id == r) =
        a.filter (fun d => d.rule_id == r) ++
          (if ("report::" ++ r) ∈ s then []
           else ((ds.filter (fun d => d.rule_id == r)).take 1).map
             assignCategory)) ∧
      (("report::" ++ r) ∈ (ds.foldl
        (fun (acc : List String × List Deduction) d =>
          if d.rule_id ≠ "" then
            let key := dedupUniqueKey lvl dpo cid d
            if key ∈ acc.1 then acc
            else (acc.1 ++ [key], acc.2 ++ [assignCategory d])
          else (acc.1, acc.2 ++ [assignCategory d]))
        (s, a)).1 ↔
        ("report::" ++ r) ∈ s ∨ ∃ d ∈ ds, d.rule_id = r) := by
  intro ds
  induction ds with
  | nil =>
    intro s a
    constructor
    · simp
    · simp
  | cons d ds ih =>
    intro s a
    simp only [List.foldl_cons]
    by_cases hd0 : d.rule_id = ""
    · rw [if_neg (by simpa using hd0)]
      have hne : (d.rule_id == r) = false := by
        rw [hd0, beq_eq_false_iff_ne]
        exact fun h => hr h.symm
      constructor
      · rcases ih s (a ++ [assignCategory d]) with ⟨h1, -⟩
        rw [h1]
        have hfa : (a ++ [assignCategory d]).filter (fun d => d.rule_id == r) =
            a.filter (fun d => d.rule_id == r) := by
          rw [List.filter_append]
          simp [assignCategory_rule_id, hne]
        rw [hfa]
        have hfd : (d :: ds).filter (fun d => d.rule_id == r) =
            ds.filter (fun d => d.rule_id == r) := by
          simp [List.filter_cons, hne]
        rw [hfd]
      · rcases ih s (a ++ [assignCategory d]) with ⟨-, h2⟩
        rw [h2]
        constructor
        · rintro (h | h)
          · exact Or.inl h
          · exact Or.inr (by rcases h with ⟨e, he, hre⟩; exact ⟨e, List.mem_cons_of_mem _ he, hre⟩)
        · rintro (h | ⟨e, he, hre⟩)
          · exact Or.inl h
          · rcases List.mem_cons.mp he with rfl | he2
            · exact absurd (hd0 ▸ hre) (fun h => hr h.symm)
            · exact Or.inr ⟨e, he2, hre⟩
    · rw [if_pos (by simpa using hd0)]
      simp only [hkey d]
      by_cases hk : ("report::" ++ d.rule_id) ∈ s
      · rw [if_pos hk]
        rcases ih s a with ⟨h1, h2⟩
        by_cases hdr : d.rule_id = r
        · subst hdr
          constructor
          · rw [h1, if_pos hk, if_pos hk]
          · rw [h2]
            constructor
            · rintro (h | h)
              · exact Or.inl h
              · exact Or.inr (by rcases h with ⟨e, he, hre⟩; exact ⟨e, List.mem_cons_of_mem _ he, hre⟩)
            · rintro (h | ⟨e, he, hre⟩)
              · exact Or.inl h
              · rcases List.mem_cons.mp he with rfl | he2
                · exact Or.inl hk
                · exact Or.inr ⟨e, he2, hre⟩
        · have hne : (d.rule_id == r) = false := by simp [hdr]
          constructor
          · rw [h1]
            have hfd : (d :: ds).filter (fun d => d.rule_id == r) =
                ds.filter (fun d => d.rule_id == r) := by
              simp [List.filter_cons, hne]
            rw [hfd]
          · rw [h2]
            constructor
            · rintro (h | h)
              · exact Or.inl h
              · exact Or.inr (by rcases h with ⟨e, he, hre⟩; exact ⟨e, List.mem_cons_of_mem _ he, hre⟩)
            · rintro (h | ⟨e, he, hre⟩)
              · exact Or.inl h
              · rcases List.mem_cons.mp he with rfl | he2
                · exact absurd hre hdr
                · exact Or.inr ⟨e, he2, hre⟩
      · rw [if_neg hk]
        rcases ih (s ++ ["report::" ++ d.rule_id]) (a ++ [assignCategory d]) with ⟨h1, h2⟩
        by_cases hdr : d.rule_id = r
        · subst hdr
          have hmem : ("report::" ++ d.rule_id) ∈ s ++ ["report::" ++ d.rule_id] := by
            simp
          constructor
          · rw [h1, if_pos hmem, if_neg hk]
            have hfa : (a ++ [assignCategory d]).filter (fun e => e.rule_id == d.rule_id) =
                a.filter (fun e => e.rule_id == d.rule_id) ++ [assignCategory d] := by
              rw [List.filter_append]
              simp [List.filter_cons, assignCategory_rule_id]
            rw [hfa]
            have hfd : (d :: ds).filter (fun e => e.rule_id == d.rule_id) =
                d :: ds.filter (fun e => e.rule_id == d.rule_id) := by
              simp [List.filter_cons]
            rw [hfd]
            simp
          · rw [h2]
            constructor
            · rintro (h | h)
              · rcases List.mem_append.mp h with h | h
                · exact Or.inl h
                · exact Or.inr ⟨d, List.mem_cons_self _ _, rfl⟩
              · exact Or.inr (by rcases h with ⟨e, he, hre⟩; exact ⟨e, List.mem_cons_of_mem _ he, hre⟩)
            · rintro (h | ⟨e, he, hre⟩)
              · exact Or.inl (List.mem_append.mpr (Or.inl h))
              · exact Or.inl hmem
        · have hne : (d.rule_id == r) = false := by simp [hdr]
          have hkne : ("report::" ++ r) ≠ ("report::" ++ d.rule_id) := by
            intro h
            exact hdr (strAppend_left_cancel h.symm)
          have hmem2 : (("report::" ++ r) ∈ s ++ ["report::" ++ d.rule_id]) ↔
              ("report::" ++ r) ∈ s := by
            simp [hkne]
          constructor
          · rw [h1]
            have hfa : (a ++ [assignCategory d]).filter (fun e => e.rule_id == r) =
                a.filter (fun e => e.rule_id == r) := by
              rw [List.filter_append]
              simp [assignCategory_rule_id, hne]
            rw [hfa]
            have hfd : (d :: ds).filter (fun e => e.rule_id == r) =
                ds.filter (fun e => e.rule_id == r) := by
              simp [List.filter_cons, hne]
            rw [hfd]
            by_cases hs : ("report::" ++ r) ∈ s
            · rw [if_pos (hmem2.mpr hs), if_pos hs]
            · rw [if_neg (by simpa [hmem2] using hs), if_neg hs]
          · rw [h2, hmem2]
            constructor
            · rintro (h | h)
              · exact Or.inl h
              · exact Or.inr (by rcases h with ⟨e, he, hre⟩; exact ⟨e, List.mem_cons_of_mem _ he, hre⟩)
            · rintro (h | ⟨e, he, hre⟩)
              · exact Or.inl h
              · rcases List.mem_cons.mp he with rfl | he2
                · exact absurd hre hdr
                · exact Or.inr ⟨e, he2, hre⟩



theorem take1_append_ne_nil {α : Type} {x : List α} (y : List α)
    (h : x ≠ []) : (x ++ y).take 1 = x.take 1 := by
  cases x with
  | nil => exact absurd rfl h
  | cons a l => simp

theorem c2_findings_spec (lvl : String) (dpo : Bool)
    (hkey : ∀ (cid : String) (d : Deduction),
      dedupUniqueKey lvl dpo cid d = "report::" ++ d.rule_id)
    (r : String) (hr : r ≠ "") :
    ∀ (cs : List Component) (st : NormState),
      ((((normalizeFindings lvl dpo st cs).2.map
          (fun c => c.deductions)).flatten).filter (fun d => d.rule_id == r) =
        (if ("report::" ++ r) ∈ st.seen then []
         else ((((cs.map (fun c => c.deductions)).flatten).filter
             (fun d => d.rule_id == r)).take 1).map assignCategory)) ∧
      (("report::" ++ r) ∈ (normalizeFindings lvl dpo st cs).1.seen ↔
        ("report::" ++ r) ∈ st.seen ∨
          ∃ d ∈ (cs.map (fun c => c.deductions)).flatten, d.rule_id = r) := by
  intro cs
  induction cs with
  | nil =>
    intro st
    constructor
    · simp [normalizeFindings]
    · simp [normalizeFindings]
  | cons c cs ih =>
    intro st
    have hfold := c2_foldl_spec lvl dpo c.component_id (hkey c.component_id)
      r hr c.deductions st.seen []
    have hded : (normalizeComponent lvl dpo st c).2.deductions =
        (dedupeDeductions lvl dpo c.component_id st.seen c.deductions).2 := rfl
    have hseen : (normalizeComponent lvl dpo st c).1.seen =
        (dedupeDeductions lvl dpo c.component_id st.seen c.deductions).1 := rfl
    rcases ih (normalizeComponent lvl dpo st c).1 with ⟨ih1, ih2⟩
    have hnf2 : (normalizeFindings lvl dpo st (c :: cs)).2 =
        (normalizeComponent lvl dpo st c).2 ::
          (normalizeFindings lvl dpo (normalizeComponent lvl dpo st c).1 cs).2 := rfl
    have hnf1 : (normalizeFindings lvl dpo st (c :: cs)).1 =
        (normalizeFindings lvl dpo (normalizeComponent lvl dpo st c).1 cs).1 := rfl
    have hmemc : ("report::" ++ r) ∈ (normalizeComponent lvl dpo st c).1.seen ↔
        ("report::" ++ r) ∈ st.seen ∨ ∃ d ∈ c.deductions, d.rule_id = r := by
      rw [hseen]
      exact hfold.2
    have hfc : (normalizeComponent lvl dpo st c).2.deductions.filter
        (fun d => d.rule_id == r) =
        (if ("report::" ++ r) ∈ st.seen then []
         else ((c.deductions.filter (fun d => d.rule_id == r)).take 1).map
           assignCategory) := by
      rw [hded]
      have h1 := hfold.1
      rw [List.filter_nil, List.nil_append] at h1
      exact h1
    constructor
    · rw [hnf2]
      simp only [List.map_cons, List.flatten_cons, List.filter_append]
      rw [hfc, ih1]
      by_cases hs : ("report::" ++ r) ∈ st.seen
      · rw [if_pos hs, if_pos (hmemc.mpr (Or.inl hs)), if_pos hs]
        rfl
      · by_cases hfe : c.deductions.filter (fun d => d.rule_id == r) = []
        · have hnex : ¬ ∃ d ∈ c.deductions, d.rule_id = r := by
            rintro ⟨d, hd, hdr⟩
            have hmf : d ∈ c.deductions.filter (fun d => d.rule_id == r) :=
              List.mem_filter.mpr ⟨hd, by simp [hdr]⟩
            rw [hfe] at hmf
            exact absurd hmf (List.not_mem_nil d)
          have hnotmem :
              ("report::" ++ r) ∉ (normalizeComponent lvl dpo st c).1.seen := by
            rw [hmemc]
            rintro (h | h)
            · exact hs h
            · exact hnex h
          rw [if_neg hnotmem, if_neg hs, if_neg hs, hfe]
          simp
        · have hex :
              ("report::" ++ r) ∈ (normalizeComponent lvl dpo st c).1.seen := by
            rw [hmemc]
            rcases List.exists_mem_of_ne_nil _ hfe with ⟨d, hd⟩
            rcases List.mem_filter.mp hd with ⟨hdm, hdr⟩
            exact Or.inr ⟨d, hdm, by simpa using hdr⟩
          rw [if_pos hex, if_neg hs, if_neg hs, take1_append_ne_nil _ hfe]
          simp
    · rw [hnf1, ih2, hmemc]
      simp only [List.map_cons, List.flatten_cons]
      constructor
      · rintro ((h | h) | h)
        · exact Or.inl h
        · rcases h with ⟨d, hd, hdr⟩
          exact Or.inr ⟨d, List.mem_append.mpr (Or.inl hd), hdr⟩
        · rcases h with ⟨d, hd, hdr⟩
          exact Or.inr ⟨d, List.mem_append.mpr (Or.inr hd), hdr⟩
      · rintro (h | ⟨d, hd, hdr⟩)
        · exact Or.inl (Or.inl h)
        · rcases List.mem_append.mp hd with h2 | h2
          · exact Or.inl (Or.inr ⟨d, h2, hdr⟩)
          · exact Or.inr ⟨d, h2, hdr⟩



def c2Cfg : ScoringModelCfg :=
  { category_order := ["B"],
    category_names := [("B", "Bygning")],
    category_caps := [("B", some 100)],
    deduct_per_occurrence := true,
    aggregate_level := "report",
    score_start := 100,
    score_floor := 0,
    score_ceiling := 100 }

def c2Out : AnalysisOutput :=
  { meta := ⟨none, none, none, none, none, none, none, none⟩,
    score_total := 0,
    score_band := "",
    score_by_category := [],
    top_score_drivers := [],
    findings := [
      { component_id := "bad", component_title := "Bad", tg := none,
        issues := [], deductions := [⟨"B_203", "", PVal.vint 10, []⟩] },
      { component_id := "tak", component_title := "Tak", tg := none,
        issues := [], deductions := [⟨"B_203", "", PVal.vint 15, []⟩] }],
    improvements := [],
    disclaimers := [] }

/-- C2: under a per-report scoring model (deduct_per_occurrence false, or
aggregate_level in \x7breport, global, document, rule\x7d), among all
deductions across all components sharing the same non-empty rule_id only
the first in encounter order survives normalization (with its category
annotation applied); concretely two "B_203" deductions of 10 and 15 points
in different components contribute exactly 10 to category B and the score
is 100 - 10 = 90. -/
theorem c2_report_dedup :
    (∀ (cfg : ScoringModelCfg) (out : AnalysisOutput) (r : String),
      (cfg.deduct_per_occurrence = false ∨
        String.mk (toLowerList cfg.aggregate_level.data) = "report" ∨
        String.mk (toLowerList cfg.aggregate_level.data) = "global" ∨
        String.mk (toLowerList cfg.aggregate_level.data) = "document" ∨
        String.mk (toLowerList cfg.aggregate_level.data) = "rule") →
      r ≠ "" →
      (flatDeductions (normalizeScoringOutput cfg out)).filter
          (fun d => d.rule_id == r) =
        (((flatDeductions out).filter (fun d => d.rule_id == r)).take 1).map
          assignCategory) ∧
    ((flatDeductions (normalizeScoringOutput c2Cfg c2Out)).filter
        (fun d => d.rule_id == "B_203") =
      [⟨"B_203", "B", PVal.vint 10, []⟩] ∧
      catSum (flatDeductions (normalizeScoringOutput c2Cfg c2Out)) "B" = 10 ∧
      (normalizeScoringOutput c2Cfg c2Out).score_total = 90) := by
  constructor
  · intro cfg out r hlvl hr
    have hkey : ∀ (cid : String) (d : Deduction),
        dedupUniqueKey (String.mk (toLowerList cfg.aggregate_level.data))
          cfg.deduct_per_occurrence cid d = "report::" ++ d.rule_id := by
      intro cid d
      rcases hlvl with h | h | h | h | h <;>
        simp [dedupUniqueKey, h]
    have hfind : (normalizeScoringOutput cfg out).findings =
        (normalizeFindings (String.mk (toLowerList cfg.aggregate_level.data))
          cfg.deduct_per_occurrence ⟨[], initTotals cfg.category_order, false⟩
          out.findings).2 := by
      unfold normalizeScoringOutput
      dsimp only
      split
      · rfl
      · rfl
    have hspec := (c2_findings_spec
      (String.mk (toLowerList cfg.aggregate_level.data))
      cfg.deduct_per_occurrence hkey r hr out.findings
      ⟨[], initTotals cfg.category_order, false⟩).1
    rw [if_neg (List.not_mem_nil _)] at hspec
    rw [flatDeductions, hfind, hspec, flatDeductions]
  · refine ⟨by decide, by decide, by decide⟩

theorem c2_report_dedup_witness :
    (c2Cfg.deduct_per_occurrence = false ∨
      String.mk (toLowerList c2Cfg.aggregate_level.data) = "report" ∨
      String.mk (toLowerList c2Cfg.aggregate_level.data) = "global" ∨
      String.mk (toLowerList c2Cfg.aggregate_level.data) = "document" ∨
      String.mk (toLowerList c2Cfg.aggregate_level.data) = "rule") ∧
    ("B_203" : String) ≠ "" ∧
    (flatDeductions (normalizeScoringOutput c2Cfg c2Out)).filter
        (fun d => d.rule_id == "B_203") =
      (((flatDeductions c2Out).filter
          (fun d => d.rule_id == "B_203")).take 1).map assignCategory :=
  ⟨by decide, by decide,
    c2_report_dedup.1 c2Cfg c2Out "B_203" (by decide) (by decide)⟩

def c8Cfg : ScoringModelCfg :=
  { category_order := ["B"],
    category_names := [("B", "Bygning")],
    category_caps := [("B", some 100)],
    deduct_per_occurrence := true,
    aggregate_level := "report",
    score_start := 100,
    score_floor := 0,
    score_ceiling := 100 }

def c8Out : AnalysisOutput :=
  { meta := ⟨none, none, none, none, none, none, none, none⟩,
    score_total := 0,
    score_band := "",
    score_by_category := [],
    top_score_drivers := [],
    findings := [
      { component_id := "bad", component_title := "Bad", tg := none,
        issues := [],
        deductions := [
          ⟨"B.203", "", PVal.vint 10, []⟩,
          ⟨"B_204", "", PVal.vint 5, []⟩] }],
    improvements := [],
    disclaimers := [] }

/-- C8: for a deduction without an explicit category_id the category is
inferred from the rule_id prefix before the first underscore only (a rule
id without an underscore infers nothing), uppercased and matched against
the fixed set A-E rather than the registry categories; an unresolvable
deduction contributes zero to every non-empty category total yet is kept
verbatim in the component deduction list. -/
theorem c8_category_inference :
    (∀ ruleId : String, ¬ ruleId.data.contains '_' →
      inferCategoryFromRuleId ruleId = "") ∧
    (∀ ruleId : String, inferCategoryFromRuleId ruleId = "" ∨
      inferCategoryFromRuleId ruleId = "A" ∨
      inferCategoryFromRuleId ruleId = "B" ∨
      inferCategoryFromRuleId ruleId = "C" ∨
      inferCategoryFromRuleId ruleId = "D" ∨
      inferCategoryFromRuleId ruleId = "E") ∧
    (∀ d : Deduction, d.category_id = "" →
      resolvedCategory d = inferCategoryFromRuleId d.rule_id) ∧
    (∀ (ds : List Deduction) (d : Deduction) (cid : String),
      resolvedCategory d = "" → cid ≠ "" →
      catSum (ds ++ [d]) cid = catSum ds cid) ∧
    (flatDeductions (normalizeScoringOutput c8Cfg c8Out) =
        [⟨"B.203", "", PVal.vint 10, []⟩, ⟨"B_204", "B", PVal.vint 5, []⟩] ∧
      catSum (flatDeductions (normalizeScoringOutput c8Cfg c8Out)) "B" = 5 ∧
      (normalizeScoringOutput c8Cfg c8Out).score_total = 95) := by
  refine ⟨?_, ?_, ?_, ?_, by decide, by decide, by decide⟩
  · intro ruleId h
    simp only [inferCategoryFromRuleId]
    rw [if_pos (Or.inr h)]
  · intro ruleId
    simp only [inferCategoryFromRuleId]
    by_cases h0 : ruleId = "" ∨ ¬ ruleId.data.contains '_'
    · rw [if_pos h0]
      exact Or.inl rfl
    · rw [if_neg h0]
      by_cases hp : String.mk (toUpperList (ruleId.data.takeWhile
            (fun c => c ≠ '_'))) = "A" ∨
          String.mk (toUpperList (ruleId.data.takeWhile (fun c => c ≠ '_'))) = "B" ∨
          String.mk (toUpperList (ruleId.data.takeWhile (fun c => c ≠ '_'))) = "C" ∨
          String.mk (toUpperList (ruleId.data.takeWhile (fun c => c ≠ '_'))) = "D" ∨
          String.mk (toUpperList (ruleId.data.takeWhile (fun c => c ≠ '_'))) = "E"
      · rw [if_pos hp]
        exact Or.inr hp
      · rw [if_neg hp]
        exact Or.inl rfl
  · intro d h
    simp [resolvedCategory, h]
  · intro ds d cid hres hcid
    have hne : ¬ (resolvedCategory d = cid) := by
      rw [hres]
      exact fun h2 => hcid h2.symm
    simp [catSum, List.filter_append, hne]

theorem c8_category_inference_witness :
    (¬ ("B300" : String).data.contains '_') ∧
    inferCategoryFromRuleId "B300" = "" :=
  ⟨by decide, c8_category_inference.1 "B300" (by decide)⟩

theorem c8_counterexample :
    inferCategoryFromRuleId "B.203" = "" ∧
    inferCategoryFromRuleId "X_1" = "" := by
  decide

def c9Cfg : ScoringModelCfg :=
  { category_order := ["B"],
    category_names := [("B", "Bygning")],
    category_caps := [("B", some 100)],
    deduct_per_occurrence := true,
    aggregate_level := "report",
    score_start := 100,
    score_floor := 0,
    score_ceiling := 110 }

def c9Out : AnalysisOutput :=
  { meta := ⟨none, none, none, none, none, none, none, none⟩,
    score_total := 0,
    score_band := "",
    score_by_category := [],
    top_score_drivers := [],
    findings := [
      { component_id := "bad", component_title := "Bad", tg := none,
        issues := [], deductions := [⟨"B_1", "", PVal.vint (-5), []⟩] }],
    improvements := [],
    disclaimers := [] }

/-- C9: non-numeric points values (None, or strings that int() rejects,
such as "7.5" or "abc") are coerced to zero before category summation, but
negative integer points pass through int() unchanged and DO decrease the
category total. -/
theorem c9_points_coercion :
    (∀ s : String, pyIntOfString s = none →
      pvalToIntLoose (PVal.vstr s) = 0) ∧
    (pvalToIntLoose PVal.vnone = 0) ∧
    (∀ n : Int, pvalToIntLoose (PVal.vint n) = n) ∧
    (∀ (ds : List Deduction) (d : Deduction) (cid : String),
      resolvedCategory d = cid →
      catSum (ds ++ [d]) cid = catSum ds cid + pvalToIntLoose d.points) ∧
    (pvalToIntLoose (PVal.vstr "7.5") = 0 ∧
      pvalToIntLoose (PVal.vstr "abc") = 0) := by
  refine ⟨?_, rfl, fun n => rfl, ?_, by decide, by decide⟩
  · intro s h
    simp [pvalToIntLoose, h]
  · intro ds d cid h
    simp [catSum, List.filter_append, h]

theorem c9_points_coercion_witness :
    pyIntOfString "abc" = none ∧
    pvalToIntLoose (PVal.vstr "abc") = 0 :=
  ⟨by decide, c9_points_coercion.1 "abc" (by decide)⟩

theorem c9_counterexample :
    pvalToIntLoose (PVal.vint (-5)) = -5 ∧
    catSum [⟨"B_1", "B", PVal.vint (-5), []⟩] "B" = -5 ∧
    (normalizeScoringOutput c9Cfg c9Out).score_total = 105 ∧
    c9Cfg.score_start = 100 := by
  decide

theorem normalizeEvidenceItem_page (e : EvidenceItem) :
    (normalizeEvidenceItem e).page = if e.page = none then some 1 else e.page := by
  simp only [normalizeEvidenceItem]
  by_cases h : (!optStrTruthy e.snippet && optStrTruthy e.text) = true
  · rw [if_pos h]
  · rw [if_neg h]

theorem mergeEvidenceDefaults_snippet_truthy (item defaults : EvidenceItem)
    (h : optStrTruthy item.snippet = true) :
    (mergeEvidenceDefaults item defaults).snippet = item.snippet := by
  simp [mergeEvidenceDefaults, h]

theorem mergeEvidenceDefaults_page_truthy (item defaults : EvidenceItem)
    (h : optIntTruthy item.page = true) :
    (mergeEvidenceDefaults item defaults).page = item.page := by
  simp [mergeEvidenceDefaults, h]

/-- C5: after issue grounding every issue of every component carries at
least one evidence record, unconditionally; every record additionally has
a non-empty snippet and page >= 1 PROVIDED the per-component seed built
from the report text has a non-empty snippet and positive page, and all
incoming evidence pages are >= 1 (for an empty report text the seed
snippet is empty, and a negative incoming page survives grounding). -/
theorem c5_issue_evidence :
    (∀ (out : AnalysisOutput) (reportText : String),
      ∀ c ∈ (ensureIssueEvidence out reportText).findings,
      ∀ iss ∈ c.issues, iss.evidence ≠ []) ∧
    (∀ (out : AnalysisOutput) (reportText : String),
      (∀ c ∈ out.findings,
        optStrTruthy (buildEvidenceForComponent c.component_id
          c.component_title c.tg (splitPages reportText)).snippet = true ∧
        (∃ n : Int, 1 ≤ n ∧
          (buildEvidenceForComponent c.component_id c.component_title c.tg
            (splitPages reportText)).page = some n)) →
      (∀ c ∈ out.findings, ∀ iss ∈ c.issues, ∀ e ∈ iss.evidence,
        ∀ n : Int, e.page = some n → 1 ≤ n) →
      ∀ c ∈ (ensureIssueEvidence out reportText).findings,
      ∀ iss ∈ c.issues, ∀ e ∈ iss.evidence,
        optStrTruthy e.snippet = true ∧
        ∃ n : Int, 1 ≤ n ∧ e.page = some n) := by
  constructor
  · intro out reportText c hc iss hiss
    simp only [ensureIssueEvidence] at hc
    obtain ⟨c0, hc0, rfl⟩ := List.mem_map.mp hc
    simp only [groundComponent] at hiss
    obtain ⟨iss0, hiss0, rfl⟩ := List.mem_map.mp hiss
    simp only [groundIssue]
    by_cases h1 : iss0.evidence.isEmpty
    · rw [if_pos h1]
      simp
    · rw [if_neg h1]
      by_cases h2 : (normalizeEvidenceItems iss0.evidence).isEmpty
      · rw [if_pos h2]
        simp
      · rw [if_neg h2]
        simp only [ne_eq, List.map_eq_nil_iff]
        intro hnil
        rw [hnil] at h2
        exact h2 rfl
  · intro out reportText hseed hpages c hc iss hiss e he
    simp only [ensureIssueEvidence] at hc
    obtain ⟨c0, hc0, rfl⟩ := List.mem_map.mp hc
    simp only [groundComponent] at hiss
    obtain ⟨iss0, hiss0, rfl⟩ := List.mem_map.mp hiss
    rcases hseed c0 hc0 with ⟨hsn0, n0, hn0, hpg0⟩
    simp only [groundIssue] at he
    by_cases h1 : iss0.evidence.isEmpty
    · rw [if_pos h1] at he
      simp only [List.mem_singleton] at he
      subst he
      exact ⟨hsn0, n0, hn0, hpg0⟩
    · rw [if_neg h1] at he
      by_cases h2 : (normalizeEvidenceItems iss0.evidence).isEmpty
      · rw [if_pos h2] at he
        simp only [List.mem_singleton] at he
        subst he
        exact ⟨hsn0, n0, hn0, hpg0⟩
      · rw [if_neg h2] at he
        simp only [List.mem_map] at he
        obtain ⟨it, hit, rfl⟩ := he
        simp only [normalizeEvidenceItems, List.mem_filter, List.mem_map]
          at hit
        obtain ⟨⟨e0, he0, rfl⟩, hok⟩ := hit
        rcases Bool.and_eq_true_iff.mp hok with ⟨hoks, hokp⟩
        constructor
        · rw [mergeEvidenceDefaults_snippet_truthy _ _ hoks]
          exact hoks
        · rw [mergeEvidenceDefaults_page_truthy _ _ hokp]
          rw [normalizeEvidenceItem_page] at hokp ⊢
          by_cases hp0 : e0.page = none
          · rw [if_pos hp0]
            exact ⟨1, le_refl 1, rfl⟩
          · rw [if_neg hp0]
            cases hpg : e0.page with
            | none => exact absurd hpg hp0
            | some m =>
              exact ⟨m, hpages c0 hc0 iss0 hiss0 e0 he0 m hpg, rfl⟩

def c5WDoc : String := "[SIDE 1]\nBad er pusset opp\n"

def c5WIss0 : Issue := ⟨some "i1", none, none, none, [], []⟩

def c5WComp : Component :=
  { component_id := "bad", component_title := "Bad", tg := none,
    issues := [c5WIss0], deductions := [] }

def c5WOut : AnalysisOutput :=
  { meta := ⟨none, none, none, none, none, none, none, none⟩,
    score_total := 0,
    score_band := "",
    score_by_category := [],
    top_score_drivers := [],
    findings := [c5WComp],
    improvements := [],
    disclaimers := [] }

def c5WEv : EvidenceItem :=
  buildEvidenceForComponent "bad" "Bad" none (splitPages c5WDoc)

theorem c5_issue_evidence_witness :
    optStrTruthy c5WEv.snippet = true ∧
    ∃ n : Int, 1 ≤ n ∧ c5WEv.page = some n :=
  c5_issue_evidence.2 c5WOut c5WDoc
    (by intro c hc
        rcases List.mem_singleton.mp hc with rfl
        refine ⟨by decide, 1, le_refl 1, by decide⟩)
    (by intro c hc iss hiss e he n hn
        rcases List.mem_singleton.mp hc with rfl
        rcases List.mem_singleton.mp hiss with rfl
        exact absurd he (List.not_mem_nil e))
    (groundComponent (splitPages c5WDoc) c5WComp) (by decide)
    (groundIssue c5WEv c5WIss0) (by decide)
    c5WEv (by decide)

def c5BadOut : AnalysisOutput :=
  { meta := ⟨none, none, none, none, none, none, none, none⟩,
    score_total := 0,
    score_band := "",
    score_by_category := [],
    top_score_drivers := [],
    findings := [
      { component_id := "bad", component_title := "Bad", tg := none,
        issues := [⟨some "i1", none, none, none, [], []⟩],
        deductions := [] }],
    improvements := [],
    disclaimers := [] }

def c5NegOut : AnalysisOutput :=
  { meta := ⟨none, none, none, none, none, none, none, none⟩,
    score_total := 0,
    score_band := "",
    score_by_category := [],
    top_score_drivers := [],
    findings := [
      { component_id := "bad", component_title := "Bad", tg := none,
        issues := [⟨some "i1", none, none, none, [],
          [⟨some "p", some "TG2", some (-3), some "h", some "LOCAL",
            some "fukt", none, none, some "m"⟩]⟩],
        deductions := [] }],
    improvements := [],
    disclaimers := [] }

theorem c5_counterexample :
    ((ensureIssueEvidence c5BadOut "").findings.map
        (fun c => c.issues.map (fun i => i.evidence.map (fun e => e.snippet))) =
      [[[some ""]]]) ∧
    ((ensureIssueEvidence c5NegOut c5WDoc).findings.map
        (fun c => c.issues.map (fun i => i.evidence.map (fun e => e.page))) =
      [[[some (-3)]]]) := by
  decide

theorem optdStr (o : Option String) (d : String) :
    (if (if o = none then some d else o) = none then some d
      else if o = none then some d else o) = if o = none then some d else o := by
  cases o <;> simp

theorem optdInt (o : Option Int) (d : Int) :
    (if (if o = none then some d else o) = none then some d
      else if o = none then some d else o) = if o = none then some d else o := by
  cases o <;> simp

theorem normalizeEvidenceItem_idem (e : EvidenceItem) :
    normalizeEvidenceItem (normalizeEvidenceItem e) = normalizeEvidenceItem e := by
  rcases e with ⟨p, t, pg, h, s, sn, tx, se, me⟩
  by_cases hsn : optStrTruthy sn = true
  · simp [normalizeEvidenceItem, hsn, optdStr, optdInt]
  · have hsn2 : optStrTruthy sn = false := by simpa using hsn
    by_cases htx : optStrTruthy tx = true
    · simp [normalizeEvidenceItem, hsn2, htx, optdStr, optdInt]
    · have htx2 : optStrTruthy tx = false := by simpa using htx
      simp [normalizeEvidenceItem, hsn2, htx2, optdStr, optdInt]

theorem mrgStr (o : Option String) (d : String) :
    (if optStrTruthy (if optStrTruthy o then o else some d) then
      (if optStrTruthy o then o else some d) else some d) =
    (if optStrTruthy o then o else some d) := by
  by_cases h : optStrTruthy o = true
  · simp [h]
  · simp [h]

theorem mrgInt (o sp : Option Int) :
    (if optIntTruthy (if optIntTruthy o then o else sp) then
      (if optIntTruthy o then o else sp) else sp) =
    (if optIntTruthy o then o else sp) := by
  by_cases h : optIntTruthy o = true
  · simp [h]
  · by_cases h2 : optIntTruthy sp = true
    · simp [h, h2]
    · simp [h, h2]

theorem mergeEvidenceDefaults_idem (i s : EvidenceItem) :
    mergeEvidenceDefaults (mergeEvidenceDefaults i s) s =
      mergeEvidenceDefaults i s := by
  rcases i with ⟨p, t, pg, h, so, sn, tx, se, me⟩
  simp only [mergeEvidenceDefaults]
  simp [mrgStr, mrgInt]



theorem normalizeEvidenceItems_idem (l : List EvidenceItem) :
    normalizeEvidenceItems (normalizeEvidenceItems l) =
      normalizeEvidenceItems l := by
  simp only [normalizeEvidenceItems]
  have h1 : ((l.map normalizeEvidenceItem).filter evidenceItemOk).map
      normalizeEvidenceItem =
      (l.map normalizeEvidenceItem).filter evidenceItemOk := by
    have h0 : ∀ x ∈ (l.map normalizeEvidenceItem).filter evidenceItemOk,
        normalizeEvidenceItem x = id x := by
      intro x hx
      rcases List.mem_filter.mp hx with ⟨hm, -⟩
      rcases List.mem_map.mp hm with ⟨e, -, rfl⟩
      exact normalizeEvidenceItem_idem e
    rw [List.map_congr_left h0, List.map_id]
  rw [h1]
  exact List.filter_eq_self.mpr (fun a ha => (List.mem_filter.mp ha).2)

theorem normalizeEvidenceItem_fixed (m : EvidenceItem)
    (hp : m.point_id ≠ none) (ht : m.tg ≠ none) (hh : m.heading ≠ none)
    (hs : m.source ≠ none) (hme : m.match_explain ≠ none)
    (hpg : m.page ≠ none)
    (hsn : optStrTruthy m.snippet = true ∨ m.text = none) :
    normalizeEvidenceItem m = m := by
  rcases m with ⟨p, t, pg, h, s, sn, tx, se, me⟩
  rcases p with _ | pv
  · exact absurd rfl hp
  rcases t with _ | tv
  · exact absurd rfl ht
  rcases h with _ | hv
  · exact absurd rfl hh
  rcases s with _ | sv
  · exact absurd rfl hs
  rcases me with _ | mev
  · exact absurd rfl hme
  rcases pg with _ | pgv
  · exact absurd rfl hpg
  rcases hsn with hsn | htx
  · simp only at hsn
    simp [normalizeEvidenceItem, hsn]
  · simp only at htx
    subst htx
    simp [normalizeEvidenceItem, optStrTruthy]

theorem truthyDefault_ne_none (o : Option String) (d : String) :
    (if optStrTruthy o then o else some d) ≠ none := by
  by_cases h : optStrTruthy o = true
  · cases o with
    | none => simp [optStrTruthy] at h
    | some x => simp [h]
  · simp [h]

theorem optIntTruthy_ne_none {o : Option Int} (h : optIntTruthy o = true) :
    o ≠ none := by
  cases o with
  | none => simp [optIntTruthy] at h
  | some n => simp

theorem mergeEvidenceDefaults_fixed (it seed : EvidenceItem)
    (hok : evidenceItemOk it = true) :
    normalizeEvidenceItem (mergeEvidenceDefaults it seed) =
      mergeEvidenceDefaults it seed ∧
    evidenceItemOk (mergeEvidenceDefaults it seed) = true := by
  rcases Bool.and_eq_true_iff.mp hok with ⟨hsn, hpg⟩
  have hsn2 : (mergeEvidenceDefaults it seed).snippet = it.snippet :=
    mergeEvidenceDefaults_snippet_truthy _ _ hsn
  have hpg2 : (mergeEvidenceDefaults it seed).page = it.page :=
    mergeEvidenceDefaults_page_truthy _ _ hpg
  constructor
  · apply normalizeEvidenceItem_fixed
    · show (if optStrTruthy it.point_id then it.point_id
        else some (seed.point_id.getD "")) ≠ none
      exact truthyDefault_ne_none _ _
    · show (if optStrTruthy it.tg then it.tg
        else some (seed.tg.getD "")) ≠ none
      exact truthyDefault_ne_none _ _
    · show (if optStrTruthy it.heading then it.heading
        else some (seed.heading.getD "")) ≠ none
      exact truthyDefault_ne_none _ _
    · show (if optStrTruthy it.source then it.source
        else some (seed.source.getD "")) ≠ none
      exact truthyDefault_ne_none _ _
    · show (if optStrTruthy it.match_explain then it.match_explain
        else some (seed.match_explain.getD "")) ≠ none
      exact truthyDefault_ne_none _ _
    · rw [hpg2]
      exact optIntTruthy_ne_none hpg
    · exact Or.inl (hsn2 ▸ hsn)
  · simp [evidenceItemOk, hsn2, hpg2, hsn, hpg]

def seedShaped (m : EvidenceItem) : Prop :=
  m.point_id ≠ none ∧ m.tg ≠ none ∧ m.page ≠ none ∧ m.heading ≠ none ∧
  m.source ≠ none ∧ m.snippet ≠ none ∧ m.match_explain ≠ none ∧
  m.text = none

theorem buildEvidence_seedShaped (cid ct : String) (tg : Option String)
    (pages : List Page) :
    seedShaped (buildEvidenceForComponent cid ct tg pages) := by
  simp only [buildEvidenceForComponent, seedShaped]
  cases hfe : findEvidenceInPages (searchTermsOf cid ct) pages with
  | some v =>
    rcases v with ⟨pg2, term, idx⟩
    simp
  | none => simp

theorem truthyDefault_self (x : String) :
    (if optStrTruthy (some x) then some x
      else some ((some x : Option String).getD "")) = some x := by
  by_cases hx : x = ""
  · simp [optStrTruthy, hx]
  · simp [optStrTruthy, hx]

theorem mergeEvidenceDefaults_self (s : EvidenceItem) (hs : seedShaped s) :
    mergeEvidenceDefaults s s = s := by
  obtain ⟨hp, ht, hpg, hh, hso, hsn, hme, htx⟩ := hs
  rcases s with ⟨p, t, pg, h, so, sn, tx, se, me⟩
  rcases p with _ | pv
  · exact absurd rfl hp
  rcases t with _ | tv
  · exact absurd rfl ht
  rcases pg with _ | pgv
  · exact absurd rfl hpg
  rcases h with _ | hv
  · exact absurd rfl hh
  rcases so with _ | sov
  · exact absurd rfl hso
  rcases sn with _ | snv
  · exact absurd rfl hsn
  rcases me with _ | mev
  · exact absurd rfl hme
  simp [mergeEvidenceDefaults, truthyDefault_self]

theorem normalizeEvidenceItem_seed (s : EvidenceItem) (hs : seedShaped s) :
    normalizeEvidenceItem s = s := by
  obtain ⟨hp, ht, hpg, hh, hso, hsn, hme, htx⟩ := hs
  exact normalizeEvidenceItem_fixed s hp ht hh hso hme hpg (Or.inr htx)



theorem normalizeEvidenceItems_seedlist (seed : EvidenceItem)
    (hs : seedShaped seed) :
    normalizeEvidenceItems [seed] =
      if evidenceItemOk seed then [seed] else [] := by
  simp only [normalizeEvidenceItems, List.map_cons, List.map_nil,
    normalizeEvidenceItem_seed seed hs]
  by_cases hok : evidenceItemOk seed = true
  · simp [List.filter_cons, hok]
  · simp only [Bool.not_eq_true] at hok
    simp [List.filter_cons, hok]

theorem normalizeEvidenceItems_fixed (E : List EvidenceItem)
    (hEq : ∀ m ∈ E, normalizeEvidenceItem m = m ∧ evidenceItemOk m = true) :
    normalizeEvidenceItems E = E := by
  simp only [normalizeEvidenceItems]
  have hmapE : E.map normalizeEvidenceItem = E := by
    have h0 : ∀ x ∈ E, normalizeEvidenceItem x = id x := fun x hx => (hEq x hx).1
    rw [List.map_congr_left h0, List.map_id]
  rw [hmapE]
  exact List.filter_eq_self.mpr (fun a ha => (hEq a ha).2)

theorem groundIssue_seedlist (seed : EvidenceItem) (hs : seedShaped seed)
    (iss : Issue) :
    groundIssue seed { iss with evidence := [seed] } =
      { iss with evidence := [seed] } := by
  simp only [groundIssue]
  rw [normalizeEvidenceItems_seedlist seed hs]
  by_cases hok : evidenceItemOk seed = true
  · simp [hok, mergeEvidenceDefaults_self seed hs]
  · simp only [Bool.not_eq_true] at hok
    simp [hok]

theorem groundIssue_idem (seed : EvidenceItem) (hs : seedShaped seed)
    (iss : Issue) :
    groundIssue seed (groundIssue seed iss) = groundIssue seed iss := by
  by_cases h1 : iss.evidence.isEmpty = true
  · have heq : groundIssue seed iss = { iss with evidence := [seed] } := by
      simp [groundIssue, h1]
    rw [heq]
    exact groundIssue_seedlist seed hs iss
  · by_cases h2 : (normalizeEvidenceItems iss.evidence).isEmpty = true
    · have heq : groundIssue seed iss = { iss with evidence := [seed] } := by
        simp [groundIssue, h1, h2]
      rw [heq]
      exact groundIssue_seedlist seed hs iss
    · have heq : groundIssue seed iss =
          { iss with evidence := List.map (fun it => mergeEvidenceDefaults it seed) (normalizeEvidenceItems iss.evidence) } := by
        simp [groundIssue, h1, h2]
      rw [heq]
      have hEok : ∀ m ∈ (normalizeEvidenceItems iss.evidence).map
          (fun it => mergeEvidenceDefaults it seed),
          normalizeEvidenceItem m = m ∧ evidenceItemOk m = true := by
        intro m hm
        rcases List.mem_map.mp hm with ⟨it, hit, rfl⟩
        have hokit : evidenceItemOk it = true := by
          simp only [normalizeEvidenceItems] at hit
          exact (List.mem_filter.mp hit).2
        exact mergeEvidenceDefaults_fixed it seed hokit
      have hnormE : normalizeEvidenceItems
          (List.map (fun it => mergeEvidenceDefaults it seed)
            (normalizeEvidenceItems iss.evidence)) =
          List.map (fun it => mergeEvidenceDefaults it seed)
            (normalizeEvidenceItems iss.evidence) :=
        normalizeEvidenceItems_fixed _ hEok
      have hEne : ((normalizeEvidenceItems iss.evidence).map
          (fun it => mergeEvidenceDefaults it seed)).isEmpty ≠ true := by
        intro hnil
        rw [List.isEmpty_iff] at hnil
        rcases List.map_eq_nil_iff.mp hnil with hnil2
        rw [hnil2] at h2
        exact h2 rfl
      simp only [groundIssue]
      rw [if_neg hEne, hnormE]
      rw [if_neg hEne]
      have hmm : ((normalizeEvidenceItems iss.evidence).map
          (fun it => mergeEvidenceDefaults it seed)).map
            (fun it => mergeEvidenceDefaults it seed) =
          (normalizeEvidenceItems iss.evidence).map
            (fun it => mergeEvidenceDefaults it seed) := by
        rw [List.map_map]
        apply List.map_congr_left
        intro it hit
        simp only [Function.comp]
        exact mergeEvidenceDefaults_idem it seed
      rw [hmm]



theorem groundComponent_idem (pages : List Page) (c : Component) :
    groundComponent pages (groundComponent pages c) =
      groundComponent pages c := by
  simp only [groundComponent]
  rw [List.map_map]
  have hmaps : List.map
      (groundIssue (buildEvidenceForComponent c.component_id
        c.component_title c.tg pages) ∘
        groundIssue (buildEvidenceForComponent c.component_id
          c.component_title c.tg pages)) c.issues =
      List.map (groundIssue (buildEvidenceForComponent c.component_id
        c.component_title c.tg pages)) c.issues := by
    apply List.map_congr_left
    intro iss hiss
    simp only [Function.comp]
    exact groundIssue_idem _ (buildEvidence_seedShaped _ _ _ _) iss
  rw [hmaps]

theorem ensureIssueEvidence_idem (out : AnalysisOutput) (reportText : String) :
    ensureIssueEvidence (ensureIssueEvidence out reportText) reportText =
      ensureIssueEvidence out reportText := by
  simp only [ensureIssueEvidence]
  rw [List.map_map]
  have hmaps : List.map (groundComponent (splitPages reportText) ∘
      groundComponent (splitPages reportText)) out.findings =
      List.map (groundComponent (splitPages reportText)) out.findings := by
    apply List.map_congr_left
    intro c hc
    simp only [Function.comp]
    exact groundComponent_idem _ c
  rw [hmaps]



theorem firstRuleCandidate_ne_nil (byRule : List (String × List EvidenceItem)) :
    ∀ (rs : List String) (cand : List EvidenceItem),
    firstRuleCandidate byRule rs = some cand → cand ≠ [] := by
  intro rs
  induction rs with
  | nil =>
    intro cand h
    cases h
  | cons r rs ih =>
    intro cand h
    simp only [firstRuleCandidate] at h
    cases hf : alFind byRule r with
    | some c =>
      rw [hf] at h
      dsimp only at h
      by_cases hc : c.isEmpty = true
      · rw [if_pos hc] at h
        exact ih cand h
      · rw [if_neg hc] at h
        obtain rfl := Option.some_inj.mp h
        intro hnil
        rw [hnil] at hc
        exact hc rfl
    | none =>
      rw [hf] at h
      exact ih cand h

theorem firstValuesCandidate_ne_nil
    (byRule : List (String × List EvidenceItem)) (cand : List EvidenceItem)
    (h : firstValuesCandidate byRule = some cand) : cand ≠ [] := by
  simp only [firstValuesCandidate] at h
  rcases Option.map_eq_some'.mp h with ⟨kv, hkv, rfl⟩
  have hp := List.find?_some hkv
  intro hnil
  rw [hnil] at hp
  simp at hp



theorem normalizeEvidenceItems_take_nil {cand : List EvidenceItem}
    (h : normalizeEvidenceItems cand = []) (n : Nat) :
    normalizeEvidenceItems (cand.take n) = [] := by
  simp only [normalizeEvidenceItems] at h ⊢
  rw [List.filter_eq_nil_iff] at h ⊢
  intro a ha
  rcases List.mem_map.mp ha with ⟨e, he, rfl⟩
  exact h _ (List.mem_map_of_mem _ (List.mem_of_mem_take he))

theorem normalizeEvidenceItems_placeholder :
    normalizeEvidenceItems [placeholderEvidence] = [] := by
  decide



theorem groundDriver_idem (byRule : List (String × List EvidenceItem))
    (d : Driver) :
    groundDriver byRule (groundDriver byRule d) = groundDriver byRule d := by
  by_cases h1 : (!d.evidence.isEmpty &&
      !(normalizeEvidenceItems d.evidence).isEmpty) = true
  · have hgd : groundDriver byRule d =
        { d with evidence := normalizeEvidenceItems d.evidence } := by
      simp only [groundDriver]
      rw [if_pos h1]
    rw [hgd]
    have hne : (normalizeEvidenceItems d.evidence).isEmpty = false := by
      have h2 := (Bool.and_eq_true_iff.mp h1).2
      simpa using h2
    have h1b : (!({ d with evidence := normalizeEvidenceItems d.evidence } :
        Driver).evidence.isEmpty &&
        !(normalizeEvidenceItems ({ d with
          evidence := normalizeEvidenceItems d.evidence } :
          Driver).evidence).isEmpty) = true := by
      try dsimp only
      rw [normalizeEvidenceItems_idem, hne]
      rfl
    simp only [groundDriver]
    rw [if_pos h1b]
    try dsimp only
    rw [normalizeEvidenceItems_idem]
  · cases hrc : firstRuleCandidate byRule d.rule_refs with
    | some cand =>
      have hcand : cand ≠ [] := firstRuleCandidate_ne_nil byRule _ cand hrc
      obtain ⟨c0, rest, rfl⟩ : ∃ c0 rest, cand = c0 :: rest := by
        cases cand with
        | nil => exact absurd rfl hcand
        | cons a l => exact ⟨a, l, rfl⟩
      by_cases hn : normalizeEvidenceItems (c0 :: rest) = []
      · have hn1 : normalizeEvidenceItems [c0] = [] := by
          have h3 := normalizeEvidenceItems_take_nil hn 1
          simpa using h3
        have hgd : groundDriver byRule d = { d with evidence := [c0] } := by
          simp only [groundDriver]
          rw [if_neg h1]
          try dsimp only
          rw [hrc]
          try dsimp only
          rw [hn]
          simp
        rw [hgd]
        simp only [groundDriver]
        try dsimp only
        rw [hrc]
        try dsimp only
        rw [hn1, hn]
        simp
      · have hnb : (normalizeEvidenceItems (c0 :: rest)).isEmpty = false := by
          cases hval : normalizeEvidenceItems (c0 :: rest) with
          | nil => exact absurd hval hn
          | cons x xs => rfl
        have hgd : groundDriver byRule d =
            { d with evidence := normalizeEvidenceItems (c0 :: rest) } := by
          simp only [groundDriver]
          rw [if_neg h1]
          try dsimp only
          rw [hrc]
          try dsimp only
          rw [hnb]
          simp [hnb]
        rw [hgd]
        have h1b : (!({ d with
            evidence := normalizeEvidenceItems (c0 :: rest) } :
            Driver).evidence.isEmpty &&
            !(normalizeEvidenceItems ({ d with
              evidence := normalizeEvidenceItems (c0 :: rest) } :
              Driver).evidence).isEmpty) = true := by
          try dsimp only
          rw [normalizeEvidenceItems_idem, hnb]
          rfl
        simp only [groundDriver]
        rw [if_pos h1b]
        try dsimp only
        rw [normalizeEvidenceItems_idem]
    | none =>
      by_cases he : d.evidence.isEmpty = true
      · cases hvc : firstValuesCandidate byRule with
        | some cand =>
          have hcand : cand ≠ [] := firstValuesCandidate_ne_nil byRule cand hvc
          obtain ⟨c0, rest, rfl⟩ : ∃ c0 rest, cand = c0 :: rest := by
            cases cand with
            | nil => exact absurd rfl hcand
            | cons a l => exact ⟨a, l, rfl⟩
          by_cases hn : normalizeEvidenceItems (c0 :: rest) = []
          · have hn1 : normalizeEvidenceItems [c0] = [] := by
              have h3 := normalizeEvidenceItems_take_nil hn 1
              simpa using h3
            have hgd : groundDriver byRule d = { d with evidence := [c0] } := by
              simp only [groundDriver]
              rw [if_neg h1]
              try dsimp only
              rw [hrc]
              try dsimp only
              rw [he]
              try dsimp only
              rw [hvc]
              try dsimp only
              rw [hn]
              simp
            rw [hgd]
            simp only [groundDriver]
            try dsimp only
            rw [hrc]
            try dsimp only
            rw [hn1]
            simp
          · have hnb : (normalizeEvidenceItems (c0 :: rest)).isEmpty = false := by
              cases hval : normalizeEvidenceItems (c0 :: rest) with
              | nil => exact absurd hval hn
              | cons x xs => rfl
            have hgd : groundDriver byRule d =
                { d with evidence := normalizeEvidenceItems (c0 :: rest) } := by
              simp only [groundDriver]
              rw [if_neg h1]
              try dsimp only
              rw [hrc]
              try dsimp only
              rw [he]
              try dsimp only
              rw [hvc]
              try dsimp only
              rw [hnb]
              simp [hnb]
            rw [hgd]
            have h1b : (!({ d with
                evidence := normalizeEvidenceItems (c0 :: rest) } :
                Driver).evidence.isEmpty &&
                !(normalizeEvidenceItems ({ d with
                  evidence := normalizeEvidenceItems (c0 :: rest) } :
                  Driver).evidence).isEmpty) = true := by
              try dsimp only
              rw [normalizeEvidenceItems_idem, hnb]
              rfl
            simp only [groundDriver]
            rw [if_pos h1b]
            try dsimp only
            rw [normalizeEvidenceItems_idem]
        | none =>
          have hgd : groundDriver byRule d =
              { d with evidence := [placeholderEvidence] } := by
            simp only [groundDriver]
            rw [if_neg h1]
            try dsimp only
            rw [hrc]
            try dsimp only
            rw [he]
            try dsimp only
            rw [hvc]
            simp [he]
          rw [hgd]
          simp only [groundDriver]
          try dsimp only
          rw [hrc]
          try dsimp only
          rw [normalizeEvidenceItems_placeholder]
          simp
      · have hgd : groundDriver byRule d = d := by
          simp only [groundDriver]
          rw [if_neg h1]
          try dsimp only
          rw [hrc]
          try dsimp only
          simp [he]
        rw [hgd]
        exact hgd



theorem ensureDriverEvidence_idem (a : AnalysisOutput) :
    ensureDriverEvidence (ensureDriverEvidence a) = ensureDriverEvidence a := by
  simp only [ensureDriverEvidence]
  try dsimp only
  rw [List.map_map]
  have hmaps : List.map (groundDriver (issueEvidenceByRule a.findings) ∘
      groundDriver (issueEvidenceByRule a.findings)) a.top_score_drivers =
      List.map (groundDriver (issueEvidenceByRule a.findings))
        a.top_score_drivers := by
    apply List.map_congr_left
    intro d hd
    simp only [Function.comp]
    exact groundDriver_idem _ d
  rw [hmaps]

theorem ensureIssue_after_driver (a : AnalysisOutput) (reportText : String) :
    ensureIssueEvidence
      (ensureDriverEvidence (ensureIssueEvidence a reportText)) reportText =
      ensureDriverEvidence (ensureIssueEvidence a reportText) := by
  simp only [ensureIssueEvidence, ensureDriverEvidence]
  try dsimp only
  rw [List.map_map]
  have hmaps : List.map (groundComponent (splitPages reportText) ∘
      groundComponent (splitPages reportText)) a.findings =
      List.map (groundComponent (splitPages reportText)) a.findings := by
    apply List.map_congr_left
    intro c hc
    simp only [Function.comp]
    exact groundComponent_idem _ c
  rw [hmaps]

/-- C6: the Evidence Grounder is idempotent: running issue grounding
followed by driver grounding a second time on the already-grounded output
returns the output unchanged. -/
theorem c6_grounding_idempotent :
    ∀ (out : AnalysisOutput) (reportText : String),
      ensureAnalysisEvidence (ensureAnalysisEvidence out reportText)
        reportText = ensureAnalysisEvidence out reportText := by
  intro out reportText
  simp only [ensureAnalysisEvidence]
  rw [ensureIssue_after_driver]
  exact ensureDriverEvidence_idem _

def setMetaTs (out : AnalysisOutput) (v : Option String) : AnalysisOutput :=
  { out with meta := { out.meta with analysis_timestamp_utc := v } }

theorem n1_issue (out : AnalysisOutput) (v : Option String) (txt : String) :
    ensureIssueEvidence (setMetaTs out v) txt =
      setMetaTs (ensureIssueEvidence out txt) v := rfl

theorem n2_driver (out : AnalysisOutput) (v : Option String) :
    ensureDriverEvidence (setMetaTs out v) =
      setMetaTs (ensureDriverEvidence out) v := rfl

theorem n3_norm (cfg : ScoringModelCfg) (out : AnalysisOutput)
    (v : Option String) :
    normalizeScoringOutput cfg (setMetaTs out v) =
      setMetaTs (normalizeScoringOutput cfg out) v := by
  unfold normalizeScoringOutput
  dsimp [setMetaTs]
  split
  · rfl
  · rfl

theorem n4_defaults (out : AnalysisOutput) (info : ScoringInfo)
    (v : Option String) :
    applyScoringMetaDefaults (setMetaTs out v) info =
      setMetaTs (applyScoringMetaDefaults out info) v := rfl

theorem n6_feedback (out : AnalysisOutput) (v : Option String)
    (dp : DetectedPointsPayload) (ri dh : Option String) :
    buildFeedbackV11 (setMetaTs out v) dp ri dh =
      buildFeedbackV11 out dp ri dh := rfl



theorem setMetaTs_setMetaTs (out : AnalysisOutput) (v w : Option String) :
    setMetaTs (setMetaTs out v) w = setMetaTs out w := rfl

theorem emf_some (out : AnalysisOutput) (dt di : Option String) (s : String)
    (h : out.meta.analysis_timestamp_utc = some s) (t1 t2 : String) :
    ensureMetaFields out dt di t1 = ensureMetaFields out dt di t2 := by
  simp [ensureMetaFields, h]

theorem emf_none (out : AnalysisOutput) (dt di : Option String)
    (h : out.meta.analysis_timestamp_utc = none) (t u : String) :
    ensureMetaFields out dt di t =
      setMetaTs (ensureMetaFields out dt di u) (some t) := by
  simp [ensureMetaFields, setMetaTs, h]

def dhOf (text : String) (dh0 : Option String) : String :=
  match dh0 with
  | some h => if h ≠ "" then h else sha256Hex text
  | none => sha256Hex text

def dpOf (text : String) (dh0 : Option String) (dt di : Option String)
    (pm : Option PdfMeta) : DetectedPointsPayload :=
  buildDetectedPointsPayload (extractDetectedPoints text) (dhOf text dh0)
    dt di pm

def out6Of (cfg : RunConfig) (text : String) (out : AnalysisOutput)
    (dt di : Option String) (tw : Bool) (ts : String) : AnalysisOutput :=
  let out1 := ensureMetaFields out dt di ts
  let out2 := ensureIssueEvidence out1 text
  let out3 := ensureDriverEvidence out2
  let out4 := normalizeScoringOutput cfg.scoring_cfg out3
  let out5 := applyScoringMetaDefaults out4 cfg.scoring_model_info
  if tw then
    { out5 with
      meta :=
        { out5.meta with
          model_notes :=
            some "Rapporttekst ble trunkert - full dokumentanalyse ikke mulig" } }
  else out5

def runMetaOf (cfg : RunConfig) (text : String) (dh0 : Option String)
    (r t : String) : RunMeta :=
  { run_id := r,
    analysis_timestamp_utc := t,
    model_name := cfg.model_name,
    seed := cfg.openai_seed,
    text_sha256 := dhOf text dh0,
    scoring_model := cfg.scoring_model_info,
    pipeline_git_sha :=
      if cfg.pipeline_git_sha ≠ "" then
        cfg.pipeline_git_sha ++ ":" ++ cfg.prompt_context_sha
      else cfg.prompt_context_sha }

def assemble (cfg : RunConfig) (text : String) (dh0 : Option String)
    (dp : DetectedPointsPayload) (o : AnalysisOutput) (r t : String)
    (fbr : Except String FeedbackPayload) :
    Except String (DetectedPointsPayload × ScoringResultPayload) :=
  Bind.bind fbr (fun fb => Except.ok (dp, { runMeta := runMetaOf cfg text dh0 r t, analysis_output := o, feedback_v11 := fb }))

theorem assemble_err (cfg : RunConfig) (text : String) (dh0 : Option String)
    (dp : DetectedPointsPayload) (o : AnalysisOutput) (r t : String)
    (e : String) :
    assemble cfg text dh0 dp o r t (Except.error e) = Except.error e := rfl

theorem assemble_ok (cfg : RunConfig) (text : String) (dh0 : Option String)
    (dp : DetectedPointsPayload) (o : AnalysisOutput) (r t : String)
    (fb : FeedbackPayload) :
    assemble cfg text dh0 dp o r t (Except.ok fb) =
      Except.ok (dp, { runMeta := runMetaOf cfg text dh0 r t, analysis_output := o, feedback_v11 := fb }) := rfl

theorem analyzePostProcess_eq (cfg : RunConfig) (text : String)
    (out : AnalysisOutput) (dt di dh0 : Option String) (pm : Option PdfMeta)
    (tw : Bool) (r t : String) :
    analyzePostProcess cfg text out dt di dh0 pm tw r t =
      assemble cfg text dh0 (dpOf text dh0 dt di pm)
        (out6Of cfg text out dt di tw t) r t
        (buildFeedbackV11 (out6Of cfg text out dt di tw t)
          (dpOf text dh0 dt di pm) di (some (dhOf text dh0))) := rfl



theorem out6Of_shift (cfg : RunConfig) (text : String) (out : AnalysisOutput)
    (dt di : Option String) (tw : Bool)
    (h : out.meta.analysis_timestamp_utc = none) (t u : String) :
    out6Of cfg text out dt di tw t =
      setMetaTs (out6Of cfg text out dt di tw u) (some t) := by
  simp only [out6Of]
  rw [emf_none out dt di h t u, n1_issue, n2_driver, n3_norm, n4_defaults]
  cases tw
  · simp
  · simp only [if_pos]
    rfl

theorem out6Of_indep (cfg : RunConfig) (text : String) (out : AnalysisOutput)
    (dt di : Option String) (tw : Bool) (s : String)
    (h : out.meta.analysis_timestamp_utc = some s) (t u : String) :
    out6Of cfg text out dt di tw t = out6Of cfg text out dt di tw u := by
  simp only [out6Of]
  rw [emf_some out dt di s h t u]

def scrubScoring (p : ScoringResultPayload) : ScoringResultPayload :=
  { p with
    runMeta :=
      { p.runMeta with run_id := "", analysis_timestamp_utc := "" },
    analysis_output := setMetaTs p.analysis_output none }

/-- C4: for fixed inputs the post-model pipeline is deterministic except
for the fresh uuid4 run_id and the two timestamps: two runs agree on the
DetectedPointsPayload and the FeedbackPayload, and on the
ScoringResultPayload after scrubbing run_id, the run_meta timestamp and
the meta.analysis_timestamp_utc; the run_id and timestamp of each run are
recorded verbatim in the payload, so two runs with different run ids are
NOT byte-identical. -/
theorem c4_determinism :
    (∀ (cfg : RunConfig) (text : String) (out : AnalysisOutput)
      (dt di dh : Option String) (pm : Option PdfMeta) (tw : Bool)
      (r1 t1 r2 t2 : String)
      (p1 p2 : DetectedPointsPayload × ScoringResultPayload),
      analyzePostProcess cfg text out dt di dh pm tw r1 t1 = Except.ok p1 →
      analyzePostProcess cfg text out dt di dh pm tw r2 t2 = Except.ok p2 →
      p1.1 = p2.1 ∧
      p1.2.feedback_v11 = p2.2.feedback_v11 ∧
      scrubScoring p1.2 = scrubScoring p2.2) ∧
    (∀ (cfg : RunConfig) (text : String) (out : AnalysisOutput)
      (dt di dh : Option String) (pm : Option PdfMeta) (tw : Bool)
      (r t : String) (p : DetectedPointsPayload × ScoringResultPayload),
      analyzePostProcess cfg text out dt di dh pm tw r t = Except.ok p →
      p.2.runMeta.run_id = r ∧
      p.2.runMeta.analysis_timestamp_utc = t) := by
  constructor
  · intro cfg text out dt di dh pm tw r1 t1 r2 t2 p1 p2 h1 h2
    rw [analyzePostProcess_eq] at h1 h2
    by_cases hts : out.meta.analysis_timestamp_utc = none
    · rw [out6Of_shift cfg text out dt di tw hts t1 t2, n6_feedback] at h1
      cases hfb : buildFeedbackV11 (out6Of cfg text out dt di tw t2)
          (dpOf text dh dt di pm) di (some (dhOf text dh)) with
      | error e =>
        rw [hfb, assemble_err] at h1
        cases h1
      | ok fb =>
        rw [hfb, assemble_ok] at h1 h2
        obtain rfl := (Except.ok.injEq _ _).mp h1.symm
        obtain rfl := (Except.ok.injEq _ _).mp h2.symm
        refine ⟨rfl, rfl, ?_⟩
        simp only [scrubScoring, runMetaOf, setMetaTs_setMetaTs]
    · obtain ⟨s, hs⟩ := Option.ne_none_iff_exists'.mp hts
      rw [out6Of_indep cfg text out dt di tw s hs t1 t2] at h1
      cases hfb : buildFeedbackV11 (out6Of cfg text out dt di tw t2)
          (dpOf text dh dt di pm) di (some (dhOf text dh)) with
      | error e =>
        rw [hfb, assemble_err] at h1
        cases h1
      | ok fb =>
        rw [hfb, assemble_ok] at h1 h2
        obtain rfl := (Except.ok.injEq _ _).mp h1.symm
        obtain rfl := (Except.ok.injEq _ _).mp h2.symm
        refine ⟨rfl, rfl, ?_⟩
        simp only [scrubScoring, runMetaOf]
  · intro cfg text out dt di dh pm tw r t p h
    rw [analyzePostProcess_eq] at h
    cases hfb : buildFeedbackV11 (out6Of cfg text out dt di tw t)
        (dpOf text dh dt di pm) di (some (dhOf text dh)) with
    | error e =>
      rw [hfb, assemble_err] at h
      cases h
    | ok fb =>
      rw [hfb, assemble_ok] at h
      obtain rfl := (Except.ok.injEq _ _).mp h.symm
      exact ⟨rfl, rfl⟩



instance exceptDecEqVqs {e a : Type} [DecidableEq e] [DecidableEq a] :
    DecidableEq (Except e a)
  | Except.error e1, Except.error e2 =>
    if h : e1 = e2 then isTrue (by rw [h])
    else isFalse (by intro hc; cases hc; exact h rfl)
  | Except.error _, Except.ok _ => isFalse (by intro hc; cases hc)
  | Except.ok _, Except.error _ => isFalse (by intro hc; cases hc)
  | Except.ok a1, Except.ok a2 =>
    if h : a1 = a2 then isTrue (by rw [h])
    else isFalse (by intro hc; cases hc; exact h rfl)

def c4Info : ScoringInfo :=
  { model_id := "vqs-model", version := "1", updated_at := "2024-01-01",
    sha256 := "regsha" }

def c4ScoringCfg : ScoringModelCfg :=
  { category_order := ["B"],
    category_names := [("B", "Bygning")],
    category_caps := [("B", some 100)],
    deduct_per_occurrence := true,
    aggregate_level := "report",
    score_start := 100,
    score_floor := 0,
    score_ceiling := 100 }

def c4Cfg : RunConfig :=
  { model_name := "gpt", openai_seed := some 7, pipeline_git_sha := "",
    prompt_context_sha := "ctx", scoring_model_info := c4Info,
    scoring_cfg := c4ScoringCfg }

def c4Out : AnalysisOutput :=
  { meta := ⟨none, none, none, none, none, none, none, none⟩,
    score_total := 0,
    score_band := "",
    score_by_category := [],
    top_score_drivers := [],
    findings := [],
    improvements := [],
    disclaimers := [] }

def c4P : DetectedPointsPayload × ScoringResultPayload :=
  ({ version := "v1.2",
     document_hash := "sha256:7",
     source_filename := "report.pdf",
     page_count := 1,
     engine := "validert-point-detector",
     engine_version := "1.0.0",
     notes := "Point headers detected via regex on extracted PDF text.",
     points := [] },
   { runMeta :=
       { run_id := "run-a",
         analysis_timestamp_utc := "ts-a",
         model_name := "gpt",
         seed := some 7,
         text_sha256 := "sha256:7",
         scoring_model := c4Info,
         pipeline_git_sha := "ctx" },
     analysis_output :=
       { meta :=
           { schema_version := some "1.4",
             analysis_timestamp_utc := some "ts-a",
             document_title := some "",
             document_id := none,
             scoring_model_id := some "vqs-model",
             scoring_model_version := some "1",
             scoring_model_updated_at := some "2024-01-01",
             model_notes := none },
         score_total := 0,
         score_band := "",
         score_by_category := [],
         top_score_drivers := [],
         findings := [],
         improvements := [],
         disclaimers := [] },
     feedback_v11 :=
       { version := "v1.1",
         report_id := "unknown_report",
         document_hash := "sha256:7",
         ordering :=
           { mode := "DOCUMENT_ORDER",
             dedupe_key := "point_key",
             source := "detected_points",
             note := "Sortert etter dokumentrekkef\u00f8lge." },
         score := { total := 0, category_deductions := [], top_drivers := [] },
         gate := { active := true, blocked_96 := false, blocked_by := [] },
         points_overview := [],
         findings := [] } })

theorem c4_determinism_witness :
    analyzePostProcess c4Cfg "" c4Out none none none none false
      "run-a" "ts-a" = Except.ok c4P ∧
    c4P.2.runMeta.run_id = "run-a" ∧
    c4P.2.runMeta.analysis_timestamp_utc = "ts-a" := by
  refine ⟨by decide, ?_, ?_⟩
  · exact (c4_determinism.2 c4Cfg "" c4Out none none none none false
      "run-a" "ts-a" c4P (by decide)).1
  · exact (c4_determinism.2 c4Cfg "" c4Out none none none none false
      "run-a" "ts-a" c4P (by decide)).2

theorem c4_counterexample :
    analyzePostProcess c4Cfg "" c4Out none none none none false
        "run-a" "ts-a" ≠
      analyzePostProcess c4Cfg "" c4Out none none none none false
        "run-b" "ts-a" := by
  decide

end VQS
